import Mathlib

/-!
SFDP (Serial Flash Discoverable Parameters) parsing: model and properties.

A shallow embedding of `drivers/source/SFDP.cpp`.  Machine integers are
mathematical integers with the wrap-around of the C conversions written out;
C arrays are lists whose reads return `none` outside the array; by-reference
outputs are returned next to the return value.
-/

namespace SFDP

/-! ## Constants and records declared in `drivers/internal/SFDP.h` -/

/-- Modelled from the spec: the size in bytes of the SFDP header and of every
parameter header ("8 bytes each"); the constant is declared in
`drivers/internal/SFDP.h`, which is not among the sources at hand. -/
def SFDP_HEADER_SIZE : Nat := 8

/-- Modelled from the spec: the maximum Basic Parameter Table size in bytes
(`MAX_BASIC_TABLE_SIZE`, "up to 20 DWORDS = 80 bytes" in `SFDP.cpp`); declared
in `drivers/internal/SFDP.h`. -/
def SFDP_BASIC_PARAMS_TBL_SIZE : Nat := 80

/-- Modelled from the spec: erase type 4 is bit 3 of an erase-type bitfield
("index i corresponds to bit i", scanning starts at index 3); declared in
`drivers/internal/SFDP.h`. -/
def SFDP_ERASE_BITMASK_TYPE4 : Nat := 0x08

/-- Modelled from the spec: the Basic Parameter Table part of the capability
record (`sfdp_bptbl_info` of `drivers/internal/SFDP.h`): table address and
size, device size in bytes (`bd_size_t`, 64 bits unsigned) and the legacy 4K
erase instruction (`int`). -/
structure sfdp_bptbl_info where
  addr : Nat
  size : Nat
  device_size_bytes : Nat
  legacy_erase_instruction : Int
deriving DecidableEq, Repr

/-- Modelled from the spec: the Sector Map part of the capability record
(`sfdp_smptbl_info` of `drivers/internal/SFDP.h`).  `region_cnt`,
`region_size` and `erase_type_inst_arr` are `int`; the bitfields are
`uint8_t`; `region_high_boundary` is `bd_size_t` (64 bits unsigned, it is
compared with a `bd_size_t` offset); `erase_type_size_arr` and
`regions_min_common_erase_size` are `unsigned int` (the code casts the sizes
to `int`). -/
structure sfdp_smptbl_info where
  addr : Nat
  size : Nat
  region_cnt : Int
  region_size : List Int
  region_erase_types_bitfld : List Nat
  regions_min_common_erase_size : Nat
  region_high_boundary : List Nat
  erase_type_inst_arr : List Int
  erase_type_size_arr : List Nat
deriving DecidableEq, Repr

/-- Modelled from the spec: the consolidated capability record
(`sfdp_hdr_info` of `drivers/internal/SFDP.h`). -/
structure sfdp_hdr_info where
  bptbl : sfdp_bptbl_info
  smptbl : sfdp_smptbl_info
deriving DecidableEq, Repr

/-! ## Machine arithmetic -/

/-- The `int` obtained by the cast `(int)u` of an `unsigned int` (32 bits,
two's complement). -/
def to_int32 (u : Nat) : Int :=
  if u % 2 ^ 32 < 2 ^ 31 then ((u % 2 ^ 32 : Nat) : Int) else ((u % 2 ^ 32 : Nat) : Int) - 2 ^ 32

/-- The value of a signed operand after the usual arithmetic conversion to a
64-bit unsigned type (reduction modulo `2^64`); it is also the result of a
64-bit unsigned subtraction. -/
def to_uint64 (i : Int) : Int := i % 2 ^ 64

/-- Read of the C array `xs` at the `int` index `i`; `none` when the index
is outside the array. -/
def array_read {α : Type} (xs : List α) (i : Int) : Option α :=
  if i < 0 then none else xs[i.toNat]?

/-! ## `sfdp_iterate_next_largest_erase_type` -/

/-- The local variables of `sfdp_iterate_next_largest_erase_type` when its
`for` loop is left, together with the working bitfield. -/
structure erase_type_scan where
  i_ind : Int
  bitfield : Nat
  largest_erase_type : Int
deriving DecidableEq, Repr

/-- The `for (i_ind = 3; i_ind >= 0; i_ind--)` loop of
`sfdp_iterate_next_largest_erase_type`.  The first argument is `i_ind + 1`;
then come `type_mask`, the working `bitfield` and `largest_erase_type`.
The second operand of `&&` is only evaluated when the first one holds. -/
def erase_type_loop (size offset region : Int) (smptbl : sfdp_smptbl_info) :
    Nat → Nat → Nat → Int → Option erase_type_scan
  | 0, _, bitfield, largest_erase_type => some ⟨-1, bitfield, largest_erase_type⟩
  | k + 1, type_mask, bitfield, largest_erase_type =>
    if bitfield &&& type_mask ≠ 0 then
      match smptbl.erase_type_size_arr[k]? with
      | none => none
      | some sz =>
        if size > to_int32 sz then
          match array_read smptbl.region_high_boundary region with
          | none => none
          | some hb =>
            if to_uint64 ((hb : Int) - offset) > to_uint64 (to_int32 sz) then
              some ⟨k, bitfield, k⟩
            else
              erase_type_loop size offset region smptbl k (type_mask >>> 1)
                (bitfield &&& (0xFF ^^^ type_mask)) k
        else
          erase_type_loop size offset region smptbl k (type_mask >>> 1)
            (bitfield &&& (0xFF ^^^ type_mask)) k
    else
      erase_type_loop size offset region smptbl k (type_mask >>> 1) bitfield largest_erase_type

/-- What a call of `sfdp_iterate_next_largest_erase_type` leaves behind: the
returned `int`, the working bitfield (passed by reference), the value of the
loop counter after the loop and whether the error trace "No erase type was
found for current region addr" was emitted. -/
structure erase_type_result where
  ret : Int
  bitfield : Nat
  i_ind : Int
  error_traced : Bool
deriving DecidableEq, Repr

/-- `int sfdp_iterate_next_largest_erase_type(uint8_t &bitfield, int size,
int offset, int region, const sfdp_smptbl_info &smptbl)`; `none` stands for
a read outside an array of the record. -/
def sfdp_iterate_next_largest_erase_type (bitfield : Nat) (size offset region : Int)
    (smptbl : sfdp_smptbl_info) : Option erase_type_result :=
  (erase_type_loop size offset region smptbl 4 SFDP_ERASE_BITMASK_TYPE4 bitfield 0).map
    fun s => ⟨s.largest_erase_type, s.bitfield, s.i_ind, decide (s.i_ind = 4)⟩

/-- The selection rule of the erase type selector for type index `i`: its
bit is set in the bitfield, the requested size exceeds the type size, and so
does the space left up to the region's high boundary `hb`. -/
def erase_type_fits (bitfield : Nat) (size offset : Int) (hb : Nat) (sizes : List Nat)
    (i : Nat) : Prop :=
  i < 4 ∧ bitfield.testBit i = true ∧
    ∃ sz, sizes[i]? = some sz ∧ size > (sz : Int) ∧ (hb : Int) - offset > (sz : Int)

/-- A record for the examples: erase types of 4, 32, 64 and 128 KiB and one
region ending at `hb`. -/
def example_smptbl (hb : Nat) : sfdp_smptbl_info :=
  { addr := 0, size := 0, region_cnt := 1, region_size := [(hb : Int) + 1],
    region_erase_types_bitfld := [0x0F], regions_min_common_erase_size := 4096,
    region_high_boundary := [hb], erase_type_inst_arr := [0x20, 0x52, 0xD8, 0xDC],
    erase_type_size_arr := [4096, 32768, 65536, 131072] }

/-! ## `sfdp_find_addr_region` -/

/-- The `for (i_ind = region_cnt - 2; i_ind >= 0; i_ind--)` loop of
`sfdp_find_addr_region` with the `return -1` that follows it.  The last
argument is `i_ind + 1`. -/
def find_addr_region_loop (offset : Nat) (region_high_boundary : List Nat) : Nat → Option Int
  | 0 => some (-1)
  | k + 1 =>
    match region_high_boundary[k]? with
    | none => none
    | some hb =>
      if offset > hb then some ((k : Int) + 1)
      else find_addr_region_loop offset region_high_boundary k

/-- `int sfdp_find_addr_region(bd_size_t offset, const sfdp_hdr_info &sfdp_info)`;
`none` stands for undefined behaviour (overflow of `region_cnt - 2`, or a
read outside `region_high_boundary`). -/
def sfdp_find_addr_region (offset : Nat) (sfdp_info : sfdp_hdr_info) : Option Int :=
  if offset > sfdp_info.bptbl.device_size_bytes ∨ sfdp_info.smptbl.region_cnt = 0 then
    some (-1)
  else if sfdp_info.smptbl.region_cnt = 1 then
    some 0
  else if sfdp_info.smptbl.region_cnt - 2 < -(2 ^ 31) then
    none
  else
    find_addr_region_loop offset sfdp_info.smptbl.region_high_boundary
      (sfdp_info.smptbl.region_cnt - 2 + 1).toNat

/-- A record with `region_cnt` regions whose high boundaries are given, on a
device of `device_size_bytes` bytes (the other fields do not matter to the
region locator). -/
def example_regions (device_size_bytes : Nat) (region_cnt : Int) (boundaries : List Nat) :
    sfdp_hdr_info :=
  { bptbl := { addr := 0, size := 0, device_size_bytes := device_size_bytes,
               legacy_erase_instruction := 0 },
    smptbl := { example_smptbl 0 with region_cnt := region_cnt,
                                      region_high_boundary := boundaries } }

/-! ## Header parsing -/

/-- The `struct sfdp_hdr` of `SFDP.cpp`: eight `uint8_t` fields. -/
structure sfdp_hdr where
  SIG_B0 : Nat
  SIG_B1 : Nat
  SIG_B2 : Nat
  SIG_B3 : Nat
  R_MINOR : Nat
  R_MAJOR : Nat
  NPH : Nat
  ACP : Nat
deriving DecidableEq, Repr

/-- The `struct sfdp_prm_hdr` of `SFDP.cpp`: four `uint8_t` fields and the
`uint32_t` field `DWORD2`. -/
structure sfdp_prm_hdr where
  PID_LSB : Nat
  P_MINOR : Nat
  P_MAJOR : Nat
  P_LEN : Nat
  DWORD2 : Nat
deriving DecidableEq, Repr

/-- The cast `(sfdp_hdr *)sfdp_header` of an 8-byte buffer (`buf i` is the
byte at index `i`). -/
def as_sfdp_hdr (buf : Nat → Nat) : sfdp_hdr :=
  { SIG_B0 := buf 0, SIG_B1 := buf 1, SIG_B2 := buf 2, SIG_B3 := buf 3,
    R_MINOR := buf 4, R_MAJOR := buf 5, NPH := buf 6, ACP := buf 7 }

/-- The cast `(sfdp_prm_hdr *)param_header` of an 8-byte buffer; `DWORD2` is
the 32-bit word at bytes 4..7 in the little-endian byte order of the targets. -/
def as_sfdp_prm_hdr (buf : Nat → Nat) : sfdp_prm_hdr :=
  { PID_LSB := buf 0, P_MINOR := buf 1, P_MAJOR := buf 2, P_LEN := buf 3,
    DWORD2 := buf 4 + buf 5 * 2 ^ 8 + buf 6 * 2 ^ 16 + buf 7 * 2 ^ 24 }

/-- The four bytes that `memcmp(sfdp_hdr_ptr, "SFDP", 4)` compares with. -/
def SFDP_SIGNATURE : List Nat := "SFDP".toList.map Char.toNat

/-- `int sfdp_parse_sfdp_header(sfdp_hdr *sfdp_hdr_ptr)`. -/
def sfdp_parse_sfdp_header (sfdp_hdr_ptr : sfdp_hdr) : Int :=
  if ¬ ([sfdp_hdr_ptr.SIG_B0, sfdp_hdr_ptr.SIG_B1, sfdp_hdr_ptr.SIG_B2, sfdp_hdr_ptr.SIG_B3]
          = SFDP_SIGNATURE ∧ sfdp_hdr_ptr.R_MAJOR = 1) then
    -1
  else
    let hdr_cnt : Int := (sfdp_hdr_ptr.NPH : Int) + 1
    hdr_cnt

/-- `sfdp_get_param_id_msb`: Parameter ID MSB of the second DWORD. -/
def sfdp_get_param_id_msb (dword2 : Nat) : Nat := (dword2 &&& 0xFF000000) >>> 24

/-- `sfdp_get_param_tbl_ptr`: Parameter Table Pointer of the second DWORD. -/
def sfdp_get_param_tbl_ptr (dword2 : Nat) : Nat := dword2 &&& 0x00FFFFFF

/-- `int sfdp_parse_single_param_header(sfdp_prm_hdr *phdr_ptr, sfdp_hdr_info &hdr_info)`:
the returned status and the record afterwards. -/
def sfdp_parse_single_param_header (phdr_ptr : sfdp_prm_hdr) (hdr_info : sfdp_hdr_info) :
    Int × sfdp_hdr_info :=
  if phdr_ptr.P_MAJOR ≠ 1 then
    (-1, hdr_info)
  else if phdr_ptr.PID_LSB = 0 ∧ sfdp_get_param_id_msb phdr_ptr.DWORD2 = 0xFF then
    (0, { hdr_info with
          bptbl := { hdr_info.bptbl with
                     addr := sfdp_get_param_tbl_ptr phdr_ptr.DWORD2,
                     size := min (phdr_ptr.P_LEN * 4) SFDP_BASIC_PARAMS_TBL_SIZE } })
  else if phdr_ptr.PID_LSB = 0x81 ∧ sfdp_get_param_id_msb phdr_ptr.DWORD2 = 0xFF then
    (0, { hdr_info with
          smptbl := { hdr_info.smptbl with
                      addr := sfdp_get_param_tbl_ptr phdr_ptr.DWORD2,
                      size := phdr_ptr.P_LEN * 4 } })
  else
    (0, hdr_info)

/-- What one call of the reader callback gives back: its `int` status and the
content of the destination buffer after the call. -/
structure read_reply where
  status : Int
  data : Nat → Nat

/-- The callback `Callback<int(bd_addr_t, void *, bd_size_t)>`: from the
state of the device behind it, an address and a length, to the new state and
the reply. -/
abbrev sfdp_reader_fn (σ : Type) : Type := σ → Nat → Nat → σ × read_reply

/-- One recorded call of the reader: address, length and returned status. -/
structure reader_call where
  addr : Nat
  length : Nat
  status : Int
deriving DecidableEq, Repr

/-- What `sfdp_parse_headers` leaves behind: the returned `int`, the record
(passed by reference), the reader calls made, in order, and the state of the
device behind the reader. -/
structure parse_headers_result (σ : Type) where
  ret : Int
  sfdp_info : sfdp_hdr_info
  calls : List reader_call
  reader_state : σ

/-- The `for (i_ind = 0; i_ind < number_of_param_headers; i_ind++)` loop of
`sfdp_parse_headers` with the `return 0` that follows it.  The first argument
is `number_of_param_headers - i_ind`; at most 256 headers are read, so `addr`
stays far below the range of `bd_addr_t`. -/
def param_headers_loop {σ : Type} (reader : sfdp_reader_fn σ) :
    Nat → Nat → σ → sfdp_hdr_info → List reader_call → parse_headers_result σ
  | 0, _, s, sfdp_info, calls => ⟨0, sfdp_info, calls, s⟩
  | n + 1, addr, s, sfdp_info, calls =>
    let r := reader s addr SFDP_HEADER_SIZE
    let calls1 := calls ++ [⟨addr, SFDP_HEADER_SIZE, r.2.status⟩]
    if r.2.status < 0 then
      ⟨-1, sfdp_info, calls1, r.1⟩
    else
      let p := sfdp_parse_single_param_header (as_sfdp_prm_hdr r.2.data) sfdp_info
      if p.1 < 0 then
        ⟨p.1, p.2, calls1, r.1⟩
      else
        param_headers_loop reader n (addr + SFDP_HEADER_SIZE) r.1 p.2 calls1

/-- `int sfdp_parse_headers(Callback<int(bd_addr_t, void *, bd_size_t)> sfdp_reader,
sfdp_hdr_info &sfdp_info)`, started with the device in state `s`. -/
def sfdp_parse_headers {σ : Type} (reader : sfdp_reader_fn σ) (s : σ)
    (sfdp_info : sfdp_hdr_info) : parse_headers_result σ :=
  let addr : Nat := 0x0
  let r := reader s addr SFDP_HEADER_SIZE
  let calls := [(⟨addr, SFDP_HEADER_SIZE, r.2.status⟩ : reader_call)]
  if r.2.status < 0 then
    ⟨-1, sfdp_info, calls, r.1⟩
  else
    let number_of_param_headers := sfdp_parse_sfdp_header (as_sfdp_hdr r.2.data)
    if number_of_param_headers < 0 then
      ⟨number_of_param_headers, sfdp_info, calls, r.1⟩
    else
      param_headers_loop reader number_of_param_headers.toNat (addr + SFDP_HEADER_SIZE)
        r.1 sfdp_info calls

/-- The bytes `SFDP_SIGNATURE`, minor 6, major `major`, `nph`, access protocol 0xFF
of a main header, as a buffer. -/
def example_main_header (major nph : Nat) : Nat → Nat :=
  fun i => ([0x53, 0x46, 0x44, 0x50, 6, major, nph, 0xFF] : List Nat).getD i 0

/-- A parameter header as a buffer: `pid_lsb`, minor 0, major `p_major`,
length `p_len` DWORDS, table pointer `ptr` (24 bits), `pid_msb`. -/
def example_param_header (pid_lsb p_major p_len ptr pid_msb : Nat) : Nat → Nat :=
  fun i => ([pid_lsb, 0, p_major, p_len, ptr % 256, ptr / 256 % 256, ptr / 65536 % 256,
             pid_msb] : List Nat).getD i 0

/-- A stateless device with a valid main header announcing `nph + 1`
parameter headers: the Basic table header at address 8, then Sector Map
table headers; every read succeeds. -/
def example_reader (nph : Nat) : sfdp_reader_fn Unit :=
  fun s addr _ =>
    (s, { status := 0,
          data := if addr = 0 then example_main_header 1 nph
                  else if addr = 8 then example_param_header 0x00 1 16 0x30 0xFF
                  else example_param_header 0x81 1 4 0x100 0xFF })

/-- A device that counts the reads made so far (its state) and fails the
read number `bad` (counted from 0); the data are those of `example_reader`. -/
def failing_reader (nph bad : Nat) : sfdp_reader_fn Nat :=
  fun s addr len =>
    (s + 1, { status := if s = bad then -1 else 0,
              data := ((example_reader nph) () addr len).2.data })

/-- The reference of the parameter header scanner, in the words of the spec:
with `PID_MSB` the bits 24..31 and `ptr` the bits 0..23 of the little-endian
DWORD at bytes 4..7, a header with `PID_LSB == 0x00` and `PID_MSB == 0xFF`
records `ptr` and `min(P_LEN*4, 80)` as address and size of the Basic table,
one with `PID_LSB == 0x81` and `PID_MSB == 0xFF` records `ptr` and `P_LEN*4`
as address and size of the Sector Map table, and any other header leaves the
record as it is. -/
def param_header_reference (buf : Nat → Nat) (hdr_info : sfdp_hdr_info) : sfdp_hdr_info :=
  let dword := buf 4 + 2 ^ 8 * buf 5 + 2 ^ 16 * buf 6 + 2 ^ 24 * buf 7
  let pid_msb := dword / 2 ^ 24 % 2 ^ 8
  let ptr := dword % 2 ^ 24
  if buf 0 = 0x00 ∧ pid_msb = 0xFF then
    { hdr_info with bptbl := { hdr_info.bptbl with addr := ptr, size := min (buf 3 * 4) 80 } }
  else if buf 0 = 0x81 ∧ pid_msb = 0xFF then
    { hdr_info with smptbl := { hdr_info.smptbl with addr := ptr, size := buf 3 * 4 } }
  else
    hdr_info

/-! ## The Basic Parameter Table decoders

The table `bptbl_ptr` is the list of the bytes of the buffer it points to; a
read outside the buffer gives `none`. -/

/-- `SFDP_BASIC_PARAM_TABLE_ERASE_TYPE_1_BYTE`: Erase Type 1 Instruction. -/
def SFDP_BASIC_PARAM_TABLE_ERASE_TYPE_1_BYTE : Nat := 29

/-- `SFDP_BASIC_PARAM_TABLE_ERASE_TYPE_1_SIZE_BYTE`: Erase Type 1 Size. -/
def SFDP_BASIC_PARAM_TABLE_ERASE_TYPE_1_SIZE_BYTE : Nat := 28

/-- `SFDP_BASIC_PARAM_TABLE_4K_ERASE_TYPE_BYTE`: 4 Kilobyte Erase Instruction. -/
def SFDP_BASIC_PARAM_TABLE_4K_ERASE_TYPE_BYTE : Nat := 1

/-- `SFDP_ERASE_BITMASK_TYPE_4K_ERASE_UNSUPPORTED`. -/
def SFDP_ERASE_BITMASK_TYPE_4K_ERASE_UNSUPPORTED : Nat := 0xFF

/-- `int sfdp_detect_device_density(uint8_t *bptbl_ptr, sfdp_bptbl_info &bptbl_info)`:
the returned status and the record afterwards.  `density_bits` is a
`uint32_t`, and `density_bits + 1` is computed in 32 bits unsigned. -/
def sfdp_detect_device_density (bptbl_ptr : List Nat) (bptbl_info : sfdp_bptbl_info) :
    Option (Int × sfdp_bptbl_info) :=
  match bptbl_ptr[7]?, bptbl_ptr[6]?, bptbl_ptr[5]?, bptbl_ptr[4]? with
  | some b7, some b6, some b5, some b4 =>
    let density_bits := ((b7 <<< 24) ||| (b6 <<< 16) ||| (b5 <<< 8) ||| b4) % 2 ^ 32
    some (0, { bptbl_info with device_size_bytes := (density_bits + 1) % 2 ^ 32 / 8 })
  | _, _, _, _ => none

/-- `size_t sfdp_detect_page_size(uint8_t *basic_param_table_ptr, size_t basic_param_table_size)`. -/
def sfdp_detect_page_size (basic_param_table_ptr : List Nat) (basic_param_table_size : Nat) :
    Option Nat :=
  let SFDP_BASIC_PARAM_TABLE_PAGE_SIZE := 40
  let SFDP_DEFAULT_PAGE_SIZE := 256
  if basic_param_table_size > SFDP_BASIC_PARAM_TABLE_PAGE_SIZE then
    match basic_param_table_ptr[SFDP_BASIC_PARAM_TABLE_PAGE_SIZE]? with
    | none => none
    | some b =>
      let page_to_power_size := b >>> 4
      some (1 <<< page_to_power_size)
  else
    some SFDP_DEFAULT_PAGE_SIZE

/-- `int sfdp_detect_addressability(uint8_t *bptbl_ptr, sfdp_bptbl_info &bptbl_info)`:
the returned status and the record afterwards.  The source has two variants;
`device_qspi` tells whether `DEVICE_QSPI` is set, which selects the first
one, and otherwise the `DEVICE_SPI` variant is compiled. -/
def sfdp_detect_addressability (device_qspi : Bool) (bptbl_ptr : List Nat)
    (bptbl_info : sfdp_bptbl_info) : Option (Int × sfdp_bptbl_info) :=
  if device_qspi then
    match bptbl_ptr[7]? with
    | none => none
    | some b7 => if b7 &&& 0x80 ≠ 0 then some (-1, bptbl_info) else some (0, bptbl_info)
  else
    match bptbl_ptr[2]? with
    | none => none
    | some b2 =>
      if b2 &&& 0x4 ≠ 0 then some (-1, bptbl_info)
      else
        match bptbl_ptr[7]? with
        | none => none
        | some b7 => if b7 &&& 0x80 ≠ 0 then some (-1, bptbl_info) else some (0, bptbl_info)

/-- Write of `v` at index `i` of the C array `xs`; `none` when the index is
outside the array. -/
def array_write {α : Type} (xs : List α) (i : Nat) (v : α) : Option (List α) :=
  if i < xs.length then some (xs.set i v) else none

/-- The body of the loop over the erase types 1-4 in
`sfdp_detect_erase_types_inst_and_size`, for the index `i_ind` and the mask
`bitfield`.  The shift `1 << N` of an `int` is undefined from `N = 32` on. -/
def erase_type_iteration (bptbl_ptr : List Nat) (i_ind bitfield : Nat)
    (sfdp_info : sfdp_hdr_info) : Option sfdp_hdr_info :=
  match array_write sfdp_info.smptbl.erase_type_inst_arr i_ind (-1),
      bptbl_ptr[SFDP_BASIC_PARAM_TABLE_ERASE_TYPE_1_SIZE_BYTE + 2 * i_ind]? with
  | some inst_arr1, some n =>
    if 32 ≤ n then none
    else
      match array_write sfdp_info.smptbl.erase_type_size_arr i_ind (1 <<< n) with
      | none => none
      | some size_arr1 =>
        if 1 <<< n > 1 then
          match bptbl_ptr[SFDP_BASIC_PARAM_TABLE_ERASE_TYPE_1_BYTE + 2 * i_ind]?,
              sfdp_info.smptbl.region_erase_types_bitfld[0]? with
          | some inst, some bitfld0 =>
            match array_write inst_arr1 i_ind (inst : Int) with
            | none => none
            | some inst_arr2 =>
              some { sfdp_info with
                smptbl := { sfdp_info.smptbl with
                  erase_type_inst_arr := inst_arr2,
                  erase_type_size_arr := size_arr1,
                  regions_min_common_erase_size :=
                    if 1 <<< n < sfdp_info.smptbl.regions_min_common_erase_size
                        ∨ sfdp_info.smptbl.regions_min_common_erase_size = 0 then
                      1 <<< n
                    else sfdp_info.smptbl.regions_min_common_erase_size,
                  region_erase_types_bitfld :=
                    sfdp_info.smptbl.region_erase_types_bitfld.set 0
                      ((bitfld0 ||| bitfield) % 2 ^ 8) } }
          | _, _ => none
        else
          some { sfdp_info with
            smptbl := { sfdp_info.smptbl with
              erase_type_inst_arr := inst_arr1,
              erase_type_size_arr := size_arr1 } }
  | _, _ => none

/-- The update of `regions_min_common_erase_size` in one iteration of the
loop over the erase types, for a type of size `sz`: a type of size 1 is not
implemented and changes nothing; otherwise the size is taken when it is
smaller than the value so far or that value is 0. -/
def min_erase_size_step (m sz : Nat) : Nat :=
  if sz > 1 then (if sz < m ∨ m = 0 then sz else m) else m

/-- The `for (int i_ind = 0; i_ind < 4; i_ind++)` loop of
`sfdp_detect_erase_types_inst_and_size`.  The first argument is `4 - i_ind`. -/
def erase_types_loop (bptbl_ptr : List Nat) : Nat → Nat → Nat → sfdp_hdr_info → Option sfdp_hdr_info
  | 0, _, _, sfdp_info => some sfdp_info
  | k + 1, i_ind, bitfield, sfdp_info =>
    match erase_type_iteration bptbl_ptr i_ind bitfield sfdp_info with
    | none => none
    | some sfdp_info1 =>
      erase_types_loop bptbl_ptr k (i_ind + 1) ((bitfield <<< 1) % 2 ^ 8) sfdp_info1

/-- `int sfdp_detect_erase_types_inst_and_size(uint8_t *bptbl_ptr, sfdp_hdr_info &sfdp_info)`:
the returned status and the record afterwards. -/
def sfdp_detect_erase_types_inst_and_size (bptbl_ptr : List Nat) (sfdp_info : sfdp_hdr_info) :
    Option (Int × sfdp_hdr_info) :=
  if sfdp_info.bptbl.size > SFDP_BASIC_PARAM_TABLE_ERASE_TYPE_1_SIZE_BYTE then
    (erase_types_loop bptbl_ptr 4 0 0x01 sfdp_info).map fun sfdp_info1 => (0, sfdp_info1)
  else
    match bptbl_ptr[SFDP_BASIC_PARAM_TABLE_4K_ERASE_TYPE_BYTE]? with
    | none => none
    | some b =>
      let sfdp_info1 : sfdp_hdr_info :=
        { sfdp_info with bptbl := { sfdp_info.bptbl with legacy_erase_instruction := (b : Int) } }
      if sfdp_info1.bptbl.legacy_erase_instruction
          = (SFDP_ERASE_BITMASK_TYPE_4K_ERASE_UNSUPPORTED : Int) then
        some (-1, sfdp_info1)
      else
        some (0, sfdp_info1)

/-- A Basic Parameter Table of 64 bytes (16 DWORDS) for the examples: byte 1
is `legacy` (the 4K erase instruction), byte 2 is `b2`, bytes 4..7 are the
density field `density` in little-endian order, bytes 28..35 are `erase`
(size exponent and instruction of the erase types 1-4) and byte 40 is `page`. -/
def example_basic_table (legacy b2 density : Nat) (erase : List Nat) (page : Nat) : List Nat :=
  (List.range 64).map fun i =>
    if i = 0 then 0xE5 else if i = 1 then legacy else if i = 2 then b2 else if i = 3 then 0xFF
    else if i = 4 then density % 256 else if i = 5 then density / 2 ^ 8 % 256
    else if i = 6 then density / 2 ^ 16 % 256 else if i = 7 then density / 2 ^ 24 % 256
    else if 28 ≤ i ∧ i < 36 then erase.getD (i - 28) 0
    else if i = 40 then page else 0

/-- Erase types of 4 KiB (0x20), 32 KiB (0x52) and 64 KiB (0xD8); type 4 is
not implemented (exponent 0). -/
def example_erase_types : List Nat := [0x0C, 0x20, 0x0F, 0x52, 0x10, 0xD8, 0x00, 0xFF]

/-- A capability record before the Basic table is decoded: its declared size
is `size`, one region whose bitfield is still empty, no erase type known. -/
def example_fresh_info (size : Nat) : sfdp_hdr_info :=
  { bptbl := { addr := 0x30, size := size, device_size_bytes := 0,
               legacy_erase_instruction := 0 },
    smptbl := { addr := 0, size := 0, region_cnt := 1, region_size := [0, 0, 0, 0, 0, 0, 0, 0, 0, 0],
                region_erase_types_bitfld := [0, 0, 0, 0, 0, 0, 0, 0, 0, 0],
                regions_min_common_erase_size := 0,
                region_high_boundary := [0, 0, 0, 0, 0, 0, 0, 0, 0, 0],
                erase_type_inst_arr := [0, 0, 0, 0],
                erase_type_size_arr := [0, 0, 0, 0] } }

/-! ## `sfdp_parse_sector_map_table` -/

/-- Modelled from the spec: the bitmask of all four erase types ("default
set to all type bits 1-4 are common" in `SFDP.cpp`); declared in
`drivers/internal/SFDP.h`. -/
def SFDP_ERASE_BITMASK_ALL : Nat := 0x0F

/-- Modelled from the spec: erase type 1 is bit 0 of an erase-type bitfield
("index i corresponds to bit i", the scan for the common type starts at type
1); declared in `drivers/internal/SFDP.h`. -/
def SFDP_ERASE_BITMASK_TYPE1 : Nat := 0x01

/-- Whether a value is in the range of the C type `int` (32 bits). -/
def int_in_range (i : Int) : Prop := -(2 ^ 31) ≤ i ∧ i < 2 ^ 31

instance (i : Int) : Decidable (int_in_range i) := by
  unfold int_in_range
  infer_instance

/-- The load `*((uint32_t *)&sector_map_table[off])` in the little-endian
byte order of the targets; `none` when one of the four bytes is outside the
table. -/
def sector_map_dword (sector_map_table : List Nat) (off : Nat) : Option Nat :=
  match sector_map_table[off]?, sector_map_table[off + 1]?, sector_map_table[off + 2]?,
      sector_map_table[off + 3]? with
  | some b0, some b1, some b2, some b3 => some (b0 + b1 * 2 ^ 8 + b2 * 2 ^ 16 + b3 * 2 ^ 24)
  | _, _, _, _ => none

/-- The loop `for (i_ind = 0; i_ind < region_cnt; i_ind++)` over the regions
in `sfdp_parse_sector_map_table`.  The first argument is `region_cnt - i_ind`;
then come `i_ind`, `prev_boundary` (an `int`), `min_common_erase_type_bits`
and the Sector Map part of the record.  `tmp_region_size` is a `uint32_t`,
so `(tmp_region_size + 1) * 256` is computed in 32 bits unsigned; the sum
`(region_size[i_ind] - 1) + prev_boundary` is computed in `int`, where an
overflow is undefined (`none`). -/
def sector_map_regions_loop (sector_map_table : List Nat) :
    Nat → Nat → Int → Nat → sfdp_smptbl_info → Option (Nat × sfdp_smptbl_info)
  | 0, _, _, min_common_erase_type_bits, smptbl => some (min_common_erase_type_bits, smptbl)
  | k + 1, i_ind, prev_boundary, min_common_erase_type_bits, smptbl =>
    match sector_map_dword sector_map_table ((i_ind + 1) * 4),
        sector_map_table[(i_ind + 1) * 4]? with
    | some d, some b =>
      let tmp_region_size := (d >>> 8) &&& 0x00FFFFFF
      let region_size_i := to_int32 ((tmp_region_size + 1) * 256 % 2 ^ 32)
      let bitfld_i := b &&& 0x0F
      if ¬ int_in_range (region_size_i - 1) ∨ ¬ int_in_range (region_size_i - 1 + prev_boundary) then
        none
      else
        let high_boundary_i := (to_uint64 (region_size_i - 1 + prev_boundary)).toNat
        match array_write smptbl.region_size i_ind region_size_i,
            array_write smptbl.region_erase_types_bitfld i_ind bitfld_i,
            array_write smptbl.region_high_boundary i_ind high_boundary_i with
        | some region_size1, some bitfld1, some high_boundary1 =>
          sector_map_regions_loop sector_map_table k (i_ind + 1)
            (to_int32 ((high_boundary_i + 1) % 2 ^ 64))
            (min_common_erase_type_bits &&& bitfld_i)
            { smptbl with region_size := region_size1,
                          region_erase_types_bitfld := bitfld1,
                          region_high_boundary := high_boundary1 }
        | _, _, _ => none
    | _, _ => none

/-- The loop `for (i_ind = 0; i_ind < 4; i_ind++)` of
`sfdp_parse_sector_map_table` that picks the common erase size.  The first
argument is `4 - i_ind`, then come `i_ind` and `type_mask`; the result holds
the value of `i_ind` when the loop is left. -/
def common_erase_size_loop (min_common_erase_type_bits : Nat) :
    Nat → Nat → Nat → sfdp_smptbl_info → Option (Nat × sfdp_smptbl_info)
  | 0, i_ind, _, smptbl => some (i_ind, smptbl)
  | k + 1, i_ind, type_mask, smptbl =>
    if min_common_erase_type_bits &&& type_mask ≠ 0 then
      match smptbl.erase_type_size_arr[i_ind]? with
      | none => none
      | some sz => some (i_ind, { smptbl with regions_min_common_erase_size := sz })
    else
      common_erase_size_loop min_common_erase_type_bits k (i_ind + 1)
        ((type_mask <<< 1) % 2 ^ 8) smptbl

/-- The value of the condition
`!((sector_map_table[0] & 0x3) == 0x03) && (sector_map_table[1] == 0x0)`
that guards the failure "Supporting Only Single Map Descriptor"; byte 1 is
only read when the first operand of `&&` holds. -/
def sector_map_descriptor_rejected (sector_map_table : List Nat) : Option Bool :=
  match sector_map_table[0]? with
  | none => none
  | some b0 =>
    if ¬ (b0 &&& 0x3 = 0x03) then
      match sector_map_table[1]? with
      | none => none
      | some b1 => some (decide (b1 = 0x0))
    else
      some false

/-- The part of `sfdp_parse_sector_map_table` that follows the descriptor
check: region count, the loop over the regions and the common erase size.
`SFDP_SECTOR_MAP_MAX_REGIONS` is a constant of the absent
`drivers/internal/SFDP.h` and is taken as a parameter. -/
def sector_map_decode_regions (SFDP_SECTOR_MAP_MAX_REGIONS : Nat) (sector_map_table : List Nat)
    (sfdp_info : sfdp_hdr_info) : Option (Int × sfdp_hdr_info) :=
  match (sector_map_table[2]? : Option Nat) with
  | none => none
  | some b2 =>
    let sfdp_info1 : sfdp_hdr_info :=
      { sfdp_info with smptbl := { sfdp_info.smptbl with region_cnt := (b2 : Int) + 1 } }
    if sfdp_info1.smptbl.region_cnt > (SFDP_SECTOR_MAP_MAX_REGIONS : Int) then
      some (-1, sfdp_info1)
    else
      match sector_map_regions_loop sector_map_table sfdp_info1.smptbl.region_cnt.toNat 0 0
          SFDP_ERASE_BITMASK_ALL sfdp_info1.smptbl with
      | none => none
      | some (min_common_erase_type_bits, smptbl2) =>
        match common_erase_size_loop min_common_erase_type_bits 4 0 SFDP_ERASE_BITMASK_TYPE1
            smptbl2 with
        | none => none
        | some (i_ind, smptbl3) =>
          some (0, { sfdp_info1 with
            smptbl := if i_ind = 4 then { smptbl3 with regions_min_common_erase_size := 0 }
                      else smptbl3 })

/-- The part of `sfdp_parse_sector_map_table` that follows the read of the
table: descriptor check, then `sector_map_decode_regions`. -/
def sector_map_decode (SFDP_SECTOR_MAP_MAX_REGIONS : Nat) (sector_map_table : List Nat)
    (sfdp_info : sfdp_hdr_info) : Option (Int × sfdp_hdr_info) :=
  match sector_map_descriptor_rejected sector_map_table with
  | none => none
  | some true => some (-1, sfdp_info)
  | some false => sector_map_decode_regions SFDP_SECTOR_MAP_MAX_REGIONS sector_map_table sfdp_info

/-- The record after the first two assignments of
`sfdp_parse_sector_map_table`: one region sized the entire device.
`region_size` holds `int` values and `region_high_boundary` 64-bit unsigned
ones, so the device size is converted and `device_size_bytes - 1` wraps at 0. -/
def sector_map_single_region (sfdp_info : sfdp_hdr_info) : Option sfdp_hdr_info :=
  match array_write sfdp_info.smptbl.region_size 0 (to_int32 sfdp_info.bptbl.device_size_bytes),
      array_write sfdp_info.smptbl.region_high_boundary 0
        (to_uint64 ((sfdp_info.bptbl.device_size_bytes : Int) - 1)).toNat with
  | some region_size1, some high_boundary1 =>
    some { sfdp_info with
      smptbl := { sfdp_info.smptbl with region_size := region_size1,
                                        region_high_boundary := high_boundary1 } }
  | _, _ => none

/-- The record after the first two assignments of
`sfdp_parse_sector_map_table` when both region arrays have an entry 0. -/
def single_region_info (sfdp_info : sfdp_hdr_info) : sfdp_hdr_info :=
  { sfdp_info with
    smptbl := { sfdp_info.smptbl with
      region_size :=
        sfdp_info.smptbl.region_size.set 0 (to_int32 sfdp_info.bptbl.device_size_bytes),
      region_high_boundary :=
        sfdp_info.smptbl.region_high_boundary.set 0
          (to_uint64 ((sfdp_info.bptbl.device_size_bytes : Int) - 1)).toNat } }

/-- The bytes of `sector_map_table` that the read of `smptbl.size` bytes at
`smptbl.addr` delivers; the other bytes of the buffer are not initialized,
and reading one of them gives `none`. -/
def sector_map_table_read {σ : Type} (reader : sfdp_reader_fn σ) (s : σ)
    (sfdp_info : sfdp_hdr_info) : List Nat :=
  (List.range sfdp_info.smptbl.size).map
    (reader s sfdp_info.smptbl.addr sfdp_info.smptbl.size).2.data

/-- What `sfdp_parse_sector_map_table` leaves behind: the returned `int`, the
record (passed by reference), the reader calls made and the state of the
device behind the reader. -/
structure sector_map_result (σ : Type) where
  ret : Int
  sfdp_info : sfdp_hdr_info
  calls : List reader_call
  reader_state : σ

/-- `int sfdp_parse_sector_map_table(Callback<int(bd_addr_t, void *, bd_size_t)> sfdp_reader,
sfdp_hdr_info &sfdp_info)`, started with the device in state `s`.  The
buffer `sector_map_table` has `SFDP_BASIC_PARAMS_TBL_SIZE` bytes: a read of
more bytes overflows it (`none`). -/
def sfdp_parse_sector_map_table {σ : Type} (SFDP_SECTOR_MAP_MAX_REGIONS : Nat)
    (reader : sfdp_reader_fn σ) (s : σ) (sfdp_info : sfdp_hdr_info) :
    Option (sector_map_result σ) :=
  match sector_map_single_region sfdp_info with
  | none => none
  | some sfdp_info0 =>
    if sfdp_info0.smptbl.addr = 0 ∨ sfdp_info0.smptbl.size = 0 then
      some ⟨0, sfdp_info0, [], s⟩
    else if sfdp_info0.smptbl.size > SFDP_BASIC_PARAMS_TBL_SIZE then
      none
    else
      let r := reader s sfdp_info0.smptbl.addr sfdp_info0.smptbl.size
      let calls : List reader_call :=
        [⟨sfdp_info0.smptbl.addr, sfdp_info0.smptbl.size, r.2.status⟩]
      if r.2.status < 0 then
        some ⟨-1, sfdp_info0, calls, r.1⟩
      else
        match sector_map_decode SFDP_SECTOR_MAP_MAX_REGIONS
            (sector_map_table_read reader s sfdp_info0) sfdp_info0 with
        | none => none
        | some p => some ⟨p.1, p.2, calls, r.1⟩

/-- The 32-bit little-endian word of the descriptor of region `i`, at the
table bytes `4(i+1) .. 4(i+1)+3`. -/
def region_descriptor_word (sector_map_table : List Nat) (i : Nat) : Nat :=
  sector_map_table.getD (4 * (i + 1)) 0 + sector_map_table.getD (4 * (i + 1) + 1) 0 * 2 ^ 8
    + sector_map_table.getD (4 * (i + 1) + 2) 0 * 2 ^ 16
    + sector_map_table.getD (4 * (i + 1) + 3) 0 * 2 ^ 24

/-- The bits 8..31 of the descriptor word of region `i`: its size field. -/
def region_descriptor_value (sector_map_table : List Nat) (i : Nat) : Nat :=
  region_descriptor_word sector_map_table i / 2 ^ 8 % 2 ^ 24

/-- The size in bytes that the descriptor of region `i` stands for:
`(value + 1) * 256`. -/
def region_descriptor_size (sector_map_table : List Nat) (i : Nat) : Nat :=
  (region_descriptor_value sector_map_table i + 1) * 256

/-- The sum of the sizes that the descriptors of the regions `0 .. n-1`
stand for. -/
def region_sizes_sum (sector_map_table : List Nat) (n : Nat) : Nat :=
  ((List.range n).map (region_descriptor_size sector_map_table)).sum

/-- The situation in which `sfdp_parse_sector_map_table` gets to the region
count `byte2 + 1`: both region arrays of the record have an entry 0, a
sector-map table is recorded and fits the buffer, its read succeeds and
delivers the bytes 0, 1 and 2, and the descriptor check does not reject the
table (it rejects when `(byte0 & 0x3) != 0x3` and `byte1 == 0`). -/
def sector_map_accepted {σ : Type} (reader : sfdp_reader_fn σ) (s : σ)
    (sfdp_info : sfdp_hdr_info) (b2 : Nat) : Prop :=
  0 < sfdp_info.smptbl.region_size.length ∧
  0 < sfdp_info.smptbl.region_high_boundary.length ∧
  sfdp_info.smptbl.addr ≠ 0 ∧ sfdp_info.smptbl.size ≠ 0 ∧
  sfdp_info.smptbl.size ≤ SFDP_BASIC_PARAMS_TBL_SIZE ∧
  0 ≤ (reader s sfdp_info.smptbl.addr sfdp_info.smptbl.size).2.status ∧
  (sector_map_table_read reader s sfdp_info)[2]? = some b2 ∧
  ¬ ((sector_map_table_read reader s sfdp_info).getD 0 0 &&& 0x3 ≠ 0x03 ∧
      (sector_map_table_read reader s sfdp_info).getD 1 0 = 0)

instance {σ : Type} (reader : sfdp_reader_fn σ) (s : σ) (sfdp_info : sfdp_hdr_info) (b2 : Nat) :
    Decidable (sector_map_accepted reader s sfdp_info b2) := by
  unfold sector_map_accepted
  infer_instance

/-- The sum `region_size[0] + ... + region_size[n-1]` of the first `n`
region sizes of a record. -/
def region_size_sum (smptbl : sfdp_smptbl_info) (n : Nat) : Int :=
  ((List.range n).map (fun j => smptbl.region_size.getD j 0)).sum

/-- The bitwise AND of 0x0F with `region_erase_types_bitfld[i]` for all `i <
region_cnt`: the erase types supported by every region. -/
def common_erase_type_bits (smptbl : sfdp_smptbl_info) : Nat :=
  ((List.range smptbl.region_cnt.toNat).map
    (fun i => smptbl.region_erase_types_bitfld.getD i 0)).foldl (fun a b => a &&& b) 0x0F

/-- Reference for `regions_min_common_erase_size`, written after the
specification: the smallest erase size among the erase types `k < 4` whose
bit is set in `bits`, and 0 when no bit is set. -/
def min_common_erase_size_reference (bits : Nat) (erase_type_size_arr : List Nat) : Nat :=
  (((List.range 4).filter (fun k => bits.testBit k)).map
    (fun k => erase_type_size_arr.getD k 0)).foldl
      (fun (acc : Option Nat) sz => match acc with
        | none => some sz
        | some m => some (min m sz)) none |>.getD 0

/-- A Basic Parameter Table of one DWORD (4 bytes). -/
def example_short_basic_table : List Nat := [0xE5, 0x20, 0xF1, 0xFF]

/-- A Sector Map table of one DWORD (4 bytes) whose byte 2 announces six
regions. -/
def example_short_sector_map : List Nat := [0x03, 0x00, 0x05, 0x00]

/-- A device whose reads all succeed and deliver the bytes of `table`. -/
def table_reader (table : List Nat) : sfdp_reader_fn Unit :=
  fun s _ _ => (s, { status := 0, data := fun i => table.getD i 0 })

/-- A device whose reads all fail. -/
def broken_reader : sfdp_reader_fn Unit :=
  fun s _ _ => (s, { status := -1, data := fun _ => 0 })

/-- A capability record after the Basic table was decoded: a device of
`device_size_bytes` bytes, erase types of the sizes `sizes`, and a Sector Map
table of `smptbl_size` bytes recorded at `smptbl_addr`. -/
def example_map_info (device_size_bytes smptbl_addr smptbl_size : Nat) (sizes : List Nat) :
    sfdp_hdr_info :=
  { bptbl := { addr := 0x30, size := 64, device_size_bytes := device_size_bytes,
               legacy_erase_instruction := 0 },
    smptbl := { addr := smptbl_addr, size := smptbl_size, region_cnt := 1,
                region_size := [0, 0, 0, 0, 0, 0, 0, 0, 0, 0],
                region_erase_types_bitfld := [0x0F, 0, 0, 0, 0, 0, 0, 0, 0, 0],
                regions_min_common_erase_size := 4096,
                region_high_boundary := [0, 0, 0, 0, 0, 0, 0, 0, 0, 0],
                erase_type_inst_arr := [0x20, 0x52, 0xD8, -1],
                erase_type_size_arr := sizes } }

/-- A Sector Map table of 8 bytes with one region whose size field is the
largest 24-bit value, 0xFFFFFF. -/
def example_sector_map_max_value : List Nat := [0x03, 0x00, 0x00, 0x00, 0x03, 0xFF, 0xFF, 0xFF]

/-- A Sector Map table of 12 bytes with two regions of 4096 bytes that have
no erase type in common: region 0 supports type 1 only, region 1 type 2
only. -/
def example_sector_map_disjoint : List Nat :=
  [0x03, 0x00, 0x01, 0x00, 0x01, 0x0F, 0x00, 0x00, 0x02, 0x0F, 0x00, 0x00]

/-- A Sector Map table of 12 bytes with two regions: the size field of
region 0 is 0xFFFFFF, the largest 24-bit value, and region 1 has 4096 bytes. -/
def example_sector_map_wrapped : List Nat :=
  [0x03, 0x00, 0x01, 0x00, 0x0F, 0xFF, 0xFF, 0xFF, 0x0F, 0x0F, 0x00, 0x00]

/-- A Sector Map table of 12 bytes with the descriptor bytes `b0`, `b1` and
two regions of 4096 bytes: region 0 supports the erase types 1 and 2, region
1 the types 1, 2 and 3. -/
def example_sector_map (b0 b1 : Nat) : List Nat :=
  [b0, b1, 0x01, 0x00, 0x03, 0x0F, 0x00, 0x00, 0x07, 0x0F, 0x00, 0x00]

/-! ## Auxiliary facts on bits and machine arithmetic -/

theorem and_two_pow_ne_zero_iff (n i : Nat) : n &&& 2 ^ i ≠ 0 ↔ n.testBit i = true := by
  constructor
  · intro h
    obtain ⟨j, hj⟩ := Nat.ne_zero_implies_bit_true h
    rw [Nat.testBit_and, Nat.testBit_two_pow] at hj
    simp only [Bool.and_eq_true, decide_eq_true_eq] at hj
    obtain ⟨h1, h2⟩ := hj
    subst h2
    exact h1
  · intro h h0
    have h1 := congrArg (fun x => x.testBit i) h0
    simp [Nat.testBit_two_pow_self, h] at h1

theorem testBit_clear_mask_of_lt (n i j : Nat) (hj : j < i) (hi : i < 8) :
    (n &&& (0xFF ^^^ 2 ^ i)).testBit j = n.testBit j := by
  have h255 : (0xFF : Nat).testBit j = true := by
    have h : (0xFF : Nat) = 2 ^ 8 - 1 := by norm_num
    rw [h, Nat.testBit_two_pow_sub_one]
    simp only [decide_eq_true_eq]
    omega
  have hne : i ≠ j := by omega
  rw [Nat.testBit_and, Nat.testBit_xor, Nat.testBit_two_pow, h255]
  simp [hne]

theorem testBit_clear_mask_self (n i : Nat) (hi : i < 8) :
    (n &&& (0xFF ^^^ 2 ^ i)).testBit i = false := by
  have h255 : (0xFF : Nat).testBit i = true := by
    have h : (0xFF : Nat) = 2 ^ 8 - 1 := by norm_num
    rw [h, Nat.testBit_two_pow_sub_one]
    simp only [decide_eq_true_eq]
    omega
  rw [Nat.testBit_and, Nat.testBit_xor, Nat.testBit_two_pow_self, h255]
  simp

theorem testBit_of_testBit_clear_mask (n i j : Nat)
    (h : (n &&& (0xFF ^^^ 2 ^ i)).testBit j = true) : n.testBit j = true := by
  rw [Nat.testBit_and, Bool.and_eq_true] at h
  exact h.1

theorem two_pow_succ_shiftRight_one (k : Nat) : 2 ^ (k + 1) >>> 1 = 2 ^ k := by
  rw [Nat.shiftRight_eq_div_pow, pow_succ]
  simp

theorem to_int32_of_lt (u : Nat) (h : u < 2 ^ 31) : to_int32 u = (u : Int) := by
  have h1 : u % 2 ^ 32 = u := Nat.mod_eq_of_lt (by omega)
  unfold to_int32
  rw [h1, if_pos h]

theorem to_uint64_of_range (i : Int) (h0 : 0 ≤ i) (h1 : i < 2 ^ 64) : to_uint64 i = i := by
  unfold to_uint64
  exact Int.emod_eq_of_lt h0 h1

/-- For an `unsigned int` size, the cast to `int` followed by the conversion
to 64 bits unsigned never gives less than the size itself. -/
theorem le_to_uint64_to_int32 (u : Nat) (h : u < 2 ^ 32) :
    (u : Int) ≤ to_uint64 (to_int32 u) := by
  have h1 : u % 2 ^ 32 = u := Nat.mod_eq_of_lt h
  unfold to_uint64 to_int32
  rw [h1]
  split <;> omega

/-! ## The erase type selector -/

theorem erase_type_fits_clear (bitfield : Nat) (size offset : Int) (hb : Nat) (sizes : List Nat)
    (k j : Nat) (hj : j < k) (hk : k < 8) :
    erase_type_fits (bitfield &&& (0xFF ^^^ 2 ^ k)) size offset hb sizes j ↔
      erase_type_fits bitfield size offset hb sizes j := by
  unfold erase_type_fits
  rw [testBit_clear_mask_of_lt bitfield k j hj hk]

/-- When some set type satisfies the selection rule, the loop leaves through
`break` at the largest such type index. -/
theorem erase_type_loop_largest (size offset region : Int) (smptbl : sfdp_smptbl_info) (hb : Nat)
    (hreg : array_read smptbl.region_high_boundary region = some hb)
    (hhb : hb < 2 ^ 64) (h0 : 0 ≤ offset) (hoff : offset ≤ (hb : Int))
    (hsz : ∀ (i sz : Nat), smptbl.erase_type_size_arr[i]? = some sz → sz < 2 ^ 31)
    (hlen : 4 ≤ smptbl.erase_type_size_arr.length) :
    ∀ n, n ≤ 4 → ∀ type_mask bitfield largest, (∀ k, n = k + 1 → type_mask = 2 ^ k) →
      (∃ j, j < n ∧ erase_type_fits bitfield size offset hb smptbl.erase_type_size_arr j) →
      ∃ (r : Nat) (s : erase_type_scan),
        erase_type_loop size offset region smptbl n type_mask bitfield largest = some s ∧
        s.largest_erase_type = (r : Int) ∧ s.i_ind = (r : Int) ∧ r < n ∧
        erase_type_fits bitfield size offset hb smptbl.erase_type_size_arr r ∧
        ∀ j, j < n → erase_type_fits bitfield size offset hb smptbl.erase_type_size_arr j →
          j ≤ r := by
  intro n
  induction n with
  | zero =>
    intro _ type_mask bitfield largest _ hex
    obtain ⟨j, hj, _⟩ := hex
    omega
  | succ k ih =>
    intro hk type_mask bitfield largest hmask hex
    have hm : type_mask = 2 ^ k := hmask k rfl
    subst hm
    have hk4 : k < smptbl.erase_type_size_arr.length := by omega
    obtain ⟨sz, hszk⟩ : ∃ sz, smptbl.erase_type_size_arr[k]? = some sz :=
      ⟨_, List.getElem?_eq_getElem hk4⟩
    have hsz31 : sz < 2 ^ 31 := hsz k sz hszk
    have hmask1 : ∀ k1, k = k1 + 1 → 2 ^ k >>> 1 = 2 ^ k1 := by
      intro k1 hk1
      subst hk1
      exact two_pow_succ_shiftRight_one k1
    -- what happens when the scan goes on below index `k`
    have hrest : ∀ bitfield1 largest1,
        (∀ j, j < k → (erase_type_fits bitfield1 size offset hb smptbl.erase_type_size_arr j ↔
          erase_type_fits bitfield size offset hb smptbl.erase_type_size_arr j)) →
        ¬ erase_type_fits bitfield size offset hb smptbl.erase_type_size_arr k →
        ∃ (r : Nat) (s : erase_type_scan),
          erase_type_loop size offset region smptbl k (2 ^ k >>> 1) bitfield1 largest1
            = some s ∧
          s.largest_erase_type = (r : Int) ∧ s.i_ind = (r : Int) ∧ r < k + 1 ∧
          erase_type_fits bitfield size offset hb smptbl.erase_type_size_arr r ∧
          ∀ j, j < k + 1 →
            erase_type_fits bitfield size offset hb smptbl.erase_type_size_arr j → j ≤ r := by
      intro bitfield1 largest1 hsame hnot
      obtain ⟨j, hj, hfit⟩ := hex
      have hjk : j ≠ k := fun h => hnot (h ▸ hfit)
      have hjlt : j < k := by omega
      obtain ⟨r, s, hs, hl, hi, hr, hfr, hmax⟩ :=
        ih (by omega) (2 ^ k >>> 1) bitfield1 largest1 hmask1 ⟨j, hjlt, (hsame j hjlt).2 hfit⟩
      refine ⟨r, s, hs, hl, hi, by omega, (hsame r hr).1 hfr, ?_⟩
      intro j1 hj1 hfit1
      have hj1k : j1 ≠ k := fun h => hnot (h ▸ hfit1)
      have hj1lt : j1 < k := by omega
      exact hmax j1 hj1lt ((hsame j1 hj1lt).2 hfit1)
    have hclear : ∀ j, j < k →
        (erase_type_fits (bitfield &&& (0xFF ^^^ 2 ^ k)) size offset hb
            smptbl.erase_type_size_arr j ↔
          erase_type_fits bitfield size offset hb smptbl.erase_type_size_arr j) :=
      fun j hj => erase_type_fits_clear bitfield size offset hb _ k j hj (by omega)
    rw [erase_type_loop]
    by_cases hbit : bitfield &&& 2 ^ k ≠ 0
    · rw [if_pos hbit, hszk]
      simp only [to_int32_of_lt sz hsz31]
      by_cases hsize : size > (sz : Int)
      · rw [if_pos hsize, hreg]
        simp only
        rw [to_uint64_of_range ((hb : Int) - offset) (by omega) (by omega),
          to_uint64_of_range (sz : Int) (by omega) (by omega)]
        by_cases hspace : (hb : Int) - offset > (sz : Int)
        · rw [if_pos hspace]
          refine ⟨k, _, rfl, rfl, rfl, by omega, ?_, fun j hj _ => by omega⟩
          exact ⟨by omega, (and_two_pow_ne_zero_iff bitfield k).1 hbit, sz, hszk, hsize, hspace⟩
        · rw [if_neg hspace]
          apply hrest _ _ hclear
          rintro ⟨_, _, sz1, h1, _, h3⟩
          rw [hszk] at h1
          cases h1
          exact hspace h3
      · rw [if_neg hsize]
        apply hrest _ _ hclear
        rintro ⟨_, _, sz1, h1, h2, _⟩
        rw [hszk] at h1
        cases h1
        exact hsize h2
    · rw [if_neg hbit]
      apply hrest _ _ (fun _ _ => Iff.rfl)
      rintro ⟨_, h1, _⟩
      exact hbit ((and_two_pow_ne_zero_iff bitfield k).2 h1)

/-- C1: when at least one type index in 0..3 has its bit set in the working
bitfield and satisfies both `size > erase_type_size_arr[i]` and
`region_high_boundary[region] - offset > erase_type_size_arr[i]` (offset
inside the region, type sizes fitting in a signed 32-bit `int`),
`sfdp_iterate_next_largest_erase_type` returns the largest such index. -/
theorem iterate_next_largest_erase_type_returns_largest_fit
    (bitfield : Nat) (size offset region : Int) (smptbl : sfdp_smptbl_info) (hb : Nat)
    (hreg : array_read smptbl.region_high_boundary region = some hb)
    (hhb : hb < 2 ^ 64) (h0 : 0 ≤ offset) (hoff : offset ≤ (hb : Int))
    (hlen : smptbl.erase_type_size_arr.length = 4)
    (hsz : ∀ sz ∈ smptbl.erase_type_size_arr, sz < 2 ^ 31)
    (hex : ∃ i, erase_type_fits bitfield size offset hb smptbl.erase_type_size_arr i) :
    ∃ r : Nat,
      (sfdp_iterate_next_largest_erase_type bitfield size offset region smptbl).map
          (fun res => res.ret) = some (r : Int) ∧
        erase_type_fits bitfield size offset hb smptbl.erase_type_size_arr r ∧
        ∀ j, erase_type_fits bitfield size offset hb smptbl.erase_type_size_arr j → j ≤ r := by
  obtain ⟨i, hi⟩ := hex
  have hsz1 : ∀ (i sz : Nat), smptbl.erase_type_size_arr[i]? = some sz → sz < 2 ^ 31 :=
    fun i sz h => hsz sz (List.getElem?_mem h)
  obtain ⟨r, s, hs, hl, _, _, hfr, hmax⟩ :=
    erase_type_loop_largest size offset region smptbl hb hreg hhb h0 hoff hsz1 (by omega)
      4 (by omega) SFDP_ERASE_BITMASK_TYPE4 bitfield 0
      (by intro k hk; obtain rfl : k = 3 := by omega
          rfl)
      ⟨i, hi.1, hi⟩
  refine ⟨r, ?_, hfr, fun j hj => hmax j hj.1 hj⟩
  unfold sfdp_iterate_next_largest_erase_type
  rw [hs]
  simp [hl]

/-- The two examples of C1: types of 4, 32, 64 and 128 KiB, all four bits
set; size 50000 in a 16 MiB region selects index 1, and size 200000 with
the boundary at 100000 selects index 2. -/
theorem iterate_next_largest_erase_type_returns_largest_fit_witness :
    (∃ r : Nat,
      (sfdp_iterate_next_largest_erase_type 0b1111 50000 0 0 (example_smptbl 16777215)).map
          (fun res => res.ret) = some (r : Int) ∧
        erase_type_fits 0b1111 50000 0 16777215 (example_smptbl 16777215).erase_type_size_arr r ∧
        ∀ j, erase_type_fits 0b1111 50000 0 16777215
          (example_smptbl 16777215).erase_type_size_arr j → j ≤ r) ∧
    (sfdp_iterate_next_largest_erase_type 0b1111 50000 0 0 (example_smptbl 16777215)).map
        (fun res => res.ret) = some 1 ∧
    (sfdp_iterate_next_largest_erase_type 0b1111 200000 0 0 (example_smptbl 100000)).map
        (fun res => res.ret) = some 2 :=
  ⟨iterate_next_largest_erase_type_returns_largest_fit 0b1111 50000 0 0
      (example_smptbl 16777215) 16777215 (by decide) (by norm_num) (by decide) (by decide)
      (by decide) (by decide)
      ⟨0, by decide, by decide, 4096, by decide, by decide, by decide⟩,
    by decide, by decide⟩

/-- When no set type satisfies the selection rule, the loop runs to its end:
the counter is -1 afterwards, the bits of all scanned types are cleared in
the working bitfield (no other bit gets set), and `largest_erase_type` is the
lowest set type index scanned (the last type tried), or its initial value
when no scanned bit was set. -/
theorem erase_type_loop_exhausted (size offset region : Int) (smptbl : sfdp_smptbl_info)
    (hb : Nat) (hreg : array_read smptbl.region_high_boundary region = some hb)
    (hhb : hb < 2 ^ 64) (h0 : 0 ≤ offset) (hoff : offset ≤ (hb : Int))
    (hsz : ∀ (i sz : Nat), smptbl.erase_type_size_arr[i]? = some sz → sz < 2 ^ 31)
    (hlen : 4 ≤ smptbl.erase_type_size_arr.length) :
    ∀ n, n ≤ 4 → ∀ type_mask bitfield largest, (∀ k, n = k + 1 → type_mask = 2 ^ k) →
      (∀ j, j < n → ¬ erase_type_fits bitfield size offset hb smptbl.erase_type_size_arr j) →
      ∃ s : erase_type_scan,
        erase_type_loop size offset region smptbl n type_mask bitfield largest = some s ∧
        s.i_ind = -1 ∧
        (∀ j, j < n → s.bitfield.testBit j = false) ∧
        (∀ j, s.bitfield.testBit j = true → bitfield.testBit j = true) ∧
        ((∀ j, j < n → bitfield.testBit j = false) → s.largest_erase_type = largest) ∧
        (∀ m, m < n → bitfield.testBit m = true → (∀ j, j < m → bitfield.testBit j = false) →
          s.largest_erase_type = (m : Int)) := by
  intro n
  induction n with
  | zero =>
    intro _ type_mask bitfield largest _ _
    exact ⟨_, rfl, rfl, fun j hj => by omega, fun j hj => hj, fun _ => rfl,
      fun m hm => by omega⟩
  | succ k ih =>
    intro hk type_mask bitfield largest hmask hnone
    have hm : type_mask = 2 ^ k := hmask k rfl
    subst hm
    have hk4 : k < smptbl.erase_type_size_arr.length := by omega
    obtain ⟨sz, hszk⟩ : ∃ sz, smptbl.erase_type_size_arr[k]? = some sz :=
      ⟨_, List.getElem?_eq_getElem hk4⟩
    have hsz31 : sz < 2 ^ 31 := hsz k sz hszk
    have hmask1 : ∀ k1, k = k1 + 1 → 2 ^ k >>> 1 = 2 ^ k1 := by
      intro k1 hk1
      subst hk1
      exact two_pow_succ_shiftRight_one k1
    -- the scan below index `k` after the set bit of `k` was cleared
    have hcleared : bitfield.testBit k = true → ∃ s : erase_type_scan,
        erase_type_loop size offset region smptbl k (2 ^ k >>> 1)
          (bitfield &&& (0xFF ^^^ 2 ^ k)) (k : Int) = some s ∧
        s.i_ind = -1 ∧
        (∀ j, j < k + 1 → s.bitfield.testBit j = false) ∧
        (∀ j, s.bitfield.testBit j = true → bitfield.testBit j = true) ∧
        ((∀ j, j < k + 1 → bitfield.testBit j = false) → s.largest_erase_type = largest) ∧
        (∀ m, m < k + 1 → bitfield.testBit m = true →
          (∀ j, j < m → bitfield.testBit j = false) → s.largest_erase_type = (m : Int)) := by
      intro hset
      have hsame : ∀ j, j < k →
          (bitfield &&& (0xFF ^^^ 2 ^ k)).testBit j = bitfield.testBit j :=
        fun j hj => testBit_clear_mask_of_lt bitfield k j hj (by omega)
      obtain ⟨s, hs, hi, hclr, hsub, hl0, hl1⟩ :=
        ih (by omega) (2 ^ k >>> 1) (bitfield &&& (0xFF ^^^ 2 ^ k)) (k : Int) hmask1
          (fun j hj hfit => hnone j (by omega)
            ((erase_type_fits_clear bitfield size offset hb _ k j hj (by omega)).1 hfit))
      refine ⟨s, hs, hi, ?_, ?_, ?_, ?_⟩
      · intro j hj
        by_cases hjk : j = k
        · subst hjk
          by_contra hne
          have h1 := hsub j (by simpa using hne)
          rw [testBit_clear_mask_self bitfield j (by omega)] at h1
          cases h1
        · exact hclr j (by omega)
      · exact fun j hj => testBit_of_testBit_clear_mask bitfield k j (hsub j hj)
      · intro hall
        rw [hall k (by omega)] at hset
        cases hset
      · intro m hm hmset hlow
        by_cases hmk : m = k
        · subst hmk
          exact hl0 (fun j hj => by rw [hsame j hj]; exact hlow j hj)
        · have hmlt : m < k := by omega
          exact hl1 m hmlt (by rw [hsame m hmlt]; exact hmset)
            (fun j hj => by rw [hsame j (by omega)]; exact hlow j hj)
    rw [erase_type_loop]
    by_cases hbit : bitfield &&& 2 ^ k ≠ 0
    · have hset := (and_two_pow_ne_zero_iff bitfield k).1 hbit
      rw [if_pos hbit, hszk]
      simp only [to_int32_of_lt sz hsz31]
      by_cases hsize : size > (sz : Int)
      · rw [if_pos hsize, hreg]
        simp only
        rw [to_uint64_of_range ((hb : Int) - offset) (by omega) (by omega),
          to_uint64_of_range (sz : Int) (by omega) (by omega)]
        by_cases hspace : (hb : Int) - offset > (sz : Int)
        · exact absurd ⟨by omega, hset, sz, hszk, hsize, hspace⟩ (hnone k (by omega))
        · rw [if_neg hspace]
          exact hcleared hset
      · rw [if_neg hsize]
        exact hcleared hset
    · have hunset : bitfield.testBit k = false := by
        by_contra hne
        exact hbit ((and_two_pow_ne_zero_iff bitfield k).2 (by simpa using hne))
      rw [if_neg hbit]
      obtain ⟨s, hs, hi, hclr, hsub, hl0, hl1⟩ :=
        ih (by omega) (2 ^ k >>> 1) bitfield largest hmask1 (fun j hj => hnone j (by omega))
      refine ⟨s, hs, hi, ?_, hsub, fun hall => hl0 (fun j hj => hall j (by omega)), ?_⟩
      · intro j hj
        by_cases hjk : j = k
        · subst hjk
          by_contra hne
          have h1 := hsub j (by simpa using hne)
          rw [hunset] at h1
          cases h1
        · exact hclr j (by omega)
      · intro m hm hmset hlow
        have hmk : m ≠ k := by
          rintro rfl
          rw [hunset] at hmset
          cases hmset
        exact hl1 m (by omega) hmset hlow

/-- When the loop is left through `break` (the counter is not negative), the
counter and `largest_erase_type` hold the index of a type that passed both
comparisons of the code. -/
theorem erase_type_loop_break (size offset region : Int) (smptbl : sfdp_smptbl_info) :
    ∀ (n type_mask bitfield : Nat) (largest : Int) (s : erase_type_scan),
      erase_type_loop size offset region smptbl n type_mask bitfield largest = some s →
      0 ≤ s.i_ind →
      ∃ (k sz hb : Nat), k < n ∧ s.i_ind = (k : Int) ∧ s.largest_erase_type = (k : Int) ∧
        smptbl.erase_type_size_arr[k]? = some sz ∧
        array_read smptbl.region_high_boundary region = some hb ∧
        size > to_int32 sz ∧ to_uint64 ((hb : Int) - offset) > to_uint64 (to_int32 sz) := by
  intro n
  induction n with
  | zero =>
    intro type_mask bitfield largest s hs hsel
    simp only [erase_type_loop, Option.some.injEq] at hs
    subst hs
    simp at hsel
  | succ k ih =>
    intro type_mask bitfield largest s hs hsel
    have hrec : ∀ (m b : Nat) (l : Int),
        erase_type_loop size offset region smptbl k m b l = some s →
        ∃ (k1 sz hb : Nat), k1 < k + 1 ∧ s.i_ind = (k1 : Int) ∧
          s.largest_erase_type = (k1 : Int) ∧
          smptbl.erase_type_size_arr[k1]? = some sz ∧
          array_read smptbl.region_high_boundary region = some hb ∧
          size > to_int32 sz ∧ to_uint64 ((hb : Int) - offset) > to_uint64 (to_int32 sz) := by
      intro m b l h
      obtain ⟨k1, sz, hb, h1, h2⟩ := ih m b l s h hsel
      exact ⟨k1, sz, hb, by omega, h2⟩
    rw [erase_type_loop] at hs
    split at hs
    · split at hs
      · cases hs
      · rename_i sz hszk
        split at hs
        · rename_i hsize
          split at hs
          · cases hs
          · rename_i hb hreg
            split at hs
            · rename_i hspace
              simp only [Option.some.injEq] at hs
              subst hs
              exact ⟨k, sz, hb, by omega, rfl, rfl, hszk, hreg, hsize, hspace⟩
            · exact hrec _ _ _ hs
        · exact hrec _ _ _ hs
    · exact hrec _ _ _ hs

/-- When the loop is left through `break`, the bit of the selected type is
still set in the working bitfield. -/
theorem erase_type_loop_break_bit (size offset region : Int) (smptbl : sfdp_smptbl_info) :
    ∀ (n type_mask bitfield : Nat) (largest : Int) (s : erase_type_scan),
      (∀ k, n = k + 1 → type_mask = 2 ^ k) →
      erase_type_loop size offset region smptbl n type_mask bitfield largest = some s →
      0 ≤ s.i_ind →
      s.bitfield.testBit s.largest_erase_type.toNat = true := by
  intro n
  induction n with
  | zero =>
    intro type_mask bitfield largest s _ hs hsel
    simp only [erase_type_loop, Option.some.injEq] at hs
    subst hs
    simp at hsel
  | succ k ih =>
    intro type_mask bitfield largest s hmask hs hsel
    have hm : type_mask = 2 ^ k := hmask k rfl
    subst hm
    have hmask1 : ∀ k1, k = k1 + 1 → 2 ^ k >>> 1 = 2 ^ k1 := by
      intro k1 hk1
      subst hk1
      exact two_pow_succ_shiftRight_one k1
    rw [erase_type_loop] at hs
    split at hs
    · rename_i hbit
      split at hs
      · cases hs
      · split at hs
        · split at hs
          · cases hs
          · split at hs
            · simp only [Option.some.injEq] at hs
              subst hs
              simpa using (and_two_pow_ne_zero_iff bitfield k).1 hbit
            · exact ih _ _ _ s hmask1 hs hsel
        · exact ih _ _ _ s hmask1 hs hsel
    · exact ih _ _ _ s hmask1 hs hsel

/-- C2, as stated, fails: with types of 4, 32, 64 and 128 KiB, only type
index 0 supported and a requested size of exactly 4096, no set type satisfies
the selection rule, yet the call returns 0 without error trace (the loop
counter ends at -1, never at 4), and 0 is also what the successful selection
of type index 0 returns for a request of 5000 bytes. -/
theorem iterate_next_largest_erase_type_failure_not_distinguishable :
    (¬ ∃ i, erase_type_fits 0b0001 4096 0 100000 (example_smptbl 100000).erase_type_size_arr i) ∧
    sfdp_iterate_next_largest_erase_type 0b0001 4096 0 0 (example_smptbl 100000)
      = some { ret := 0, bitfield := 0, i_ind := -1, error_traced := false } ∧
    erase_type_fits 0b0001 5000 0 100000 (example_smptbl 100000).erase_type_size_arr 0 ∧
    sfdp_iterate_next_largest_erase_type 0b0001 5000 0 0 (example_smptbl 100000)
      = some { ret := 0, bitfield := 1, i_ind := 0, error_traced := false } ∧
    (sfdp_iterate_next_largest_erase_type 0b0001 4096 0 0 (example_smptbl 100000)).map
        (fun res => res.ret)
      = (sfdp_iterate_next_largest_erase_type 0b0001 5000 0 0 (example_smptbl 100000)).map
        (fun res => res.ret) := by
  refine ⟨?_, by decide, ?_, by decide, by decide⟩
  · rintro ⟨i, hi, hbit, sz, hsz, hsize, _⟩
    interval_cases i
    · simp [example_smptbl] at hsz
      omega
    all_goals simp [Nat.testBit] at hbit
  · exact ⟨by decide, by decide, 4096, by decide, by decide, by decide⟩

/-- C2, amended: when no type index whose bit is set satisfies both
`size > typeSize` and `regionHighBoundary - offset > typeSize`, and at least
one of the type bits 0..3 is set (offset inside the region, type sizes
fitting in a signed 32-bit `int`), the call does not fail: it returns the
lowest set type index, the last type tried, with the loop counter at -1 and
the type bits 0..3 of the working bitfield all cleared; whereas whenever a
type is selected, the bit of the returned index is still set in the working
bitfield. -/
theorem iterate_next_largest_erase_type_no_fit_returns_lowest
    (bitfield : Nat) (size offset region : Int) (smptbl : sfdp_smptbl_info) (hb : Nat)
    (hreg : array_read smptbl.region_high_boundary region = some hb)
    (hhb : hb < 2 ^ 64) (h0 : 0 ≤ offset) (hoff : offset ≤ (hb : Int))
    (hlen : smptbl.erase_type_size_arr.length = 4)
    (hsz : ∀ sz ∈ smptbl.erase_type_size_arr, sz < 2 ^ 31) :
    ((¬ ∃ i, erase_type_fits bitfield size offset hb smptbl.erase_type_size_arr i) →
      (∃ i, i < 4 ∧ bitfield.testBit i = true) →
      ∃ (res : erase_type_result) (m : Nat),
        sfdp_iterate_next_largest_erase_type bitfield size offset region smptbl = some res ∧
        m < 4 ∧ bitfield.testBit m = true ∧ (∀ j, j < m → bitfield.testBit j = false) ∧
        res.ret = (m : Int) ∧ res.i_ind = -1 ∧
        ∀ j, j < 4 → res.bitfield.testBit j = false) ∧
    (∀ res : erase_type_result,
      sfdp_iterate_next_largest_erase_type bitfield size offset region smptbl = some res →
      0 ≤ res.i_ind → res.i_ind = res.ret ∧ res.bitfield.testBit res.ret.toNat = true) := by
  have hsz1 : ∀ (i sz : Nat), smptbl.erase_type_size_arr[i]? = some sz → sz < 2 ^ 31 :=
    fun i sz h => hsz sz (List.getElem?_mem h)
  have hmask : ∀ k, 4 = k + 1 → SFDP_ERASE_BITMASK_TYPE4 = 2 ^ k := by
    intro k hk
    obtain rfl : k = 3 := by omega
    rfl
  constructor
  · intro hnone hsome
    obtain ⟨s, hs, hi, hclr, _, _, hlow⟩ :=
      erase_type_loop_exhausted size offset region smptbl hb hreg hhb h0 hoff hsz1 (by omega)
        4 (by omega) SFDP_ERASE_BITMASK_TYPE4 bitfield 0 hmask
        (fun j _ hfit => hnone ⟨j, hfit⟩)
    have hm := Nat.find_spec hsome
    have hmin : ∀ j, j < Nat.find hsome → bitfield.testBit j = false := by
      intro j hj
      have h1 := Nat.find_min hsome hj
      by_contra hne
      exact h1 ⟨by omega, by simpa using hne⟩
    refine ⟨_, Nat.find hsome,
      by unfold sfdp_iterate_next_largest_erase_type; rw [hs]; rfl,
      hm.1, hm.2, hmin, hlow _ hm.1 hm.2 hmin, hi, hclr⟩
  · intro res hres hsel
    unfold sfdp_iterate_next_largest_erase_type at hres
    rw [Option.map_eq_some'] at hres
    obtain ⟨s, hs, hres⟩ := hres
    subst hres
    obtain ⟨k, _, _, _, hi, hl, _⟩ :=
      erase_type_loop_break size offset region smptbl 4 _ bitfield 0 s hs hsel
    exact ⟨by simp only [hi, hl],
      erase_type_loop_break_bit size offset region smptbl 4 _ bitfield 0 s hmask hs hsel⟩

/-- An instance of the amended C2: types of 4, 32, 64 and 128 KiB, types 0
and 1 supported, request of 4096 bytes; no type satisfies the rule and the
call returns index 0 with the type bits cleared. -/
theorem iterate_next_largest_erase_type_no_fit_returns_lowest_witness :
    (∃ (res : erase_type_result) (m : Nat),
      sfdp_iterate_next_largest_erase_type 0b0011 4096 0 0 (example_smptbl 100000) = some res ∧
      m < 4 ∧ (0b0011 : Nat).testBit m = true ∧
      (∀ j, j < m → (0b0011 : Nat).testBit j = false) ∧
      res.ret = (m : Int) ∧ res.i_ind = -1 ∧
      ∀ j, j < 4 → res.bitfield.testBit j = false) ∧
    sfdp_iterate_next_largest_erase_type 0b0011 4096 0 0 (example_smptbl 100000)
      = some { ret := 0, bitfield := 0, i_ind := -1, error_traced := false } :=
  ⟨(iterate_next_largest_erase_type_no_fit_returns_lowest 0b0011 4096 0 0
      (example_smptbl 100000) 100000 (by decide) (by norm_num) (by decide) (by decide)
      (by decide) (by decide)).1
      (by
        rintro ⟨i, hi, hbit, sz, hsz, hsize, _⟩
        interval_cases i
        · simp [example_smptbl] at hsz
          omega
        · simp [example_smptbl] at hsz
          omega
        all_goals simp [Nat.testBit] at hbit)
      ⟨0, by decide, by decide⟩,
    by decide⟩

/-- C3: for an offset inside the region, whenever
`sfdp_iterate_next_largest_erase_type` selects a type (the loop exits on its
bit), an erase of that type's size starting at the offset stays inside the
region: `offset + erase_type_size_arr[i] - 1 <= region_high_boundary[region]`. -/
theorem iterate_next_largest_erase_type_stays_in_region
    (bitfield : Nat) (size offset region : Int) (smptbl : sfdp_smptbl_info) (hb : Nat)
    (res : erase_type_result)
    (hreg : array_read smptbl.region_high_boundary region = some hb)
    (hhb : hb < 2 ^ 64) (h0 : 0 ≤ offset) (hoff : offset ≤ (hb : Int))
    (hsz : ∀ sz ∈ smptbl.erase_type_size_arr, sz < 2 ^ 32)
    (hres : sfdp_iterate_next_largest_erase_type bitfield size offset region smptbl = some res)
    (hsel : 0 ≤ res.i_ind) :
    ∃ (i sz : Nat), i < 4 ∧ res.ret = (i : Int) ∧ res.i_ind = (i : Int) ∧
      smptbl.erase_type_size_arr[i]? = some sz ∧
      offset + (sz : Int) - 1 ≤ (hb : Int) := by
  unfold sfdp_iterate_next_largest_erase_type at hres
  rw [Option.map_eq_some'] at hres
  obtain ⟨s, hs, hres⟩ := hres
  subst hres
  obtain ⟨k, sz, hb1, hk, hi, hl, hszk, hreg1, _, hspace⟩ :=
    erase_type_loop_break size offset region smptbl 4 _ bitfield 0 s hs hsel
  rw [hreg] at hreg1
  cases hreg1
  refine ⟨k, sz, hk, hl, hi, hszk, ?_⟩
  have h32 : sz < 2 ^ 32 := hsz sz (List.getElem?_mem hszk)
  have hle := le_to_uint64_to_int32 sz h32
  rw [to_uint64_of_range ((hb : Int) - offset) (by omega) (by omega)] at hspace
  omega

/-- An instance of C3: types of 4, 32, 64 and 128 KiB, request of 200000
bytes at offset 0 of a region ending at 100000; the type selected is index 2. -/
theorem iterate_next_largest_erase_type_stays_in_region_witness :
    sfdp_iterate_next_largest_erase_type 0b1111 200000 0 0 (example_smptbl 100000)
      = some { ret := 2, bitfield := 7, i_ind := 2, error_traced := false } ∧
    ∃ (i sz : Nat), i < 4 ∧ (2 : Int) = (i : Int) ∧ (2 : Int) = (i : Int) ∧
      (example_smptbl 100000).erase_type_size_arr[i]? = some sz ∧
      (0 : Int) + (sz : Int) - 1 ≤ ((100000 : Nat) : Int) :=
  ⟨by decide,
    iterate_next_largest_erase_type_stays_in_region 0b1111 200000 0 0 (example_smptbl 100000)
      100000 { ret := 2, bitfield := 7, i_ind := 2, error_traced := false }
      (by decide) (by norm_num) (by decide) (by decide) (by decide) (by decide) (by decide)⟩

/-! ## The region locator -/

theorem getElem?_eq_some_getD (l : List Nat) (i : Nat) (h : i < l.length) :
    l[i]? = some (l.getD i 0) := by
  rw [List.getD_eq_getElem?_getD, List.getElem?_eq_getElem h]
  rfl

/-- Boundaries that increase from each region to the next increase along the
whole array. -/
theorem boundaries_lt_of_adjacent (l : List Nat) (n : Nat)
    (hinc : ∀ i, i + 1 < n → l.getD i 0 < l.getD (i + 1) 0) :
    ∀ i j, i < j → j < n → l.getD i 0 < l.getD j 0 := by
  intro i j hij
  induction j with
  | zero => omega
  | succ j ih =>
    intro hj
    by_cases h : i = j
    · subst h
      exact hinc i hj
    · exact lt_trans (ih (by omega) (by omega)) (hinc j hj)

/-- The scan of `sfdp_find_addr_region` over the boundaries below index `m`:
when some boundary is below the offset, the result is one more than the
highest index of such a boundary. -/
theorem find_addr_region_loop_found (offset : Nat) (l : List Nat) :
    ∀ m, m ≤ l.length → (∃ i, i < m ∧ l.getD i 0 < offset) →
      ∃ r : Nat, find_addr_region_loop offset l m = some (r : Int) ∧ 1 ≤ r ∧ r ≤ m ∧
        l.getD (r - 1) 0 < offset ∧ ∀ j, r ≤ j → j < m → offset ≤ l.getD j 0 := by
  intro m
  induction m with
  | zero =>
    rintro _ ⟨i, hi, _⟩
    omega
  | succ k ih =>
    intro hk hex
    rw [find_addr_region_loop, getElem?_eq_some_getD l k (by omega)]
    simp only
    by_cases hgt : offset > l.getD k 0
    · rw [if_pos hgt]
      refine ⟨k + 1, by push_cast; rfl, by omega, by omega, ?_, fun j h1 h2 => by omega⟩
      simpa using hgt
    · rw [if_neg hgt]
      obtain ⟨i, hi, hlt⟩ := hex
      have hik : i ≠ k := by
        rintro rfl
        exact hgt hlt
      obtain ⟨r, hr, h1, h2, h3, h4⟩ := ih (by omega) ⟨i, by omega, hlt⟩
      refine ⟨r, hr, h1, by omega, h3, ?_⟩
      intro j hj1 hj2
      by_cases hjk : j = k
      · subst hjk
        omega
      · exact h4 j hj1 (by omega)

/-- The scan of `sfdp_find_addr_region` over the boundaries below index `m`:
when no boundary is below the offset, the code reaches its final `return -1`. -/
theorem find_addr_region_loop_not_found (offset : Nat) (l : List Nat) :
    ∀ m, m ≤ l.length → (∀ i, i < m → offset ≤ l.getD i 0) →
      find_addr_region_loop offset l m = some (-1) := by
  intro m
  induction m with
  | zero => intro _ _; rfl
  | succ k ih =>
    intro hk hall
    rw [find_addr_region_loop, getElem?_eq_some_getD l k (by omega)]
    simp only
    rw [if_neg (by have := hall k (by omega); omega)]
    exact ih (by omega) (fun i hi => hall i (by omega))

/-- C4: for a record with `region_cnt >= 2` regions and strictly increasing
high boundaries, and an offset with `region_high_boundary[0] < offset <=
device_size_bytes`, `sfdp_find_addr_region` returns the region `r` the offset
falls into: `1 <= r <= region_cnt - 1`, `region_high_boundary[r-1] < offset`
and (`r = region_cnt - 1` or `offset <= region_high_boundary[r]`); an offset
exactly one past the high boundary of region `i` gives `i + 1`. -/
theorem find_addr_region_locates_region (offset : Nat) (sfdp_info : sfdp_hdr_info) (n : Nat)
    (hcnt : sfdp_info.smptbl.region_cnt = (n : Int)) (hn : 2 ≤ n)
    (hlen : n ≤ sfdp_info.smptbl.region_high_boundary.length)
    (hinc : ∀ i, i + 1 < n → sfdp_info.smptbl.region_high_boundary.getD i 0
      < sfdp_info.smptbl.region_high_boundary.getD (i + 1) 0)
    (hlo : sfdp_info.smptbl.region_high_boundary.getD 0 0 < offset)
    (hhi : offset ≤ sfdp_info.bptbl.device_size_bytes) :
    ∃ r : Nat, sfdp_find_addr_region offset sfdp_info = some (r : Int) ∧
      1 ≤ r ∧ r ≤ n - 1 ∧
      sfdp_info.smptbl.region_high_boundary.getD (r - 1) 0 < offset ∧
      (r = n - 1 ∨ offset ≤ sfdp_info.smptbl.region_high_boundary.getD r 0) ∧
      ∀ i, i + 1 < n → offset = sfdp_info.smptbl.region_high_boundary.getD i 0 + 1 →
        r = i + 1 := by
  obtain ⟨r, hr, h1, h2, h3, h4⟩ :=
    find_addr_region_loop_found offset sfdp_info.smptbl.region_high_boundary (n - 1)
      (by omega) ⟨0, by omega, hlo⟩
  have hmono := boundaries_lt_of_adjacent _ n hinc
  refine ⟨r, ?_, h1, h2, h3, ?_, ?_⟩
  · unfold sfdp_find_addr_region
    rw [if_neg (by rw [hcnt]; omega), if_neg (by rw [hcnt]; omega),
      if_neg (by rw [hcnt]; omega), hcnt]
    have hm : ((n : Int) - 2 + 1).toNat = n - 1 := by omega
    rw [hm]
    exact hr
  · by_cases hrn : r = n - 1
    · exact Or.inl hrn
    · exact Or.inr (h4 r le_rfl (by omega))
  · intro i hi hoff
    by_cases hir : r ≤ i
    · have := h4 i hir (by omega)
      omega
    · by_cases hlt : i < r - 1
      · have := hmono i (r - 1) hlt (by omega)
        omega
      · omega

/-- An instance of C4: three regions ending at 4095, 8191 and 16383 on a
device of 16384 bytes; offset 8192, one past the boundary of region 1, is
located in region 2. -/
theorem find_addr_region_locates_region_witness :
    sfdp_find_addr_region 8192 (example_regions 16384 3 [4095, 8191, 16383]) = some 2 ∧
    ∃ r : Nat, sfdp_find_addr_region 8192 (example_regions 16384 3 [4095, 8191, 16383])
        = some (r : Int) ∧
      1 ≤ r ∧ r ≤ 3 - 1 ∧
      (example_regions 16384 3 [4095, 8191, 16383]).smptbl.region_high_boundary.getD (r - 1) 0
        < 8192 ∧
      (r = 3 - 1 ∨
        8192 ≤ (example_regions 16384 3 [4095, 8191, 16383]).smptbl.region_high_boundary.getD r 0) ∧
      ∀ i, i + 1 < 3 →
        8192 = (example_regions 16384 3 [4095, 8191, 16383]).smptbl.region_high_boundary.getD i 0
          + 1 → r = i + 1 :=
  ⟨by decide,
    find_addr_region_locates_region 8192 (example_regions 16384 3 [4095, 8191, 16383]) 3
      (by decide) (by decide) (by decide)
      (by intro i hi; have hi2 : i < 2 := by omega
          interval_cases i <;> decide)
      (by decide) (by decide)⟩

/-- C5: for a record with `region_cnt >= 2` regions and strictly increasing
high boundaries, and an offset of region 0 (`offset <=
region_high_boundary[0]`), the scan of `sfdp_find_addr_region` finds no
boundary below the offset and the code reaches its final `return -1`: the
result is -1, not the region index 0. -/
theorem find_addr_region_region_zero_not_found (offset : Nat) (sfdp_info : sfdp_hdr_info)
    (n : Nat) (hcnt : sfdp_info.smptbl.region_cnt = (n : Int)) (hn : 2 ≤ n)
    (hlen : n ≤ sfdp_info.smptbl.region_high_boundary.length)
    (hinc : ∀ i, i + 1 < n → sfdp_info.smptbl.region_high_boundary.getD i 0
      < sfdp_info.smptbl.region_high_boundary.getD (i + 1) 0)
    (hoff : offset ≤ sfdp_info.smptbl.region_high_boundary.getD 0 0) :
    sfdp_find_addr_region offset sfdp_info = some (-1) := by
  have hmono := boundaries_lt_of_adjacent _ n hinc
  unfold sfdp_find_addr_region
  split
  · rfl
  · rw [if_neg (by rw [hcnt]; omega), if_neg (by rw [hcnt]; omega), hcnt]
    apply find_addr_region_loop_not_found _ _ _ (by omega)
    intro i hi
    by_cases h0 : i = 0
    · subst h0
      exact hoff
    · have := hmono 0 i (by omega) (by omega)
      omega

/-- Instances of C5: two regions ending at 4095 and 8191 on a device of 8192
bytes.  Offset 0 and offset 4095 (the high boundary of region 0) give -1,
while offset 4096 gives region 1 and the one-region path gives 0 for the
same offsets of region 0. -/
theorem find_addr_region_region_zero_not_found_witness :
    sfdp_find_addr_region 0 (example_regions 8192 2 [4095, 8191]) = some (-1) ∧
    sfdp_find_addr_region 4095 (example_regions 8192 2 [4095, 8191]) = some (-1) ∧
    sfdp_find_addr_region 4096 (example_regions 8192 2 [4095, 8191]) = some 1 ∧
    sfdp_find_addr_region 0 (example_regions 8192 1 [8191]) = some 0 ∧
    sfdp_find_addr_region 4095 (example_regions 8192 1 [8191]) = some 0 :=
  ⟨find_addr_region_region_zero_not_found 0 (example_regions 8192 2 [4095, 8191]) 2
      (by decide) (by decide) (by decide)
      (by intro i hi; have hi0 : i = 0 := by omega
          subst hi0; decide)
      (by decide),
    find_addr_region_region_zero_not_found 4095 (example_regions 8192 2 [4095, 8191]) 2
      (by decide) (by decide) (by decide)
      (by intro i hi; have hi0 : i = 0 := by omega
          subst hi0; decide)
      (by decide),
    by decide, by decide, by decide⟩

/-- C6: `sfdp_find_addr_region` fails (returns -1) whenever the offset
exceeds `device_size_bytes` or `region_cnt` is 0, whatever the other fields
of the record contain. -/
theorem find_addr_region_out_of_range (offset : Nat) (sfdp_info : sfdp_hdr_info)
    (h : offset > sfdp_info.bptbl.device_size_bytes ∨ sfdp_info.smptbl.region_cnt = 0) :
    sfdp_find_addr_region offset sfdp_info = some (-1) := by
  unfold sfdp_find_addr_region
  rw [if_pos h]

/-- Instances of C6: an offset beyond the device size, and a record without
regions. -/
theorem find_addr_region_out_of_range_witness :
    sfdp_find_addr_region 8193 (example_regions 8192 2 [4095, 8191]) = some (-1) ∧
    sfdp_find_addr_region 0 (example_regions 8192 0 []) = some (-1) :=
  ⟨find_addr_region_out_of_range 8193 (example_regions 8192 2 [4095, 8191])
      (Or.inl (by decide)),
    find_addr_region_out_of_range 0 (example_regions 8192 0 []) (Or.inr (by decide))⟩

/-- C7: with `region_cnt == 1`, `sfdp_find_addr_region` returns 0 for every
offset that passes the range check `offset <= device_size_bytes`, the offset
`device_size_bytes` itself included. -/
theorem find_addr_region_single_region (offset : Nat) (sfdp_info : sfdp_hdr_info)
    (hcnt : sfdp_info.smptbl.region_cnt = 1)
    (hoff : offset ≤ sfdp_info.bptbl.device_size_bytes) :
    sfdp_find_addr_region offset sfdp_info = some 0 := by
  unfold sfdp_find_addr_region
  rw [if_neg (by rw [hcnt]; omega), if_pos hcnt]

/-- An instance of C7: one region on a device of 8192 bytes, offset 8192. -/
theorem find_addr_region_single_region_witness :
    sfdp_find_addr_region 8192 (example_regions 8192 1 [8191]) = some 0 :=
  find_addr_region_single_region 8192 (example_regions 8192 1 [8191]) (by decide) (by decide)

/-! ## The header parser -/

theorem SFDP_SIGNATURE_eq : SFDP_SIGNATURE = [0x53, 0x46, 0x44, 0x50] := by
  decide

/-- C8: for every 8-byte header, `sfdp_parse_sfdp_header` succeeds if and
only if bytes 0..3 are ASCII "SFDP" and byte 5 (the major version) is 1; on
success the result is byte 6 (NPH) plus one, which lies in 1..256, and
otherwise the result is -1. -/
theorem parse_sfdp_header_result (buf : Nat → Nat) (hbyte : ∀ i, i < 8 → buf i < 256) :
    (sfdp_parse_sfdp_header (as_sfdp_hdr buf) ≠ -1 ↔
      (buf 0 = 'S'.toNat ∧ buf 1 = 'F'.toNat ∧ buf 2 = 'D'.toNat ∧ buf 3 = 'P'.toNat) ∧
        buf 5 = 1) ∧
    ((buf 0 = 'S'.toNat ∧ buf 1 = 'F'.toNat ∧ buf 2 = 'D'.toNat ∧ buf 3 = 'P'.toNat) ∧
        buf 5 = 1 →
      sfdp_parse_sfdp_header (as_sfdp_hdr buf) = (buf 6 : Int) + 1 ∧
        1 ≤ sfdp_parse_sfdp_header (as_sfdp_hdr buf) ∧
        sfdp_parse_sfdp_header (as_sfdp_hdr buf) ≤ 256) ∧
    (¬ ((buf 0 = 'S'.toNat ∧ buf 1 = 'F'.toNat ∧ buf 2 = 'D'.toNat ∧ buf 3 = 'P'.toNat) ∧
        buf 5 = 1) →
      sfdp_parse_sfdp_header (as_sfdp_hdr buf) = -1) := by
  have h6 := hbyte 6 (by omega)
  have hsig : ([buf 0, buf 1, buf 2, buf 3] = SFDP_SIGNATURE ∧ buf 5 = 1) ↔
      ((buf 0 = 'S'.toNat ∧ buf 1 = 'F'.toNat ∧ buf 2 = 'D'.toNat ∧ buf 3 = 'P'.toNat) ∧
        buf 5 = 1) := by
    rw [SFDP_SIGNATURE_eq]
    simp only [List.cons.injEq, and_true]
    have hS : 'S'.toNat = 0x53 := by decide
    have hF : 'F'.toNat = 0x46 := by decide
    have hD : 'D'.toNat = 0x44 := by decide
    have hP : 'P'.toNat = 0x50 := by decide
    rw [hS, hF, hD, hP]
  have hok : ((buf 0 = 'S'.toNat ∧ buf 1 = 'F'.toNat ∧ buf 2 = 'D'.toNat ∧ buf 3 = 'P'.toNat) ∧
        buf 5 = 1) → sfdp_parse_sfdp_header (as_sfdp_hdr buf) = (buf 6 : Int) + 1 := by
    intro h
    unfold sfdp_parse_sfdp_header as_sfdp_hdr
    simp only
    rw [if_neg (not_not.2 (hsig.2 h))]
  have hbad : ¬ ((buf 0 = 'S'.toNat ∧ buf 1 = 'F'.toNat ∧ buf 2 = 'D'.toNat ∧
        buf 3 = 'P'.toNat) ∧ buf 5 = 1) → sfdp_parse_sfdp_header (as_sfdp_hdr buf) = -1 := by
    intro h
    unfold sfdp_parse_sfdp_header as_sfdp_hdr
    simp only
    rw [if_pos (fun h1 => h (hsig.1 h1))]
  refine ⟨⟨?_, ?_⟩, ?_, hbad⟩
  · intro hne
    by_contra h
    exact hne (hbad h)
  · intro h
    rw [hok h]
    omega
  · intro h
    rw [hok h]
    omega

/-- Instances of C8: a valid header with NPH = 2 gives 3; NPH = 255 gives
256; major version 2 gives -1. -/
theorem parse_sfdp_header_result_witness :
    ((sfdp_parse_sfdp_header (as_sfdp_hdr (example_main_header 1 2)) ≠ -1 ↔
      (example_main_header 1 2 0 = 'S'.toNat ∧ example_main_header 1 2 1 = 'F'.toNat ∧
        example_main_header 1 2 2 = 'D'.toNat ∧ example_main_header 1 2 3 = 'P'.toNat) ∧
        example_main_header 1 2 5 = 1) ∧
    ((example_main_header 1 2 0 = 'S'.toNat ∧ example_main_header 1 2 1 = 'F'.toNat ∧
        example_main_header 1 2 2 = 'D'.toNat ∧ example_main_header 1 2 3 = 'P'.toNat) ∧
        example_main_header 1 2 5 = 1 →
      sfdp_parse_sfdp_header (as_sfdp_hdr (example_main_header 1 2))
          = (example_main_header 1 2 6 : Int) + 1 ∧
        1 ≤ sfdp_parse_sfdp_header (as_sfdp_hdr (example_main_header 1 2)) ∧
        sfdp_parse_sfdp_header (as_sfdp_hdr (example_main_header 1 2)) ≤ 256) ∧
    (¬ ((example_main_header 1 2 0 = 'S'.toNat ∧ example_main_header 1 2 1 = 'F'.toNat ∧
        example_main_header 1 2 2 = 'D'.toNat ∧ example_main_header 1 2 3 = 'P'.toNat) ∧
        example_main_header 1 2 5 = 1) →
      sfdp_parse_sfdp_header (as_sfdp_hdr (example_main_header 1 2)) = -1)) ∧
    sfdp_parse_sfdp_header (as_sfdp_hdr (example_main_header 1 2)) = 3 ∧
    sfdp_parse_sfdp_header (as_sfdp_hdr (example_main_header 1 255)) = 256 ∧
    sfdp_parse_sfdp_header (as_sfdp_hdr (example_main_header 2 2)) = -1 :=
  ⟨parse_sfdp_header_result (example_main_header 1 2)
      (by intro i hi; interval_cases i <;> decide),
    by decide, by decide, by decide⟩

/-! ## The parameter header scanner -/

theorem parse_single_param_header_status (phdr : sfdp_prm_hdr) (hdr_info : sfdp_hdr_info)
    (h : phdr.P_MAJOR = 1) : (sfdp_parse_single_param_header phdr hdr_info).1 = 0 := by
  unfold sfdp_parse_single_param_header
  rw [if_neg (not_not.2 h)]
  split
  · rfl
  · split <;> rfl

/-- The parameter header loop when every read succeeds and every header read
has `P_MAJOR == 1`: `n` headers are read at `addr`, `addr + 8`, ... and the
result is 0. -/
theorem param_headers_loop_reads_all {σ : Type} (reader : sfdp_reader_fn σ)
    (hok : ∀ s a l, 0 ≤ (reader s a l).2.status) :
    ∀ (n addr : Nat) (s : σ) (sfdp_info : sfdp_hdr_info) (calls : List reader_call),
      (∀ s1 k, k < n → (reader s1 (addr + 8 * k) SFDP_HEADER_SIZE).2.data 2 = 1) →
      (param_headers_loop reader n addr s sfdp_info calls).ret = 0 ∧
      (param_headers_loop reader n addr s sfdp_info calls).calls.map
          (fun c => (c.addr, c.length))
        = calls.map (fun c => (c.addr, c.length))
          ++ (List.range n).map (fun k => (addr + 8 * k, 8)) := by
  intro n
  induction n with
  | zero =>
    intro addr s sfdp_info calls _
    simp [param_headers_loop]
  | succ n ih =>
    intro addr s sfdp_info calls hmajor
    have hst : ¬ (reader s addr SFDP_HEADER_SIZE).2.status < 0 := not_lt.2 (hok _ _ _)
    have hp : ¬ (sfdp_parse_single_param_header
        (as_sfdp_prm_hdr (reader s addr SFDP_HEADER_SIZE).2.data) sfdp_info).1 < 0 := by
      rw [parse_single_param_header_status]
      · decide
      · exact hmajor s 0 (by omega)
    have hnext : ∀ s1 k, k < n →
        (reader s1 (addr + SFDP_HEADER_SIZE + 8 * k) SFDP_HEADER_SIZE).2.data 2 = 1 := by
      intro s1 k hk
      have h := hmajor s1 (k + 1) (by omega)
      have ha : addr + SFDP_HEADER_SIZE + 8 * k = addr + 8 * (k + 1) := by
        unfold SFDP_HEADER_SIZE
        ring
      rw [ha]
      exact h
    rw [param_headers_loop]
    simp only [if_neg hst, if_neg hp]
    obtain ⟨h1, h2⟩ := ih (addr + SFDP_HEADER_SIZE) (reader s addr SFDP_HEADER_SIZE).1
      (sfdp_parse_single_param_header
        (as_sfdp_prm_hdr (reader s addr SFDP_HEADER_SIZE).2.data) sfdp_info).2
      (calls ++ [⟨addr, SFDP_HEADER_SIZE, (reader s addr SFDP_HEADER_SIZE).2.status⟩]) hnext
    refine ⟨h1, ?_⟩
    rw [h2, List.range_succ_eq_map]
    simp only [List.map_append, List.map_cons, List.map_nil, List.map_map, List.append_assoc,
      List.singleton_append, List.append_cancel_left_eq, List.cons.injEq]
    refine ⟨by simp [SFDP_HEADER_SIZE], ?_⟩
    apply List.map_congr_left
    intro k _
    simp only [Function.comp, SFDP_HEADER_SIZE, Prod.mk.injEq, and_true]
    omega

/-- C9: for a reader whose reads all succeed, whose main header is valid with
header-count byte `nph` and whose parameter headers all have `P_MAJOR == 1`,
`sfdp_parse_headers` returns 0 and its reader calls are exactly (address 0,
length 8) followed by (address `8*k`, length 8) for `k = 1 .. nph+1` in
increasing order, i.e. exactly `nph + 1` parameter headers are read after the
main header. -/
theorem parse_headers_reads_nph_plus_one {σ : Type} (reader : sfdp_reader_fn σ) (s : σ)
    (sfdp_info : sfdp_hdr_info) (nph : Nat)
    (hok : ∀ s1 a l, 0 ≤ (reader s1 a l).2.status)
    (hsig : (reader s 0 8).2.data 0 = 'S'.toNat ∧ (reader s 0 8).2.data 1 = 'F'.toNat ∧
      (reader s 0 8).2.data 2 = 'D'.toNat ∧ (reader s 0 8).2.data 3 = 'P'.toNat)
    (hmajor : (reader s 0 8).2.data 5 = 1)
    (hnph : (reader s 0 8).2.data 6 = nph)
    (hparam : ∀ s1 k, 1 ≤ k → k ≤ nph + 1 → (reader s1 (8 * k) 8).2.data 2 = 1) :
    (sfdp_parse_headers reader s sfdp_info).ret = 0 ∧
    (sfdp_parse_headers reader s sfdp_info).calls.map (fun c => (c.addr, c.length))
      = (0, 8) :: (List.range (nph + 1)).map (fun k => (8 * (k + 1), 8)) ∧
    (sfdp_parse_headers reader s sfdp_info).calls.length = (nph + 1) + 1 := by
  have hst : ¬ (reader s 0 SFDP_HEADER_SIZE).2.status < 0 := not_lt.2 (hok _ _ _)
  have hcnt : sfdp_parse_sfdp_header (as_sfdp_hdr (reader s 0 SFDP_HEADER_SIZE).2.data)
      = (nph : Int) + 1 := by
    have hS : 'S'.toNat = 0x53 := by decide
    have hF : 'F'.toNat = 0x46 := by decide
    have hD : 'D'.toNat = 0x44 := by decide
    have hP : 'P'.toNat = 0x50 := by decide
    unfold sfdp_parse_sfdp_header as_sfdp_hdr
    simp only [SFDP_HEADER_SIZE, SFDP_SIGNATURE_eq]
    rw [hsig.1, hsig.2.1, hsig.2.2.1, hsig.2.2.2, hmajor, hnph, hS, hF, hD, hP]
    simp
  have hloop := param_headers_loop_reads_all reader hok (nph + 1) (0 + SFDP_HEADER_SIZE)
    (reader s 0 SFDP_HEADER_SIZE).1 sfdp_info
    [⟨0, SFDP_HEADER_SIZE, (reader s 0 SFDP_HEADER_SIZE).2.status⟩]
    (by
      intro s1 k hk
      have h := hparam s1 (k + 1) (by omega) (by omega)
      have ha : 0 + SFDP_HEADER_SIZE + 8 * k = 8 * (k + 1) := by
        unfold SFDP_HEADER_SIZE
        ring
      rw [ha]
      exact h)
  have hres : sfdp_parse_headers reader s sfdp_info
      = param_headers_loop reader (nph + 1) (0 + SFDP_HEADER_SIZE)
          (reader s 0 SFDP_HEADER_SIZE).1 sfdp_info
          [⟨0, SFDP_HEADER_SIZE, (reader s 0 SFDP_HEADER_SIZE).2.status⟩] := by
    unfold sfdp_parse_headers
    simp only [if_neg hst, hcnt]
    rw [if_neg (by omega)]
    have ht : ((nph : Int) + 1).toNat = nph + 1 := by omega
    rw [ht]
  have hmap : (sfdp_parse_headers reader s sfdp_info).calls.map (fun c => (c.addr, c.length))
      = (0, 8) :: (List.range (nph + 1)).map (fun k => (8 * (k + 1), 8)) := by
    rw [hres, hloop.2]
    simp only [List.map_cons, List.map_nil, List.singleton_append, SFDP_HEADER_SIZE,
      List.cons.injEq, true_and]
    apply List.map_congr_left
    intro k _
    simp only [Prod.mk.injEq, and_true]
    ring
  refine ⟨by rw [hres]; exact hloop.1, hmap, ?_⟩
  have hlen := congrArg List.length hmap
  simpa using hlen

/-- An instance of C9: a device with NPH = 2 whose reads all succeed.  The
calls are (0, 8), (8, 8), (16, 8), (24, 8) and the result is 0. -/
theorem parse_headers_reads_nph_plus_one_witness :
    ((sfdp_parse_headers (example_reader 2) () (example_regions 0 0 [])).ret = 0 ∧
      (sfdp_parse_headers (example_reader 2) () (example_regions 0 0 [])).calls.map
          (fun c => (c.addr, c.length))
        = (0, 8) :: (List.range (2 + 1)).map (fun k => (8 * (k + 1), 8)) ∧
      (sfdp_parse_headers (example_reader 2) () (example_regions 0 0 [])).calls.length
        = (2 + 1) + 1) ∧
    (sfdp_parse_headers (example_reader 2) () (example_regions 0 0 [])).calls
      = [⟨0, 8, 0⟩, ⟨8, 8, 0⟩, ⟨16, 8, 0⟩, ⟨24, 8, 0⟩] :=
  ⟨parse_headers_reads_nph_plus_one (example_reader 2) () (example_regions 0 0 []) 2
      (fun _ _ _ => Int.le_refl 0) (by decide) (by decide) (by decide)
      (by
        intro _ k h1 h2
        interval_cases k <;> rfl),
    by decide⟩

theorem no_failing_call_of_all_succeeded (calls pre post : List reader_call) (c : reader_call)
    (hall : ∀ c1 ∈ calls, 0 ≤ c1.status) (heq : calls = pre ++ c :: post)
    (hneg : c.status < 0) : False := by
  have hmem : c ∈ calls := by
    rw [heq]
    simp
  have := hall c hmem
  omega

theorem failing_call_is_last (calls pre post : List reader_call) (c0 c : reader_call)
    (hall : ∀ c1 ∈ calls, 0 ≤ c1.status) (heq : calls ++ [c0] = pre ++ c :: post)
    (hneg : c.status < 0) : post = [] := by
  rcases List.eq_nil_or_concat post with hnil | ⟨post1, x, hpost⟩
  · exact hnil
  · exfalso
    subst hpost
    have h1 : calls ++ [c0] = (pre ++ c :: post1) ++ [x] := by
      rw [heq]
      simp
    have h2 := List.append_inj_left' h1 rfl
    exact no_failing_call_of_all_succeeded calls pre post1 c hall h2 hneg

/-- The parameter header loop, entered after reads that all succeeded: a
read with a negative status is the last call made and the result is -1. -/
theorem param_headers_loop_stops_at_failure {σ : Type} (reader : sfdp_reader_fn σ) :
    ∀ (n addr : Nat) (s : σ) (sfdp_info : sfdp_hdr_info) (calls : List reader_call),
      (∀ c1 ∈ calls, 0 ≤ c1.status) →
      ∀ (pre post : List reader_call) (c : reader_call),
        (param_headers_loop reader n addr s sfdp_info calls).calls = pre ++ c :: post →
        c.status < 0 →
        (param_headers_loop reader n addr s sfdp_info calls).ret = -1 ∧ post = [] := by
  intro n
  induction n with
  | zero =>
    intro addr s sfdp_info calls hall pre post c heq hneg
    simp only [param_headers_loop] at heq
    exact (no_failing_call_of_all_succeeded calls pre post c hall heq hneg).elim
  | succ n ih =>
    intro addr s sfdp_info calls hall pre post c heq hneg
    rw [param_headers_loop] at heq ⊢
    simp only at heq ⊢
    by_cases hst : (reader s addr SFDP_HEADER_SIZE).2.status < 0
    · rw [if_pos hst] at heq ⊢
      exact ⟨rfl, failing_call_is_last calls pre post _ c hall heq hneg⟩
    · rw [if_neg hst] at heq ⊢
      have hall1 : ∀ c1 ∈ calls ++
          [(⟨addr, SFDP_HEADER_SIZE, (reader s addr SFDP_HEADER_SIZE).2.status⟩ : reader_call)],
          0 ≤ c1.status := by
        intro c1 hc1
        rw [List.mem_append, List.mem_singleton] at hc1
        rcases hc1 with hc1 | hc1
        · exact hall c1 hc1
        · subst hc1
          exact not_lt.1 hst
      by_cases hp : (sfdp_parse_single_param_header
          (as_sfdp_prm_hdr (reader s addr SFDP_HEADER_SIZE).2.data) sfdp_info).1 < 0
      · rw [if_pos hp] at heq
        exact (no_failing_call_of_all_succeeded _ pre post c hall1 heq hneg).elim
      · rw [if_neg hp] at heq ⊢
        exact ih _ _ _ _ hall1 pre post c heq hneg

/-- C10: for every reader, if the read of the main header or of any
parameter header returns a negative status, `sfdp_parse_headers` returns -1
and issues no further reader call after the failing one. -/
theorem parse_headers_stops_at_read_failure {σ : Type} (reader : sfdp_reader_fn σ) (s : σ)
    (sfdp_info : sfdp_hdr_info) (pre post : List reader_call) (c : reader_call)
    (hcalls : (sfdp_parse_headers reader s sfdp_info).calls = pre ++ c :: post)
    (hneg : c.status < 0) :
    (sfdp_parse_headers reader s sfdp_info).ret = -1 ∧ post = [] := by
  unfold sfdp_parse_headers at hcalls ⊢
  simp only at hcalls ⊢
  by_cases hst : (reader s 0 SFDP_HEADER_SIZE).2.status < 0
  · rw [if_pos hst] at hcalls ⊢
    exact ⟨rfl, failing_call_is_last [] pre post _ c (by simp) hcalls hneg⟩
  · rw [if_neg hst] at hcalls ⊢
    have hall1 : ∀ c1 ∈
        [(⟨0, SFDP_HEADER_SIZE, (reader s 0 SFDP_HEADER_SIZE).2.status⟩ : reader_call)],
        0 ≤ c1.status := by
      intro c1 hc1
      rw [List.mem_singleton] at hc1
      subst hc1
      exact not_lt.1 hst
    by_cases hp : sfdp_parse_sfdp_header (as_sfdp_hdr (reader s 0 SFDP_HEADER_SIZE).2.data) < 0
    · rw [if_pos hp] at hcalls
      exact (no_failing_call_of_all_succeeded _ pre post c hall1 hcalls hneg).elim
    · rw [if_neg hp] at hcalls ⊢
      exact param_headers_loop_stops_at_failure reader _ _ _ _ _ hall1 pre post c hcalls hneg

/-- Instances of C10: a device with NPH = 2 that fails its third read (the
second parameter header), and one that fails the read of the main header;
the failing call is the last one and the result is -1. -/
theorem parse_headers_stops_at_read_failure_witness :
    ((sfdp_parse_headers (failing_reader 2 2) 0 (example_regions 0 0 [])).ret = -1 ∧
      ([] : List reader_call) = []) ∧
    (sfdp_parse_headers (failing_reader 2 2) 0 (example_regions 0 0 [])).calls
      = [⟨0, 8, 0⟩, ⟨8, 8, 0⟩, ⟨16, 8, -1⟩] ∧
    (sfdp_parse_headers (failing_reader 2 0) 0 (example_regions 0 0 [])).calls
      = [⟨0, 8, -1⟩] ∧
    (sfdp_parse_headers (failing_reader 2 0) 0 (example_regions 0 0 [])).ret = -1 :=
  ⟨parse_headers_stops_at_read_failure (failing_reader 2 2) 0 (example_regions 0 0 [])
      [⟨0, 8, 0⟩, ⟨8, 8, 0⟩] [] ⟨16, 8, -1⟩ (by decide) (by decide),
    by decide, by decide, by decide⟩

theorem get_param_tbl_ptr_eq_mod (dword2 : Nat) :
    sfdp_get_param_tbl_ptr dword2 = dword2 % 2 ^ 24 := by
  unfold sfdp_get_param_tbl_ptr
  have h : (0x00FFFFFF : Nat) = 2 ^ 24 - 1 := by norm_num
  rw [h, Nat.and_pow_two_sub_one_eq_mod]

theorem get_param_id_msb_eq_div_mod (dword2 : Nat) :
    sfdp_get_param_id_msb dword2 = dword2 / 2 ^ 24 % 2 ^ 8 := by
  unfold sfdp_get_param_id_msb
  apply Nat.eq_of_testBit_eq
  intro j
  have hmask : (0xFF000000 : Nat) = (2 ^ 8 - 1) <<< 24 := by decide
  rw [Nat.testBit_shiftRight, Nat.testBit_and, hmask, Nat.testBit_shiftLeft,
    Nat.testBit_mod_two_pow, ← Nat.shiftRight_eq_div_pow, Nat.testBit_shiftRight,
    Nat.testBit_two_pow_sub_one]
  have h1 : 24 + j - 24 = j := by omega
  have h2 : 24 + j ≥ 24 := by omega
  rw [h1]
  simp only [h2, decide_True, Bool.true_and]
  exact Bool.and_comm _ _

/-- The little-endian DWORD of four bytes: its bits 24..31 are the last byte
and its bits 0..23 are made of the first three. -/
theorem dword_bits_of_bytes (b4 b5 b6 b7 : Nat) (h4 : b4 < 256) (h5 : b5 < 256)
    (h6 : b6 < 256) :
    (b4 + 2 ^ 8 * b5 + 2 ^ 16 * b6 + 2 ^ 24 * b7) / 2 ^ 24 = b7 ∧
    (b4 + 2 ^ 8 * b5 + 2 ^ 16 * b6 + 2 ^ 24 * b7) % 2 ^ 24 = b4 + 2 ^ 8 * b5 + 2 ^ 16 * b6 := by
  constructor <;> omega

/-- C11: for every parameter header with `P_MAJOR != 1`, whatever its
parameter ID, `sfdp_parse_single_param_header` returns -1 and leaves
`hdr_info` entirely unchanged. -/
theorem parse_single_param_header_bad_major (phdr_ptr : sfdp_prm_hdr)
    (hdr_info : sfdp_hdr_info) (h : phdr_ptr.P_MAJOR ≠ 1) :
    sfdp_parse_single_param_header phdr_ptr hdr_info = (-1, hdr_info) := by
  unfold sfdp_parse_single_param_header
  rw [if_pos h]

/-- Instances of C11: a Basic table header and a Sector Map header with
`P_MAJOR == 2`. -/
theorem parse_single_param_header_bad_major_witness :
    sfdp_parse_single_param_header (as_sfdp_prm_hdr (example_param_header 0x00 2 16 0x30 0xFF))
        (example_fresh_info 0) = (-1, example_fresh_info 0) ∧
    sfdp_parse_single_param_header (as_sfdp_prm_hdr (example_param_header 0x81 2 4 0x100 0xFF))
        (example_fresh_info 0) = (-1, example_fresh_info 0) :=
  ⟨parse_single_param_header_bad_major _ _ (by decide),
    parse_single_param_header_bad_major _ _ (by decide)⟩

/-- C12: for every 8-byte parameter header with `P_MAJOR == 1`,
`sfdp_parse_single_param_header` returns 0 and its effect on `hdr_info` is
that of the reference `param_header_reference`, where `PID_MSB` (bits 24..31
of the DWORD at bytes 4..7) is byte 7 and the pointer (bits 0..23) is made of
the bytes 4, 5 and 6: a Basic header sets `bptbl.addr` and `bptbl.size =
min(P_LEN*4, 80)`, a Sector Map header sets `smptbl.addr` and `smptbl.size =
P_LEN*4`, and any other header leaves the record unchanged. -/
theorem parse_single_param_header_reference (buf : Nat → Nat) (hdr_info : sfdp_hdr_info)
    (hbyte : ∀ i, i < 8 → buf i < 256) (hmajor : buf 2 = 1) :
    sfdp_parse_single_param_header (as_sfdp_prm_hdr buf) hdr_info
      = (0, param_header_reference buf hdr_info) ∧
    (buf 0 = 0x00 ∧ buf 7 = 0xFF →
      param_header_reference buf hdr_info
        = { hdr_info with
            bptbl := { hdr_info.bptbl with
                       addr := buf 4 + 2 ^ 8 * buf 5 + 2 ^ 16 * buf 6,
                       size := min (buf 3 * 4) 80 } }) ∧
    (buf 0 = 0x81 ∧ buf 7 = 0xFF →
      param_header_reference buf hdr_info
        = { hdr_info with
            smptbl := { hdr_info.smptbl with
                        addr := buf 4 + 2 ^ 8 * buf 5 + 2 ^ 16 * buf 6,
                        size := buf 3 * 4 } }) ∧
    (¬ ((buf 0 = 0x00 ∨ buf 0 = 0x81) ∧ buf 7 = 0xFF) →
      param_header_reference buf hdr_info = hdr_info) := by
  have h4 := hbyte 4 (by omega)
  have h5 := hbyte 5 (by omega)
  have h6 := hbyte 6 (by omega)
  have h7 := hbyte 7 (by omega)
  obtain ⟨hdiv, hmod⟩ := dword_bits_of_bytes (buf 4) (buf 5) (buf 6) (buf 7) h4 h5 h6
  have hmsb : (buf 4 + 2 ^ 8 * buf 5 + 2 ^ 16 * buf 6 + 2 ^ 24 * buf 7) / 2 ^ 24 % 2 ^ 8
      = buf 7 := by
    rw [hdiv]
    exact Nat.mod_eq_of_lt h7
  have hdw : (as_sfdp_prm_hdr buf).DWORD2
      = buf 4 + 2 ^ 8 * buf 5 + 2 ^ 16 * buf 6 + 2 ^ 24 * buf 7 := by
    unfold as_sfdp_prm_hdr
    simp only
    ring
  refine ⟨?_, ?_, ?_, ?_⟩
  · unfold sfdp_parse_single_param_header param_header_reference
    rw [get_param_id_msb_eq_div_mod, get_param_tbl_ptr_eq_mod, hdw]
    have hm : (as_sfdp_prm_hdr buf).P_MAJOR = 1 := hmajor
    have hl : (as_sfdp_prm_hdr buf).PID_LSB = buf 0 := rfl
    have hp : (as_sfdp_prm_hdr buf).P_LEN = buf 3 := rfl
    rw [if_neg (not_not.2 hm), hl, hp]
    simp only [SFDP_BASIC_PARAMS_TBL_SIZE]
    split
    · rfl
    · split <;> rfl
  · rintro ⟨h0, hff⟩
    unfold param_header_reference
    simp only [hmsb, hmod]
    rw [if_pos ⟨h0, hff⟩]
  · rintro ⟨h0, hff⟩
    unfold param_header_reference
    simp only [hmsb, hmod]
    rw [if_neg (fun h => by rw [h0] at h; exact absurd h.1 (by decide)), if_pos ⟨h0, hff⟩]
  · intro hnot
    unfold param_header_reference
    simp only [hmsb, hmod]
    rw [if_neg (fun h => hnot ⟨Or.inl h.1, h.2⟩), if_neg (fun h => hnot ⟨Or.inr h.1, h.2⟩)]

/-- Instances of C12: a Basic table header (16 DWORDS at 0x30), one with
`P_LEN = 32` (size capped at 80), a Sector Map header (4 DWORDS at 0x100)
and a vendor header. -/
theorem parse_single_param_header_reference_witness :
    (sfdp_parse_single_param_header (as_sfdp_prm_hdr (example_param_header 0x00 1 16 0x30 0xFF))
        (example_fresh_info 0)
      = (0, param_header_reference (example_param_header 0x00 1 16 0x30 0xFF)
          (example_fresh_info 0))) ∧
    (sfdp_parse_single_param_header (as_sfdp_prm_hdr (example_param_header 0x00 1 16 0x30 0xFF))
        (example_fresh_info 0)).2.bptbl
      = { addr := 0x30, size := 64, device_size_bytes := 0, legacy_erase_instruction := 0 } ∧
    (sfdp_parse_single_param_header (as_sfdp_prm_hdr (example_param_header 0x00 1 32 0x30 0xFF))
        (example_fresh_info 0)).2.bptbl.size = 80 ∧
    ((sfdp_parse_single_param_header (as_sfdp_prm_hdr (example_param_header 0x81 1 4 0x100 0xFF))
        (example_fresh_info 0)).2.smptbl.addr = 0x100 ∧
      (sfdp_parse_single_param_header (as_sfdp_prm_hdr (example_param_header 0x81 1 4 0x100 0xFF))
        (example_fresh_info 0)).2.smptbl.size = 16) ∧
    sfdp_parse_single_param_header (as_sfdp_prm_hdr (example_param_header 0x01 1 4 0x200 0xC2))
        (example_fresh_info 0) = (0, example_fresh_info 0) :=
  ⟨(parse_single_param_header_reference (example_param_header 0x00 1 16 0x30 0xFF)
      (example_fresh_info 0) (by intro i hi; interval_cases i <;> decide) (by decide)).1,
    by decide, by decide, ⟨by decide, by decide⟩, by decide⟩

/-! ## The Basic Parameter Table decoders -/

/-- The shifts and ORs that assemble `density_bits` give the little-endian
number of the four bytes. -/
theorem density_bits_eq (b4 b5 b6 b7 : Nat) (h4 : b4 < 256) (h5 : b5 < 256) (h6 : b6 < 256)
    (h7 : b7 < 256) :
    ((b7 <<< 24) ||| (b6 <<< 16) ||| (b5 <<< 8) ||| b4) % 2 ^ 32
      = b4 + 2 ^ 8 * b5 + 2 ^ 16 * b6 + 2 ^ 24 * b7 := by
  have e1 : b7 <<< 24 ||| b6 <<< 16 = 2 ^ 16 * (2 ^ 8 * b7 + b6) := by
    have h := Nat.mul_add_lt_is_or (show 2 ^ 16 * b6 < 2 ^ 24 by omega) b7
    rw [Nat.shiftLeft_eq, Nat.shiftLeft_eq, Nat.mul_comm b7, Nat.mul_comm b6, ← h]
    ring
  have e2 : 2 ^ 16 * (2 ^ 8 * b7 + b6) ||| b5 <<< 8 = 2 ^ 8 * (2 ^ 8 * (2 ^ 8 * b7 + b6) + b5) := by
    have h := Nat.mul_add_lt_is_or (show 2 ^ 8 * b5 < 2 ^ 16 by omega) (2 ^ 8 * b7 + b6)
    rw [Nat.shiftLeft_eq, Nat.mul_comm b5, ← h]
    ring
  have e3 : 2 ^ 8 * (2 ^ 8 * (2 ^ 8 * b7 + b6) + b5) ||| b4
      = 2 ^ 8 * (2 ^ 8 * (2 ^ 8 * b7 + b6) + b5) + b4 :=
    (Nat.mul_add_lt_is_or (show b4 < 2 ^ 8 by omega) _).symm
  rw [e1, e2, e3]
  omega

/-- What `sfdp_detect_device_density` computes on a table whose bytes 4..7
are `b4`..`b7`: status 0 and the device size `((value + 1) mod 2^32) / 8`. -/
theorem detect_device_density_eq (bptbl_ptr : List Nat) (bptbl_info : sfdp_bptbl_info)
    (b4 b5 b6 b7 : Nat) (r4 : bptbl_ptr[4]? = some b4) (r5 : bptbl_ptr[5]? = some b5)
    (r6 : bptbl_ptr[6]? = some b6) (r7 : bptbl_ptr[7]? = some b7)
    (h4 : b4 < 256) (h5 : b5 < 256) (h6 : b6 < 256) (h7 : b7 < 256) :
    sfdp_detect_device_density bptbl_ptr bptbl_info
      = some (0, { bptbl_info with
          device_size_bytes :=
            (b4 + 2 ^ 8 * b5 + 2 ^ 16 * b6 + 2 ^ 24 * b7 + 1) % 2 ^ 32 / 8 }) := by
  unfold sfdp_detect_device_density
  rw [r4, r5, r6, r7]
  simp only [density_bits_eq b4 b5 b6 b7 h4 h5 h6 h7]

/-- C13, as stated, fails: for the density field 0xFFFFFFFF the 32-bit sum
`density_bits + 1` wraps to 0 and `device_size_bytes` becomes 0, not
`(0xFFFFFFFF + 1) / 8 = 536870912`. -/
theorem detect_device_density_wraps :
    ¬ ∀ (bptbl_ptr : List Nat) (bptbl_info : sfdp_bptbl_info) (b4 b5 b6 b7 : Nat),
      bptbl_ptr[4]? = some b4 → bptbl_ptr[5]? = some b5 → bptbl_ptr[6]? = some b6 →
      bptbl_ptr[7]? = some b7 → b4 < 256 → b5 < 256 → b6 < 256 → b7 < 256 →
      sfdp_detect_device_density bptbl_ptr bptbl_info
        = some (0, { bptbl_info with
            device_size_bytes := (b4 + 2 ^ 8 * b5 + 2 ^ 16 * b6 + 2 ^ 24 * b7 + 1) / 8 }) := by
  intro h
  have h1 := h (example_basic_table 0x20 0 0xFFFFFFFF example_erase_types 0x80)
    (example_fresh_info 64).bptbl 0xFF 0xFF 0xFF 0xFF (by decide) (by decide) (by decide)
    (by decide) (by decide) (by decide) (by decide) (by decide)
  revert h1
  decide

/-- C13, amended: for every Basic table, with `value` the 32-bit
little-endian number formed from bytes 4..7, `sfdp_detect_device_density`
returns 0 and sets `device_size_bytes = ((value + 1) mod 2^32) / 8`, the sum
being computed in 32 bits; this is `(value + 1) / 8` for every value other
than 0xFFFFFFFF, and no other field of the record changes. -/
theorem detect_device_density_value (bptbl_ptr : List Nat) (bptbl_info : sfdp_bptbl_info)
    (b4 b5 b6 b7 : Nat) (r4 : bptbl_ptr[4]? = some b4) (r5 : bptbl_ptr[5]? = some b5)
    (r6 : bptbl_ptr[6]? = some b6) (r7 : bptbl_ptr[7]? = some b7)
    (h4 : b4 < 256) (h5 : b5 < 256) (h6 : b6 < 256) (h7 : b7 < 256) :
    sfdp_detect_device_density bptbl_ptr bptbl_info
      = some (0, { bptbl_info with
          device_size_bytes :=
            (b4 + 2 ^ 8 * b5 + 2 ^ 16 * b6 + 2 ^ 24 * b7 + 1) % 2 ^ 32 / 8 }) ∧
    (b4 + 2 ^ 8 * b5 + 2 ^ 16 * b6 + 2 ^ 24 * b7 ≠ 0xFFFFFFFF →
      (b4 + 2 ^ 8 * b5 + 2 ^ 16 * b6 + 2 ^ 24 * b7 + 1) % 2 ^ 32 / 8
        = (b4 + 2 ^ 8 * b5 + 2 ^ 16 * b6 + 2 ^ 24 * b7 + 1) / 8) := by
  refine ⟨detect_device_density_eq bptbl_ptr bptbl_info b4 b5 b6 b7 r4 r5 r6 r7 h4 h5 h6 h7, ?_⟩
  intro hne
  rw [Nat.mod_eq_of_lt (by omega)]

/-- An instance of the amended C13: the density field 0x00FFFFFF gives a
device of 2097152 bytes. -/
theorem detect_device_density_value_witness :
    (sfdp_detect_device_density (example_basic_table 0x20 0 0x00FFFFFF example_erase_types 0x80)
        (example_fresh_info 64).bptbl
      = some (0, { (example_fresh_info 64).bptbl with
          device_size_bytes :=
            (0xFF + 2 ^ 8 * 0xFF + 2 ^ 16 * 0xFF + 2 ^ 24 * 0x00 + 1) % 2 ^ 32 / 8 }) ∧
      (0xFF + 2 ^ 8 * 0xFF + 2 ^ 16 * 0xFF + 2 ^ 24 * 0x00 ≠ 0xFFFFFFFF →
        (0xFF + 2 ^ 8 * 0xFF + 2 ^ 16 * 0xFF + 2 ^ 24 * 0x00 + 1) % 2 ^ 32 / 8
          = (0xFF + 2 ^ 8 * 0xFF + 2 ^ 16 * 0xFF + 2 ^ 24 * 0x00 + 1) / 8)) ∧
    (sfdp_detect_device_density (example_basic_table 0x20 0 0x00FFFFFF example_erase_types 0x80)
        (example_fresh_info 64).bptbl).map (fun r => r.2.device_size_bytes) = some 2097152 :=
  ⟨detect_device_density_value
      (example_basic_table 0x20 0 0x00FFFFFF example_erase_types 0x80)
      (example_fresh_info 64).bptbl 0xFF 0xFF 0xFF 0x00 (by decide) (by decide) (by decide)
      (by decide) (by decide) (by decide) (by decide) (by decide),
    by decide⟩

/-- C14, as stated, fails: on a table whose density field is 0 the decoder
returns 0 and leaves `device_size_bytes == 0`. -/
theorem detect_device_density_zero_size :
    ¬ ∀ (bptbl_ptr : List Nat) (bptbl_info : sfdp_bptbl_info) (r : Int × sfdp_bptbl_info),
      (∀ b ∈ bptbl_ptr, b < 256) →
      sfdp_detect_device_density bptbl_ptr bptbl_info = some r → r.1 = 0 →
      0 < r.2.device_size_bytes := by
  intro h
  have h1 := h (example_basic_table 0x20 0 0 example_erase_types 0x80)
    (example_fresh_info 64).bptbl
    (0, { (example_fresh_info 64).bptbl with device_size_bytes := 0 })
    (by decide) (by decide) (by decide)
  revert h1
  decide

/-- C14, amended: for every Basic table `sfdp_detect_device_density` returns
0, and the resulting `device_size_bytes` is strictly greater than 0 if and
only if the density value of bytes 4..7 is at least 7 and is not 0xFFFFFFFF. -/
theorem detect_device_density_positive_iff (bptbl_ptr : List Nat)
    (bptbl_info : sfdp_bptbl_info) (b4 b5 b6 b7 : Nat)
    (r4 : bptbl_ptr[4]? = some b4) (r5 : bptbl_ptr[5]? = some b5)
    (r6 : bptbl_ptr[6]? = some b6) (r7 : bptbl_ptr[7]? = some b7)
    (h4 : b4 < 256) (h5 : b5 < 256) (h6 : b6 < 256) (h7 : b7 < 256) :
    ∃ r : Int × sfdp_bptbl_info,
      sfdp_detect_device_density bptbl_ptr bptbl_info = some r ∧ r.1 = 0 ∧
      (0 < r.2.device_size_bytes ↔
        7 ≤ b4 + 2 ^ 8 * b5 + 2 ^ 16 * b6 + 2 ^ 24 * b7 ∧
          b4 + 2 ^ 8 * b5 + 2 ^ 16 * b6 + 2 ^ 24 * b7 ≠ 0xFFFFFFFF) := by
  refine ⟨_, detect_device_density_eq bptbl_ptr bptbl_info b4 b5 b6 b7 r4 r5 r6 r7 h4 h5 h6 h7,
    rfl, ?_⟩
  simp only
  omega

/-- Instances of the amended C14: the density field 0x00FFFFFF gives a
positive size, the density fields 6 and 0xFFFFFFFF give the size 0. -/
theorem detect_device_density_positive_iff_witness :
    (∃ r : Int × sfdp_bptbl_info,
      sfdp_detect_device_density (example_basic_table 0x20 0 0x00FFFFFF example_erase_types 0x80)
        (example_fresh_info 64).bptbl = some r ∧ r.1 = 0 ∧
      (0 < r.2.device_size_bytes ↔
        7 ≤ 0xFF + 2 ^ 8 * 0xFF + 2 ^ 16 * 0xFF + 2 ^ 24 * 0x00 ∧
          0xFF + 2 ^ 8 * 0xFF + 2 ^ 16 * 0xFF + 2 ^ 24 * 0x00 ≠ 0xFFFFFFFF)) ∧
    (sfdp_detect_device_density (example_basic_table 0x20 0 6 example_erase_types 0x80)
        (example_fresh_info 64).bptbl).map (fun r => r.2.device_size_bytes) = some 0 ∧
    (sfdp_detect_device_density (example_basic_table 0x20 0 0xFFFFFFFF example_erase_types 0x80)
        (example_fresh_info 64).bptbl).map (fun r => r.2.device_size_bytes) = some 0 :=
  ⟨detect_device_density_positive_iff
      (example_basic_table 0x20 0 0x00FFFFFF example_erase_types 0x80)
      (example_fresh_info 64).bptbl 0xFF 0xFF 0xFF 0x00 (by decide) (by decide) (by decide)
      (by decide) (by decide) (by decide) (by decide) (by decide),
    by decide, by decide⟩

/-- C15: if the declared size exceeds 40, `sfdp_detect_page_size` returns
`2^N` with `N` the high nibble of byte 40 (so `N < 16`; `N = 8` gives 256 and
`N = 12` gives 4096); otherwise it returns the default 256 whatever the
table holds, even a table without byte 40; the result is always a power of
two. -/
theorem detect_page_size_result (basic_param_table_ptr : List Nat)
    (basic_param_table_size : Nat) :
    (basic_param_table_size > 40 →
      ∀ b, basic_param_table_ptr[40]? = some b → b < 256 →
        sfdp_detect_page_size basic_param_table_ptr basic_param_table_size
          = some (2 ^ (b / 16)) ∧ b / 16 < 16) ∧
    (basic_param_table_size ≤ 40 →
      sfdp_detect_page_size basic_param_table_ptr basic_param_table_size = some 256 ∧
      sfdp_detect_page_size [] basic_param_table_size = some 256) ∧
    (∀ r, sfdp_detect_page_size basic_param_table_ptr basic_param_table_size = some r →
      ∃ N, r = 2 ^ N) := by
  refine ⟨?_, ?_, ?_⟩
  · intro hsize b hb hlt
    refine ⟨?_, by omega⟩
    unfold sfdp_detect_page_size
    simp only [if_pos hsize, hb, Nat.one_shiftLeft, Nat.shiftRight_eq_div_pow]
  · intro hsize
    unfold sfdp_detect_page_size
    simp only [if_neg (not_lt.2 hsize), and_self]
  · intro r hr
    unfold sfdp_detect_page_size at hr
    simp only at hr
    split at hr
    · split at hr
      · cases hr
      · rename_i b _
        simp only [Nat.one_shiftLeft, Option.some.injEq] at hr
        exact ⟨_, hr.symm⟩
    · simp only [Option.some.injEq] at hr
      exact ⟨8, hr.symm⟩

/-- Instances of C15: a table of 64 bytes with the nibble 8 gives 256, with
the nibble 12 gives 4096; a declared size of 40 gives the default 256. -/
theorem detect_page_size_result_witness :
    (sfdp_detect_page_size (example_basic_table 0x20 0 0x00FFFFFF example_erase_types 0x80) 64
        = some (2 ^ (0x80 / 16)) ∧ 0x80 / 16 < 16) ∧
    sfdp_detect_page_size (example_basic_table 0x20 0 0x00FFFFFF example_erase_types 0x80) 64
      = some 256 ∧
    sfdp_detect_page_size (example_basic_table 0x20 0 0x00FFFFFF example_erase_types 0xC0) 64
      = some 4096 ∧
    sfdp_detect_page_size (example_basic_table 0x20 0 0x00FFFFFF example_erase_types 0xC0) 40
      = some 256 :=
  ⟨(detect_page_size_result
      (example_basic_table 0x20 0 0x00FFFFFF example_erase_types 0x80) 64).1
      (by decide) 0x80 (by decide) (by decide),
    by decide, by decide, by decide⟩

theorem and_0x80_ne_zero_iff (b : Nat) : b &&& 0x80 ≠ 0 ↔ b.testBit 7 = true := by
  have h : (0x80 : Nat) = 2 ^ 7 := by norm_num
  rw [h]
  exact and_two_pow_ne_zero_iff b 7

theorem and_0x4_ne_zero_iff (b : Nat) : b &&& 0x4 ≠ 0 ↔ b.testBit 2 = true := by
  have h : (0x4 : Nat) = 2 ^ 2 := by norm_num
  rw [h]
  exact and_two_pow_ne_zero_iff b 2

/-- What both variants of `sfdp_detect_addressability` compute on a table
whose bytes 2 and 7 are `b2` and `b7`. -/
theorem detect_addressability_eq (bptbl_ptr : List Nat) (bptbl_info : sfdp_bptbl_info)
    (b2 b7 : Nat) (r2 : bptbl_ptr[2]? = some b2) (r7 : bptbl_ptr[7]? = some b7) :
    sfdp_detect_addressability true bptbl_ptr bptbl_info
      = some (if b7.testBit 7 = true then -1 else 0, bptbl_info) ∧
    sfdp_detect_addressability false bptbl_ptr bptbl_info
      = some (if b2.testBit 2 = true ∨ b7.testBit 7 = true then -1 else 0, bptbl_info) := by
  unfold sfdp_detect_addressability
  simp only [r2, r7, if_true, Bool.false_eq_true, if_false, and_0x80_ne_zero_iff,
    and_0x4_ne_zero_iff]
  constructor
  · split <;> rfl
  · by_cases h2 : b2.testBit 2 = true
    · simp [h2]
    · by_cases h7 : b7.testBit 7 = true
      · simp [h2, h7]
      · simp [h2, h7]

/-- Bit 7 of a byte is set exactly when the byte is at least 128. -/
theorem byte_testBit_7_iff (b : Nat) (h : b < 256) : b.testBit 7 = true ↔ 128 ≤ b := by
  rw [Nat.testBit_to_div_mod]
  simp only [decide_eq_true_eq]
  omega

/-- C16, as stated, fails: a table with the density field 0x0FFFFFFF (a
device of 32 MiB, beyond the 3-byte range of 16 MiB) and bit 2 of byte 2
clear passes the SPI variant of `sfdp_detect_addressability`. -/
theorem detect_addressability_spi_accepts_32MiB :
    ¬ ∀ (bptbl_ptr : List Nat) (bptbl_info d : sfdp_bptbl_info),
      (∀ b ∈ bptbl_ptr, b < 256) →
      sfdp_detect_device_density bptbl_ptr bptbl_info = some (0, d) →
      d.device_size_bytes > 2 ^ 24 →
      (sfdp_detect_addressability false bptbl_ptr bptbl_info).map (fun r => r.1)
        = some (-1) := by
  intro h
  have h1 := h (example_basic_table 0x20 0x02 0x0FFFFFFF example_erase_types 0x80)
    (example_fresh_info 64).bptbl
    { (example_fresh_info 64).bptbl with device_size_bytes := 2 ^ 25 }
    (by decide) (by decide) (by decide)
  revert h1
  decide

/-- C16, amended: in the SPI variant, `sfdp_detect_addressability` fails
(returns -1) for every Basic table whose decoded `device_size_bytes` exceeds
2^28 (256 MiB), since bit 31 of the density field is then set; it returns 0
for every table whose density field is below 2^31 and whose byte 2 has bit 2
clear, which includes devices between 16 MiB and 256 MiB. -/
theorem detect_addressability_spi_density (bptbl_ptr : List Nat)
    (bptbl_info : sfdp_bptbl_info) (b2 b4 b5 b6 b7 : Nat)
    (r2 : bptbl_ptr[2]? = some b2)
    (r4 : bptbl_ptr[4]? = some b4) (r5 : bptbl_ptr[5]? = some b5)
    (r6 : bptbl_ptr[6]? = some b6) (r7 : bptbl_ptr[7]? = some b7)
    (h4 : b4 < 256) (h5 : b5 < 256) (h6 : b6 < 256) (h7 : b7 < 256) :
    (∀ d, sfdp_detect_device_density bptbl_ptr bptbl_info = some (0, d) →
      d.device_size_bytes > 2 ^ 28 →
      sfdp_detect_addressability false bptbl_ptr bptbl_info = some (-1, bptbl_info)) ∧
    (b4 + 2 ^ 8 * b5 + 2 ^ 16 * b6 + 2 ^ 24 * b7 < 2 ^ 31 → b2.testBit 2 = false →
      sfdp_detect_addressability false bptbl_ptr bptbl_info = some (0, bptbl_info)) := by
  have hspi := (detect_addressability_eq bptbl_ptr bptbl_info b2 b7 r2 r7).2
  have hbit := byte_testBit_7_iff b7 h7
  constructor
  · intro d hd hsize
    rw [detect_device_density_eq bptbl_ptr bptbl_info b4 b5 b6 b7 r4 r5 r6 r7 h4 h5 h6 h7] at hd
    simp only [Option.some.injEq, Prod.mk.injEq, true_and] at hd
    subst hd
    simp only at hsize
    have h128 : 128 ≤ b7 := by omega
    rw [hspi, if_pos (Or.inr (hbit.2 h128))]
  · intro hval h2
    have h7f : ¬ b7.testBit 7 = true := by
      rw [hbit]
      omega
    rw [hspi, if_neg (by simp [h2, h7f])]

/-- Instances of the amended C16: the density field 0x8000000F (decoded size
2^28 + 2) is rejected; the density field 0x0FFFFFFF (32 MiB) is accepted. -/
theorem detect_addressability_spi_density_witness :
    sfdp_detect_addressability false
        (example_basic_table 0x20 0x02 0x8000000F example_erase_types 0x80)
        (example_fresh_info 64).bptbl = some (-1, (example_fresh_info 64).bptbl) ∧
    sfdp_detect_addressability false
        (example_basic_table 0x20 0x02 0x0FFFFFFF example_erase_types 0x80)
        (example_fresh_info 64).bptbl = some (0, (example_fresh_info 64).bptbl) :=
  ⟨(detect_addressability_spi_density
      (example_basic_table 0x20 0x02 0x8000000F example_erase_types 0x80)
      (example_fresh_info 64).bptbl 0x02 0x0F 0x00 0x00 0x80 (by decide) (by decide) (by decide)
      (by decide) (by decide) (by decide) (by decide) (by decide) (by decide)).1
      { (example_fresh_info 64).bptbl with device_size_bytes := 2 ^ 28 + 2 }
      (by decide) (by decide),
    (detect_addressability_spi_density
      (example_basic_table 0x20 0x02 0x0FFFFFFF example_erase_types 0x80)
      (example_fresh_info 64).bptbl 0x02 0xFF 0xFF 0xFF 0x0F (by decide) (by decide) (by decide)
      (by decide) (by decide) (by decide) (by decide) (by decide) (by decide)).2
      (by decide) (by decide)⟩

/-- C17: for every Basic table, the QSPI variant of
`sfdp_detect_addressability` fails iff bit 7 of byte 7 is set, and the SPI
variant fails iff bit 2 of byte 2 or bit 7 of byte 7 is set (both return 0
otherwise); hence every table rejected by the QSPI variant is rejected by
the SPI variant, and neither variant modifies the record. -/
theorem detect_addressability_variants (bptbl_ptr : List Nat) (bptbl_info : sfdp_bptbl_info)
    (b2 b7 : Nat) (r2 : bptbl_ptr[2]? = some b2) (r7 : bptbl_ptr[7]? = some b7) :
    (∃ q : Int, sfdp_detect_addressability true bptbl_ptr bptbl_info = some (q, bptbl_info) ∧
      (q = -1 ∨ q = 0) ∧ (q = -1 ↔ b7.testBit 7 = true)) ∧
    (∃ p : Int, sfdp_detect_addressability false bptbl_ptr bptbl_info = some (p, bptbl_info) ∧
      (p = -1 ∨ p = 0) ∧ (p = -1 ↔ (b2.testBit 2 = true ∨ b7.testBit 7 = true))) ∧
    ((sfdp_detect_addressability true bptbl_ptr bptbl_info).map (fun r => r.1) = some (-1) →
      (sfdp_detect_addressability false bptbl_ptr bptbl_info).map (fun r => r.1)
        = some (-1)) := by
  obtain ⟨hq, hp⟩ := detect_addressability_eq bptbl_ptr bptbl_info b2 b7 r2 r7
  refine ⟨⟨_, hq, ?_, ?_⟩, ⟨_, hp, ?_, ?_⟩, ?_⟩
  · split <;> simp
  · split <;> simp [*]
  · split <;> simp
  · split <;> simp [*]
  · rw [hq, hp]
    by_cases h7 : b7.testBit 7 = true
    · simp [h7]
    · simp [h7]

/-- Instances of C17: a table with the 4-byte-only flag (byte 2 = 0x04) and
a small density is accepted by the QSPI variant and rejected by the SPI
variant; a table with the top density bit set is rejected by both. -/
theorem detect_addressability_variants_witness :
    ((∃ q : Int, sfdp_detect_addressability true
          (example_basic_table 0x20 0x04 0x00FFFFFF example_erase_types 0x80)
          (example_fresh_info 64).bptbl = some (q, (example_fresh_info 64).bptbl) ∧
        (q = -1 ∨ q = 0) ∧ (q = -1 ↔ (0x00 : Nat).testBit 7 = true)) ∧
      (∃ p : Int, sfdp_detect_addressability false
          (example_basic_table 0x20 0x04 0x00FFFFFF example_erase_types 0x80)
          (example_fresh_info 64).bptbl = some (p, (example_fresh_info 64).bptbl) ∧
        (p = -1 ∨ p = 0) ∧
        (p = -1 ↔ ((0x04 : Nat).testBit 2 = true ∨ (0x00 : Nat).testBit 7 = true))) ∧
      ((sfdp_detect_addressability true
          (example_basic_table 0x20 0x04 0x00FFFFFF example_erase_types 0x80)
          (example_fresh_info 64).bptbl).map (fun r => r.1) = some (-1) →
        (sfdp_detect_addressability false
          (example_basic_table 0x20 0x04 0x00FFFFFF example_erase_types 0x80)
          (example_fresh_info 64).bptbl).map (fun r => r.1) = some (-1))) ∧
    sfdp_detect_addressability true
        (example_basic_table 0x20 0x04 0x00FFFFFF example_erase_types 0x80)
        (example_fresh_info 64).bptbl = some (0, (example_fresh_info 64).bptbl) ∧
    sfdp_detect_addressability false
        (example_basic_table 0x20 0x04 0x00FFFFFF example_erase_types 0x80)
        (example_fresh_info 64).bptbl = some (-1, (example_fresh_info 64).bptbl) ∧
    sfdp_detect_addressability true
        (example_basic_table 0x20 0x00 0x80000000 example_erase_types 0x80)
        (example_fresh_info 64).bptbl = some (-1, (example_fresh_info 64).bptbl) ∧
    sfdp_detect_addressability false
        (example_basic_table 0x20 0x00 0x80000000 example_erase_types 0x80)
        (example_fresh_info 64).bptbl = some (-1, (example_fresh_info 64).bptbl) :=
  ⟨detect_addressability_variants
      (example_basic_table 0x20 0x04 0x00FFFFFF example_erase_types 0x80)
      (example_fresh_info 64).bptbl 0x04 0x00 (by decide) (by decide),
    by decide, by decide, by decide, by decide⟩

/-- One iteration of the loop over the erase types, on a table that holds
the size exponent `n < 32` and the instruction `inst` of type `i_ind`:
the type is recorded with its instruction when its size `2^n` exceeds 1,
and with the instruction -1 otherwise. -/
theorem erase_type_iteration_eq (bptbl_ptr : List Nat) (i_ind bitfield : Nat)
    (sfdp_info : sfdp_hdr_info) (n inst bitfld0 : Nat)
    (hinst : i_ind < sfdp_info.smptbl.erase_type_inst_arr.length)
    (hsize : i_ind < sfdp_info.smptbl.erase_type_size_arr.length)
    (hn : bptbl_ptr[28 + 2 * i_ind]? = some n) (hn32 : n < 32)
    (ht : bptbl_ptr[29 + 2 * i_ind]? = some inst)
    (hbf : sfdp_info.smptbl.region_erase_types_bitfld[0]? = some bitfld0) :
    erase_type_iteration bptbl_ptr i_ind bitfield sfdp_info
      = some (if 2 ^ n > 1 then
          { sfdp_info with
            smptbl := { sfdp_info.smptbl with
              erase_type_inst_arr := sfdp_info.smptbl.erase_type_inst_arr.set i_ind (inst : Int),
              erase_type_size_arr := sfdp_info.smptbl.erase_type_size_arr.set i_ind (2 ^ n),
              regions_min_common_erase_size :=
                if 2 ^ n < sfdp_info.smptbl.regions_min_common_erase_size
                    ∨ sfdp_info.smptbl.regions_min_common_erase_size = 0 then
                  2 ^ n
                else sfdp_info.smptbl.regions_min_common_erase_size,
              region_erase_types_bitfld :=
                sfdp_info.smptbl.region_erase_types_bitfld.set 0
                  ((bitfld0 ||| bitfield) % 2 ^ 8) } }
        else
          { sfdp_info with
            smptbl := { sfdp_info.smptbl with
              erase_type_inst_arr := sfdp_info.smptbl.erase_type_inst_arr.set i_ind (-1),
              erase_type_size_arr := sfdp_info.smptbl.erase_type_size_arr.set i_ind (2 ^ n) } }) := by
  unfold erase_type_iteration array_write
  simp only [SFDP_BASIC_PARAM_TABLE_ERASE_TYPE_1_SIZE_BYTE,
    SFDP_BASIC_PARAM_TABLE_ERASE_TYPE_1_BYTE, if_pos hinst, if_pos hsize, hn, ht, hbf,
    if_neg (not_le.2 hn32), List.length_set, Nat.one_shiftLeft, List.set_set]
  split <;> rfl

/-- The arrays after one iteration of the loop over the erase types. -/
theorem erase_type_iteration_arrays (bptbl_ptr : List Nat) (i_ind bitfield : Nat)
    (sfdp_info : sfdp_hdr_info) (n inst : Nat)
    (hinst : i_ind < sfdp_info.smptbl.erase_type_inst_arr.length)
    (hsize : i_ind < sfdp_info.smptbl.erase_type_size_arr.length)
    (hn : bptbl_ptr[28 + 2 * i_ind]? = some n) (hn32 : n < 32)
    (ht : bptbl_ptr[29 + 2 * i_ind]? = some inst)
    (hbf : 0 < sfdp_info.smptbl.region_erase_types_bitfld.length) :
    ∃ sfdp_info1 : sfdp_hdr_info,
      erase_type_iteration bptbl_ptr i_ind bitfield sfdp_info = some sfdp_info1 ∧
      sfdp_info1.bptbl = sfdp_info.bptbl ∧
      sfdp_info1.smptbl.erase_type_size_arr
        = sfdp_info.smptbl.erase_type_size_arr.set i_ind (2 ^ n) ∧
      sfdp_info1.smptbl.erase_type_inst_arr
        = sfdp_info.smptbl.erase_type_inst_arr.set i_ind (if 2 ^ n > 1 then (inst : Int) else -1) ∧
      sfdp_info1.smptbl.region_erase_types_bitfld.length
        = sfdp_info.smptbl.region_erase_types_bitfld.length := by
  have heq := erase_type_iteration_eq bptbl_ptr i_ind bitfield sfdp_info n inst _ hinst hsize
    hn hn32 ht (List.getElem?_eq_getElem hbf)
  refine ⟨_, heq, ?_⟩
  by_cases h : 2 ^ n > 1
  · simp only [if_pos h, List.length_set, and_self]
  · simp only [if_neg h, and_self]

/-- The loop over the erase types, on a table of at least 36 bytes whose
size exponents are below 32: it ends, leaves the Basic table part of the
record alone, keeps the array entries below `i_ind` and decodes those from
`i_ind` on. -/
theorem erase_types_loop_arrays (bptbl_ptr : List Nat) (hlen : 36 ≤ bptbl_ptr.length)
    (hexp : ∀ j, j < 4 → bptbl_ptr.getD (28 + 2 * j) 0 < 32) :
    ∀ (k i_ind bitfield : Nat) (sfdp_info : sfdp_hdr_info), i_ind + k = 4 →
      sfdp_info.smptbl.erase_type_inst_arr.length = 4 →
      sfdp_info.smptbl.erase_type_size_arr.length = 4 →
      0 < sfdp_info.smptbl.region_erase_types_bitfld.length →
      ∃ sfdp_info1 : sfdp_hdr_info,
        erase_types_loop bptbl_ptr k i_ind bitfield sfdp_info = some sfdp_info1 ∧
        sfdp_info1.bptbl = sfdp_info.bptbl ∧
        (∀ j, j < i_ind →
          sfdp_info1.smptbl.erase_type_size_arr[j]? = sfdp_info.smptbl.erase_type_size_arr[j]? ∧
          sfdp_info1.smptbl.erase_type_inst_arr[j]? = sfdp_info.smptbl.erase_type_inst_arr[j]?) ∧
        (∀ j, i_ind ≤ j → j < 4 →
          sfdp_info1.smptbl.erase_type_size_arr[j]?
            = some (2 ^ bptbl_ptr.getD (28 + 2 * j) 0) ∧
          sfdp_info1.smptbl.erase_type_inst_arr[j]?
            = some (if 2 ^ bptbl_ptr.getD (28 + 2 * j) 0 > 1
                then (bptbl_ptr.getD (29 + 2 * j) 0 : Int) else -1)) := by
  intro k
  induction k with
  | zero =>
    intro i_ind bitfield sfdp_info hi _ _ _
    exact ⟨sfdp_info, rfl, rfl, fun j _ => ⟨rfl, rfl⟩, fun j h1 h2 => by omega⟩
  | succ k ih =>
    intro i_ind bitfield sfdp_info hi hinst hsize hbf
    have hi4 : i_ind < 4 := by omega
    obtain ⟨info1, hstep, hb1, hs1, hi1, hbf1⟩ :=
      erase_type_iteration_arrays bptbl_ptr i_ind bitfield sfdp_info
        (bptbl_ptr.getD (28 + 2 * i_ind) 0) (bptbl_ptr.getD (29 + 2 * i_ind) 0)
        (by omega) (by omega)
        (getElem?_eq_some_getD bptbl_ptr _ (by omega)) (hexp i_ind hi4)
        (getElem?_eq_some_getD bptbl_ptr _ (by omega)) hbf
    obtain ⟨info2, hloop, hb2, hkeep, hdec⟩ :=
      ih (i_ind + 1) ((bitfield <<< 1) % 2 ^ 8) info1 (by omega)
        (by rw [hi1, List.length_set]; exact hinst)
        (by rw [hs1, List.length_set]; exact hsize)
        (by rw [hbf1]; exact hbf)
    refine ⟨info2, ?_, hb2.trans hb1, ?_, ?_⟩
    · rw [erase_types_loop, hstep]
      exact hloop
    · intro j hj
      obtain ⟨h1, h2⟩ := hkeep j (by omega)
      rw [h1, h2, hs1, hi1, List.getElem?_set_ne (by omega), List.getElem?_set_ne (by omega)]
      exact ⟨rfl, rfl⟩
    · intro j hj1 hj2
      by_cases hji : j = i_ind
      · subst hji
        obtain ⟨h1, h2⟩ := hkeep j (by omega)
        rw [h1, h2, hs1, hi1, List.getElem?_set_self (by omega),
          List.getElem?_set_self (by omega)]
        exact ⟨rfl, rfl⟩
      · exact hdec j (by omega) hj2

/-- C18: with `bptbl.size > 28`, for every Basic table whose four size
exponent bytes (offsets 28, 30, 32, 34) are below 32,
`sfdp_detect_erase_types_inst_and_size` returns 0 and sets, for each `i` in
0..3, `erase_type_size_arr[i] = 2^byte[28+2i]` and `erase_type_inst_arr[i]`
to `byte[29+2i]` if that size is greater than 1 and to -1 if it is 1;
`legacy_erase_instruction`, like the whole Basic table part of the record,
is not modified. -/
theorem detect_erase_types_decodes (bptbl_ptr : List Nat) (sfdp_info : sfdp_hdr_info)
    (hsize : sfdp_info.bptbl.size > 28) (hlen : 36 ≤ bptbl_ptr.length)
    (hexp : ∀ j, j < 4 → bptbl_ptr.getD (28 + 2 * j) 0 < 32)
    (hinst_arr : sfdp_info.smptbl.erase_type_inst_arr.length = 4)
    (hsize_arr : sfdp_info.smptbl.erase_type_size_arr.length = 4)
    (hbitfld : 0 < sfdp_info.smptbl.region_erase_types_bitfld.length) :
    ∃ sfdp_info1 : sfdp_hdr_info,
      sfdp_detect_erase_types_inst_and_size bptbl_ptr sfdp_info = some (0, sfdp_info1) ∧
      sfdp_info1.bptbl.legacy_erase_instruction = sfdp_info.bptbl.legacy_erase_instruction ∧
      sfdp_info1.bptbl = sfdp_info.bptbl ∧
      ∀ i, i < 4 →
        sfdp_info1.smptbl.erase_type_size_arr[i]? = some (2 ^ bptbl_ptr.getD (28 + 2 * i) 0) ∧
        (2 ^ bptbl_ptr.getD (28 + 2 * i) 0 > 1 →
          sfdp_info1.smptbl.erase_type_inst_arr[i]?
            = some (bptbl_ptr.getD (29 + 2 * i) 0 : Int)) ∧
        (2 ^ bptbl_ptr.getD (28 + 2 * i) 0 = 1 →
          sfdp_info1.smptbl.erase_type_inst_arr[i]? = some (-1)) := by
  obtain ⟨info1, hloop, hb, _, hdec⟩ :=
    erase_types_loop_arrays bptbl_ptr hlen hexp 4 0 0x01 sfdp_info rfl hinst_arr hsize_arr
      hbitfld
  refine ⟨info1, ?_, by rw [hb], hb, ?_⟩
  · unfold sfdp_detect_erase_types_inst_and_size
    rw [if_pos (show sfdp_info.bptbl.size > SFDP_BASIC_PARAM_TABLE_ERASE_TYPE_1_SIZE_BYTE
      from hsize), hloop]
    rfl
  · intro i hi
    obtain ⟨h1, h2⟩ := hdec i (by omega) hi
    refine ⟨h1, ?_, ?_⟩
    · intro hgt
      rw [h2, if_pos hgt]
    · intro heq
      rw [h2, if_neg (by omega)]

/-- An instance of C18: erase types of 4 KiB (0x20), 32 KiB (0x52) and
64 KiB (0xD8) and a fourth type with exponent 0. -/
theorem detect_erase_types_decodes_witness :
    (∃ sfdp_info1 : sfdp_hdr_info,
      sfdp_detect_erase_types_inst_and_size
          (example_basic_table 0x20 0 0x00FFFFFF example_erase_types 0x80)
          (example_fresh_info 64) = some (0, sfdp_info1) ∧
      sfdp_info1.bptbl.legacy_erase_instruction
        = (example_fresh_info 64).bptbl.legacy_erase_instruction ∧
      sfdp_info1.bptbl = (example_fresh_info 64).bptbl ∧
      ∀ i, i < 4 →
        sfdp_info1.smptbl.erase_type_size_arr[i]?
          = some (2 ^ (example_basic_table 0x20 0 0x00FFFFFF example_erase_types 0x80).getD
              (28 + 2 * i) 0) ∧
        (2 ^ (example_basic_table 0x20 0 0x00FFFFFF example_erase_types 0x80).getD
              (28 + 2 * i) 0 > 1 →
          sfdp_info1.smptbl.erase_type_inst_arr[i]?
            = some ((example_basic_table 0x20 0 0x00FFFFFF example_erase_types 0x80).getD
                (29 + 2 * i) 0 : Int)) ∧
        (2 ^ (example_basic_table 0x20 0 0x00FFFFFF example_erase_types 0x80).getD
              (28 + 2 * i) 0 = 1 →
          sfdp_info1.smptbl.erase_type_inst_arr[i]? = some (-1))) ∧
    (sfdp_detect_erase_types_inst_and_size
        (example_basic_table 0x20 0 0x00FFFFFF example_erase_types 0x80)
        (example_fresh_info 64)).map (fun r => (r.1, r.2.smptbl.erase_type_size_arr,
          r.2.smptbl.erase_type_inst_arr))
      = some (0, [4096, 32768, 65536, 1], [0x20, 0x52, 0xD8, -1]) :=
  ⟨detect_erase_types_decodes
      (example_basic_table 0x20 0 0x00FFFFFF example_erase_types 0x80)
      (example_fresh_info 64) (by decide) (by decide)
      (by intro j hj; interval_cases j <;> decide) (by decide) (by decide) (by decide),
    by decide⟩

/-- What `sfdp_detect_erase_types_inst_and_size` computes when the table is
too short for the erase type fields (`bptbl.size <= 28`): byte 1 is stored
as legacy erase instruction, and the status is -1 when it is 0xFF. -/
theorem detect_erase_types_legacy_eq (bptbl_ptr : List Nat) (sfdp_info : sfdp_hdr_info)
    (b : Nat) (hsize : sfdp_info.bptbl.size ≤ 28) (hb : bptbl_ptr[1]? = some b) :
    sfdp_detect_erase_types_inst_and_size bptbl_ptr sfdp_info
      = some (if b = 0xFF then -1 else 0,
          { sfdp_info with
            bptbl := { sfdp_info.bptbl with legacy_erase_instruction := (b : Int) } }) := by
  unfold sfdp_detect_erase_types_inst_and_size
  rw [if_neg (show ¬ sfdp_info.bptbl.size > SFDP_BASIC_PARAM_TABLE_ERASE_TYPE_1_SIZE_BYTE
    from not_lt.2 hsize)]
  simp only [SFDP_BASIC_PARAM_TABLE_4K_ERASE_TYPE_BYTE, hb,
    SFDP_ERASE_BITMASK_TYPE_4K_ERASE_UNSUPPORTED]
  by_cases h : b = 0xFF
  · subst h
    rfl
  · have h1 : ¬ ((b : Int) = ((0xFF : Nat) : Int)) := by
      intro h2
      exact h (Int.ofNat_inj.1 h2)
    rw [if_neg h1, if_neg h]

/-- C19: with `bptbl.size <= 28`, `sfdp_detect_erase_types_inst_and_size`
fails (returns -1) if and only if byte 1 is 0xFF and returns 0 otherwise; on
success `legacy_erase_instruction` equals byte 1 and the erase type size and
instruction arrays, the region bitfields and `regions_min_common_erase_size`
(the whole Sector Map part of the record) are unchanged, like the other
fields of the Basic table part. -/
theorem detect_erase_types_legacy (bptbl_ptr : List Nat) (sfdp_info : sfdp_hdr_info)
    (b : Nat) (hsize : sfdp_info.bptbl.size ≤ 28) (hb : bptbl_ptr[1]? = some b) :
    ∃ (r : Int) (sfdp_info1 : sfdp_hdr_info),
      sfdp_detect_erase_types_inst_and_size bptbl_ptr sfdp_info = some (r, sfdp_info1) ∧
      (r = -1 ∨ r = 0) ∧ (r = -1 ↔ b = 0xFF) ∧
      (r = 0 →
        sfdp_info1.bptbl.legacy_erase_instruction = (b : Int) ∧
        sfdp_info1.smptbl = sfdp_info.smptbl ∧
        sfdp_info1.smptbl.erase_type_size_arr = sfdp_info.smptbl.erase_type_size_arr ∧
        sfdp_info1.smptbl.erase_type_inst_arr = sfdp_info.smptbl.erase_type_inst_arr ∧
        sfdp_info1.smptbl.region_erase_types_bitfld
          = sfdp_info.smptbl.region_erase_types_bitfld ∧
        sfdp_info1.smptbl.regions_min_common_erase_size
          = sfdp_info.smptbl.regions_min_common_erase_size ∧
        sfdp_info1.bptbl.addr = sfdp_info.bptbl.addr ∧
        sfdp_info1.bptbl.size = sfdp_info.bptbl.size ∧
        sfdp_info1.bptbl.device_size_bytes = sfdp_info.bptbl.device_size_bytes) := by
  refine ⟨_, _, detect_erase_types_legacy_eq bptbl_ptr sfdp_info b hsize hb, ?_, ?_, ?_⟩
  · split <;> simp
  · split <;> simp [*]
  · intro _
    exact ⟨rfl, rfl, rfl, rfl, rfl, rfl, rfl, rfl, rfl⟩

/-- Instances of C19: a declared size of 28 with the legacy instruction 0x20
succeeds and stores 0x20; with byte 1 equal to 0xFF the call fails. -/
theorem detect_erase_types_legacy_witness :
    (∃ (r : Int) (sfdp_info1 : sfdp_hdr_info),
      sfdp_detect_erase_types_inst_and_size
          (example_basic_table 0x20 0 0x00FFFFFF example_erase_types 0x80)
          (example_fresh_info 28) = some (r, sfdp_info1) ∧
      (r = -1 ∨ r = 0) ∧ (r = -1 ↔ 0x20 = 0xFF) ∧
      (r = 0 →
        sfdp_info1.bptbl.legacy_erase_instruction = ((0x20 : Nat) : Int) ∧
        sfdp_info1.smptbl = (example_fresh_info 28).smptbl ∧
        sfdp_info1.smptbl.erase_type_size_arr
          = (example_fresh_info 28).smptbl.erase_type_size_arr ∧
        sfdp_info1.smptbl.erase_type_inst_arr
          = (example_fresh_info 28).smptbl.erase_type_inst_arr ∧
        sfdp_info1.smptbl.region_erase_types_bitfld
          = (example_fresh_info 28).smptbl.region_erase_types_bitfld ∧
        sfdp_info1.smptbl.regions_min_common_erase_size
          = (example_fresh_info 28).smptbl.regions_min_common_erase_size ∧
        sfdp_info1.bptbl.addr = (example_fresh_info 28).bptbl.addr ∧
        sfdp_info1.bptbl.size = (example_fresh_info 28).bptbl.size ∧
        sfdp_info1.bptbl.device_size_bytes = (example_fresh_info 28).bptbl.device_size_bytes)) ∧
    (sfdp_detect_erase_types_inst_and_size
        (example_basic_table 0x20 0 0x00FFFFFF example_erase_types 0x80)
        (example_fresh_info 28)).map (fun r => (r.1, r.2.bptbl.legacy_erase_instruction))
      = some (0, 0x20) ∧
    (sfdp_detect_erase_types_inst_and_size
        (example_basic_table 0xFF 0 0x00FFFFFF example_erase_types 0x80)
        (example_fresh_info 28)).map (fun r => r.1) = some (-1) :=
  ⟨detect_erase_types_legacy
      (example_basic_table 0x20 0 0x00FFFFFF example_erase_types 0x80)
      (example_fresh_info 28) 0x20 (by decide) (by decide),
    by decide, by decide⟩

/-- C20, as stated, fails: on a short table (declared size 28) whose byte 1
is 0xFF, the call fails and has stored the sentinel: the record's
`legacy_erase_instruction`, 0 before the call, is 0xFF after it. -/
theorem detect_erase_types_sentinel_stored :
    ¬ ∀ (bptbl_ptr : List Nat) (sfdp_info : sfdp_hdr_info) (r : Int × sfdp_hdr_info),
      sfdp_info.bptbl.size ≤ 28 → bptbl_ptr[1]? = some 0xFF →
      sfdp_detect_erase_types_inst_and_size bptbl_ptr sfdp_info = some r →
      r.1 = -1 ∧
        r.2.bptbl.legacy_erase_instruction = sfdp_info.bptbl.legacy_erase_instruction := by
  intro h
  have h1 := h (example_basic_table 0xFF 0 0x00FFFFFF example_erase_types 0x80)
    (example_fresh_info 28)
    (-1, { example_fresh_info 28 with
      bptbl := { (example_fresh_info 28).bptbl with legacy_erase_instruction := 0xFF } })
    (by decide) (by decide) (by decide)
  revert h1
  decide

/-- C20, amended: when the table is too short for the erase type fields
(`bptbl.size <= 28`) and the legacy erase byte (offset 1) is the sentinel
0xFF, `sfdp_detect_erase_types_inst_and_size` fails (returns -1) after it
has stored the byte: the record's `legacy_erase_instruction` is 0xFF after
the failed call, and every other field is unchanged. -/
theorem detect_erase_types_sentinel (bptbl_ptr : List Nat) (sfdp_info : sfdp_hdr_info)
    (hsize : sfdp_info.bptbl.size ≤ 28) (hb : bptbl_ptr[1]? = some 0xFF) :
    sfdp_detect_erase_types_inst_and_size bptbl_ptr sfdp_info
      = some (-1, { sfdp_info with
          bptbl := { sfdp_info.bptbl with legacy_erase_instruction := 0xFF } }) := by
  rw [detect_erase_types_legacy_eq bptbl_ptr sfdp_info 0xFF hsize hb]
  rfl

/-- An instance of the amended C20: declared size 28, byte 1 equal to 0xFF,
`legacy_erase_instruction` 0 before the call. -/
theorem detect_erase_types_sentinel_witness :
    sfdp_detect_erase_types_inst_and_size
        (example_basic_table 0xFF 0 0x00FFFFFF example_erase_types 0x80)
        (example_fresh_info 28)
      = some (-1, { example_fresh_info 28 with
          bptbl := { (example_fresh_info 28).bptbl with legacy_erase_instruction := 0xFF } }) ∧
    (example_fresh_info 28).bptbl.legacy_erase_instruction = 0 :=
  ⟨detect_erase_types_sentinel
      (example_basic_table 0xFF 0 0x00FFFFFF example_erase_types 0x80)
      (example_fresh_info 28) (by decide) (by decide),
    by decide⟩

/-! ## The sector map decoder -/

/-- The first two assignments of `sfdp_parse_sector_map_table` on a record
whose region arrays are not empty. -/
theorem sector_map_single_region_eq (sfdp_info : sfdp_hdr_info)
    (hrs : 0 < sfdp_info.smptbl.region_size.length)
    (hhb : 0 < sfdp_info.smptbl.region_high_boundary.length) :
    sector_map_single_region sfdp_info
      = some (single_region_info sfdp_info) := by
  unfold sector_map_single_region array_write single_region_info
  simp only [if_pos hrs, if_pos hhb]

/-- C21: with no sector-map table recorded (`smptbl.addr == 0` or
`smptbl.size == 0`), `sfdp_parse_sector_map_table` returns 0 without calling
the reader; afterwards `region_size[0]` is `device_size_bytes` converted to
`int` (the device size itself when it is below 2^31) and
`region_high_boundary[0]` is `device_size_bytes - 1` in 64 bits unsigned
(the difference itself for a device size that is not 0), while
`region_erase_types_bitfld`, `regions_min_common_erase_size`, the erase-type
arrays and every other field are unchanged. -/
theorem parse_sector_map_table_no_table {σ : Type} (SFDP_SECTOR_MAP_MAX_REGIONS : Nat)
    (reader : sfdp_reader_fn σ) (s : σ) (sfdp_info : sfdp_hdr_info)
    (hnone : sfdp_info.smptbl.addr = 0 ∨ sfdp_info.smptbl.size = 0)
    (hrs : 0 < sfdp_info.smptbl.region_size.length)
    (hhb : 0 < sfdp_info.smptbl.region_high_boundary.length) :
    ∃ r : sector_map_result σ,
      sfdp_parse_sector_map_table SFDP_SECTOR_MAP_MAX_REGIONS reader s sfdp_info = some r ∧
      r.ret = 0 ∧ r.calls = [] ∧ r.reader_state = s ∧
      r.sfdp_info.smptbl.region_size[0]? = some (to_int32 sfdp_info.bptbl.device_size_bytes) ∧
      (sfdp_info.bptbl.device_size_bytes < 2 ^ 31 →
        r.sfdp_info.smptbl.region_size[0]?
          = some (sfdp_info.bptbl.device_size_bytes : Int)) ∧
      r.sfdp_info.smptbl.region_high_boundary[0]?
        = some (to_uint64 ((sfdp_info.bptbl.device_size_bytes : Int) - 1)).toNat ∧
      (0 < sfdp_info.bptbl.device_size_bytes → sfdp_info.bptbl.device_size_bytes < 2 ^ 64 →
        r.sfdp_info.smptbl.region_high_boundary[0]?
          = some (sfdp_info.bptbl.device_size_bytes - 1)) ∧
      r.sfdp_info.smptbl.region_erase_types_bitfld
        = sfdp_info.smptbl.region_erase_types_bitfld ∧
      r.sfdp_info.smptbl.regions_min_common_erase_size
        = sfdp_info.smptbl.regions_min_common_erase_size ∧
      r.sfdp_info.smptbl.erase_type_inst_arr = sfdp_info.smptbl.erase_type_inst_arr ∧
      r.sfdp_info.smptbl.erase_type_size_arr = sfdp_info.smptbl.erase_type_size_arr ∧
      r.sfdp_info.smptbl.region_cnt = sfdp_info.smptbl.region_cnt ∧
      r.sfdp_info.smptbl.addr = sfdp_info.smptbl.addr ∧
      r.sfdp_info.smptbl.size = sfdp_info.smptbl.size ∧
      r.sfdp_info.smptbl.region_size.tail = sfdp_info.smptbl.region_size.tail ∧
      r.sfdp_info.smptbl.region_high_boundary.tail
        = sfdp_info.smptbl.region_high_boundary.tail ∧
      r.sfdp_info.bptbl = sfdp_info.bptbl := by
  have hres : sfdp_parse_sector_map_table SFDP_SECTOR_MAP_MAX_REGIONS reader s sfdp_info
      = some ⟨0, (single_region_info sfdp_info),
        [], s⟩ := by
    unfold sfdp_parse_sector_map_table
    rw [sector_map_single_region_eq sfdp_info hrs hhb]
    simp only
    rw [if_pos (show (single_region_info sfdp_info).smptbl.addr = 0
      ∨ (single_region_info sfdp_info).smptbl.size = 0 from hnone)]
  refine ⟨_, hres, rfl, rfl, rfl, ?_, ?_, ?_, ?_, rfl, rfl, rfl, rfl, rfl, rfl, rfl, ?_, ?_, rfl⟩
  · exact List.getElem?_set_self hrs
  · intro h
    simp only [single_region_info]
    rw [List.getElem?_set_self hrs, to_int32_of_lt _ h]
  · exact List.getElem?_set_self hhb
  · intro h0 h64
    simp only [single_region_info]
    rw [List.getElem?_set_self hhb,
      to_uint64_of_range ((sfdp_info.bptbl.device_size_bytes : Int) - 1) (by omega) (by omega)]
    congr 1
    omega
  · simp only [single_region_info]
    cases sfdp_info.smptbl.region_size <;> rfl
  · simp only [single_region_info]
    cases sfdp_info.smptbl.region_high_boundary <;> rfl

/-- An instance of C21: a device of 8192 bytes without sector-map table; no
reader call is made, `region_size[0]` is 8192 and `region_high_boundary[0]`
is 8191. -/
theorem parse_sector_map_table_no_table_witness :
    (sfdp_parse_sector_map_table 10 broken_reader ()
        (example_map_info 8192 0 0 [4096, 32768, 65536, 1])).map
      (fun r => (r.ret, r.calls, r.sfdp_info.smptbl.region_size[0]?,
        r.sfdp_info.smptbl.region_high_boundary[0]?))
      = some (0, [], some 8192, some 8191) ∧
    ∃ r : sector_map_result Unit,
      sfdp_parse_sector_map_table 10 broken_reader ()
        (example_map_info 8192 0 0 [4096, 32768, 65536, 1]) = some r ∧ r.ret = 0 :=
  ⟨by decide,
    (parse_sector_map_table_no_table 10 broken_reader ()
      (example_map_info 8192 0 0 [4096, 32768, 65536, 1]) (Or.inl rfl) (by decide)
      (by decide)).imp fun _ h => ⟨h.1, h.2.1⟩⟩

/-- With a sector-map table recorded, a size within the buffer and a read
that succeeds, `sfdp_parse_sector_map_table` makes one reader call and goes
on with `sector_map_decode` on the bytes read. -/
theorem parse_sector_map_table_eq_decode {σ : Type} (SFDP_SECTOR_MAP_MAX_REGIONS : Nat)
    (reader : sfdp_reader_fn σ) (s : σ) (sfdp_info : sfdp_hdr_info)
    (hrs : 0 < sfdp_info.smptbl.region_size.length)
    (hhb : 0 < sfdp_info.smptbl.region_high_boundary.length)
    (haddr : sfdp_info.smptbl.addr ≠ 0) (hsize : sfdp_info.smptbl.size ≠ 0)
    (hbuf : sfdp_info.smptbl.size ≤ SFDP_BASIC_PARAMS_TBL_SIZE)
    (hstatus : 0 ≤ (reader s sfdp_info.smptbl.addr sfdp_info.smptbl.size).2.status) :
    sfdp_parse_sector_map_table SFDP_SECTOR_MAP_MAX_REGIONS reader s sfdp_info
      = (sector_map_decode SFDP_SECTOR_MAP_MAX_REGIONS (sector_map_table_read reader s sfdp_info)
          (single_region_info sfdp_info)).map
        (fun p => ⟨p.1, p.2,
          [⟨sfdp_info.smptbl.addr, sfdp_info.smptbl.size,
            (reader s sfdp_info.smptbl.addr sfdp_info.smptbl.size).2.status⟩],
          (reader s sfdp_info.smptbl.addr sfdp_info.smptbl.size).1⟩) := by
  have ha : (single_region_info sfdp_info).smptbl.addr = sfdp_info.smptbl.addr := rfl
  have hs : (single_region_info sfdp_info).smptbl.size = sfdp_info.smptbl.size := rfl
  have ht : sector_map_table_read reader s (single_region_info sfdp_info)
      = sector_map_table_read reader s sfdp_info := rfl
  unfold sfdp_parse_sector_map_table
  rw [sector_map_single_region_eq sfdp_info hrs hhb]
  simp only [ha, hs, ht]
  rw [if_neg (by rintro (h | h); exact haddr h; exact hsize h), if_neg (not_lt.2 hbuf),
    if_neg (not_lt.2 hstatus)]
  cases sector_map_decode SFDP_SECTOR_MAP_MAX_REGIONS
    (sector_map_table_read reader s sfdp_info) (single_region_info sfdp_info) <;> rfl

/-- The descriptor check of `sfdp_parse_sector_map_table`: the table is
rejected exactly when `(byte0 & 0x3) != 0x3` and `byte1 == 0`. -/
theorem sector_map_descriptor_rejected_eq (sector_map_table : List Nat) (b0 b1 : Nat)
    (h0 : sector_map_table[0]? = some b0) (h1 : sector_map_table[1]? = some b1) :
    sector_map_descriptor_rejected sector_map_table
      = some (decide (b0 &&& 0x3 ≠ 0x03 ∧ b1 = 0)) := by
  unfold sector_map_descriptor_rejected
  rw [h0]
  simp only
  by_cases hb0 : b0 &&& 0x3 = 0x03
  · rw [if_neg (not_not.2 hb0)]
    simp [hb0]
  · rw [if_pos hb0, h1]
    simp [hb0]

/-- With a sector-map table present, a successful read and a table that the
descriptor check does not reject, the status and the record left by
`sfdp_parse_sector_map_table` are those of `sector_map_decode_regions`. -/
theorem parse_sector_map_table_proceeds {σ : Type}
    (SFDP_SECTOR_MAP_MAX_REGIONS : Nat) (reader : sfdp_reader_fn σ) (s : σ)
    (sfdp_info : sfdp_hdr_info) (b0 b1 : Nat)
    (hrs : 0 < sfdp_info.smptbl.region_size.length)
    (hhb : 0 < sfdp_info.smptbl.region_high_boundary.length)
    (haddr : sfdp_info.smptbl.addr ≠ 0) (hsize : sfdp_info.smptbl.size ≠ 0)
    (hbuf : sfdp_info.smptbl.size ≤ SFDP_BASIC_PARAMS_TBL_SIZE)
    (hstatus : 0 ≤ (reader s sfdp_info.smptbl.addr sfdp_info.smptbl.size).2.status)
    (h0 : (sector_map_table_read reader s sfdp_info)[0]? = some b0)
    (h1 : (sector_map_table_read reader s sfdp_info)[1]? = some b1)
    (hpass : ¬ (b0 &&& 0x3 ≠ 0x03 ∧ b1 = 0)) :
    (sfdp_parse_sector_map_table SFDP_SECTOR_MAP_MAX_REGIONS reader s sfdp_info).map
        (fun r => (r.ret, r.sfdp_info))
      = sector_map_decode_regions SFDP_SECTOR_MAP_MAX_REGIONS
          (sector_map_table_read reader s sfdp_info) (single_region_info sfdp_info) := by
  rw [parse_sector_map_table_eq_decode SFDP_SECTOR_MAP_MAX_REGIONS reader s sfdp_info
    hrs hhb haddr hsize hbuf hstatus]
  unfold sector_map_decode
  rw [sector_map_descriptor_rejected_eq _ b0 b1 h0 h1, decide_eq_false hpass]
  simp only [Option.map_map]
  cases sector_map_decode_regions SFDP_SECTOR_MAP_MAX_REGIONS
    (sector_map_table_read reader s sfdp_info) _ <;> rfl

/-- C22: what the descriptor check of `sfdp_parse_sector_map_table` does,
with a sector-map table present and a successful read.  The call fails with
-1 when `(byte0 & 0x3) != 0x3` and `byte1 == 0`; for every other table,
also one with `byte1 != 0`, which violates the condition `(byte0 & 0x3) ==
0x3 && byte1 == 0`, decoding proceeds with the region count. -/
theorem parse_sector_map_table_descriptor_check {σ : Type}
    (SFDP_SECTOR_MAP_MAX_REGIONS : Nat) (reader : sfdp_reader_fn σ) (s : σ)
    (sfdp_info : sfdp_hdr_info) (b0 b1 : Nat)
    (hrs : 0 < sfdp_info.smptbl.region_size.length)
    (hhb : 0 < sfdp_info.smptbl.region_high_boundary.length)
    (haddr : sfdp_info.smptbl.addr ≠ 0) (hsize : sfdp_info.smptbl.size ≠ 0)
    (hbuf : sfdp_info.smptbl.size ≤ SFDP_BASIC_PARAMS_TBL_SIZE)
    (hstatus : 0 ≤ (reader s sfdp_info.smptbl.addr sfdp_info.smptbl.size).2.status)
    (h0 : (sector_map_table_read reader s sfdp_info)[0]? = some b0)
    (h1 : (sector_map_table_read reader s sfdp_info)[1]? = some b1) :
    ((b0 &&& 0x3 ≠ 0x03 ∧ b1 = 0) →
      (sfdp_parse_sector_map_table SFDP_SECTOR_MAP_MAX_REGIONS reader s sfdp_info).map
        (fun r => r.ret) = some (-1)) ∧
    (¬ (b0 &&& 0x3 ≠ 0x03 ∧ b1 = 0) →
      (sfdp_parse_sector_map_table SFDP_SECTOR_MAP_MAX_REGIONS reader s sfdp_info).map
          (fun r => (r.ret, r.sfdp_info))
        = sector_map_decode_regions SFDP_SECTOR_MAP_MAX_REGIONS
            (sector_map_table_read reader s sfdp_info)
            (single_region_info sfdp_info)) := by
  have hmain := parse_sector_map_table_eq_decode SFDP_SECTOR_MAP_MAX_REGIONS reader s sfdp_info
    hrs hhb haddr hsize hbuf hstatus
  have hrej := sector_map_descriptor_rejected_eq _ b0 b1 h0 h1
  constructor
  · intro h
    rw [hmain]
    unfold sector_map_decode
    rw [hrej, decide_eq_true h]
    rfl
  · intro h
    exact parse_sector_map_table_proceeds SFDP_SECTOR_MAP_MAX_REGIONS reader s sfdp_info b0 b1
      hrs hhb haddr hsize hbuf hstatus h0 h1 h

/-- Instances of C22, on a table with two regions of 4096 bytes.  With the
descriptor bytes (0x03, 0x01) and (0x00, 0x01), which violate
`(byte0 & 0x3) == 0x3 && byte1 == 0`, the call does not fail: it returns 0
with both regions decoded; it fails for (0x00, 0x00) and succeeds for
(0x03, 0x00). -/
theorem parse_sector_map_table_descriptor_check_witness :
    (sfdp_parse_sector_map_table 10 (table_reader (example_sector_map 0x03 0x01)) ()
        (example_map_info 8192 0x100 12 [4096, 32768, 65536, 1])).map
      (fun r => (r.ret, r.sfdp_info.smptbl.region_cnt, r.sfdp_info.smptbl.region_size))
      = some (0, 2, [4096, 4096, 0, 0, 0, 0, 0, 0, 0, 0]) ∧
    (sfdp_parse_sector_map_table 10 (table_reader (example_sector_map 0x00 0x01)) ()
        (example_map_info 8192 0x100 12 [4096, 32768, 65536, 1])).map
      (fun r => (r.ret, r.sfdp_info.smptbl.region_cnt, r.sfdp_info.smptbl.region_size))
      = some (0, 2, [4096, 4096, 0, 0, 0, 0, 0, 0, 0, 0]) ∧
    (sfdp_parse_sector_map_table 10 (table_reader (example_sector_map 0x00 0x00)) ()
        (example_map_info 8192 0x100 12 [4096, 32768, 65536, 1])).map (fun r => r.ret)
      = some (-1) ∧
    (sfdp_parse_sector_map_table 10 (table_reader (example_sector_map 0x03 0x00)) ()
        (example_map_info 8192 0x100 12 [4096, 32768, 65536, 1])).map (fun r => r.ret)
      = some 0 :=
  ⟨by decide, by decide,
    (parse_sector_map_table_descriptor_check 10 (table_reader (example_sector_map 0x00 0x00)) ()
      (example_map_info 8192 0x100 12 [4096, 32768, 65536, 1]) 0x00 0x00 (by decide) (by decide)
      (by decide) (by decide) (by decide) (by decide) (by decide) (by decide)).1
      (by decide),
    by decide⟩

theorem array_write_eq_some {α : Type} (xs ys : List α) (i : Nat) (v : α)
    (h : array_write xs i v = some ys) : i < xs.length ∧ ys = xs.set i v := by
  unfold array_write at h
  split at h
  · rename_i hi
    simp only [Option.some.injEq] at h
    exact ⟨hi, h.symm⟩
  · cases h

/-- The loop over the regions writes only the three region arrays, and keeps
their lengths. -/
theorem sector_map_regions_loop_frame (sector_map_table : List Nat) :
    ∀ (k i_ind : Nat) (prev_boundary : Int) (bits : Nat) (smptbl : sfdp_smptbl_info)
      (bits1 : Nat) (smptbl1 : sfdp_smptbl_info),
      sector_map_regions_loop sector_map_table k i_ind prev_boundary bits smptbl
        = some (bits1, smptbl1) →
      smptbl1.addr = smptbl.addr ∧ smptbl1.size = smptbl.size ∧
      smptbl1.region_cnt = smptbl.region_cnt ∧
      smptbl1.regions_min_common_erase_size = smptbl.regions_min_common_erase_size ∧
      smptbl1.erase_type_inst_arr = smptbl.erase_type_inst_arr ∧
      smptbl1.erase_type_size_arr = smptbl.erase_type_size_arr ∧
      smptbl1.region_size.length = smptbl.region_size.length ∧
      smptbl1.region_erase_types_bitfld.length = smptbl.region_erase_types_bitfld.length ∧
      smptbl1.region_high_boundary.length = smptbl.region_high_boundary.length := by
  intro k
  induction k with
  | zero =>
    intro i_ind prev_boundary bits smptbl bits1 smptbl1 h
    simp only [sector_map_regions_loop, Option.some.injEq, Prod.mk.injEq] at h
    obtain ⟨_, h2⟩ := h
    subst h2
    exact ⟨rfl, rfl, rfl, rfl, rfl, rfl, rfl, rfl, rfl⟩
  | succ k ih =>
    intro i_ind prev_boundary bits smptbl bits1 smptbl1 h
    rw [sector_map_regions_loop] at h
    split at h
    · simp only at h
      split at h
      · cases h
      · split at h
        · rename_i rs1 bf1 hb1 hw1 hw2 hw3
          obtain ⟨_, e1⟩ := array_write_eq_some _ _ _ _ hw1
          obtain ⟨_, e2⟩ := array_write_eq_some _ _ _ _ hw2
          obtain ⟨_, e3⟩ := array_write_eq_some _ _ _ _ hw3
          obtain ⟨a1, a2, a3, a4, a5, a6, a7, a8, a9⟩ := ih _ _ _ _ _ _ h
          simp only at a1 a2 a3 a4 a5 a6 a7 a8 a9
          refine ⟨a1, a2, a3, a4, a5, a6, ?_, ?_, ?_⟩
          · rw [a7, e1, List.length_set]
          · rw [a8, e2, List.length_set]
          · rw [a9, e3, List.length_set]
        · cases h
    · cases h

/-- The loop that picks the common erase size changes at most
`regions_min_common_erase_size`, and leaves its counter at 4 at most. -/
theorem common_erase_size_loop_frame (bits : Nat) :
    ∀ (k i_ind type_mask : Nat) (smptbl : sfdp_smptbl_info) (i1 : Nat)
      (smptbl1 : sfdp_smptbl_info),
      common_erase_size_loop bits k i_ind type_mask smptbl = some (i1, smptbl1) →
      i1 ≤ i_ind + k ∧
      ∃ m, smptbl1 = { smptbl with regions_min_common_erase_size := m } := by
  intro k
  induction k with
  | zero =>
    intro i_ind type_mask smptbl i1 smptbl1 h
    simp only [common_erase_size_loop, Option.some.injEq, Prod.mk.injEq] at h
    obtain ⟨h1, h2⟩ := h
    subst h1 h2
    exact ⟨le_rfl, _, rfl⟩
  | succ k ih =>
    intro i_ind type_mask smptbl i1 smptbl1 h
    rw [common_erase_size_loop] at h
    split at h
    · split at h
      · cases h
      · simp only [Option.some.injEq, Prod.mk.injEq] at h
        obtain ⟨h1, h2⟩ := h
        subst h1 h2
        exact ⟨by omega, _, rfl⟩
    · obtain ⟨h1, h2⟩ := ih _ _ _ _ _ h
      exact ⟨by omega, h2⟩

/-- What `sector_map_decode_regions` can return on a table whose byte 2 is
`b2`: the region count is set to `b2 + 1`, the status is -1 exactly when that
exceeds the maximum, and then nothing else was written; otherwise the status
is 0 and the Basic table part, the table address and size and the erase type
arrays are unchanged. -/
theorem sector_map_decode_regions_result (SFDP_SECTOR_MAP_MAX_REGIONS : Nat)
    (sector_map_table : List Nat) (sfdp_info : sfdp_hdr_info) (b2 : Nat)
    (h2 : sector_map_table[2]? = some b2) (ret : Int) (sfdp_info1 : sfdp_hdr_info)
    (h : sector_map_decode_regions SFDP_SECTOR_MAP_MAX_REGIONS sector_map_table sfdp_info
      = some (ret, sfdp_info1)) :
    sfdp_info1.smptbl.region_cnt = (b2 : Int) + 1 ∧
    (ret = -1 ∨ ret = 0) ∧
    (ret = -1 ↔ b2 + 1 > SFDP_SECTOR_MAP_MAX_REGIONS) ∧
    (ret = -1 → sfdp_info1
      = { sfdp_info with smptbl := { sfdp_info.smptbl with region_cnt := (b2 : Int) + 1 } }) ∧
    sfdp_info1.bptbl = sfdp_info.bptbl ∧
    sfdp_info1.smptbl.addr = sfdp_info.smptbl.addr ∧
    sfdp_info1.smptbl.size = sfdp_info.smptbl.size ∧
    sfdp_info1.smptbl.erase_type_inst_arr = sfdp_info.smptbl.erase_type_inst_arr ∧
    sfdp_info1.smptbl.erase_type_size_arr = sfdp_info.smptbl.erase_type_size_arr := by
  unfold sector_map_decode_regions at h
  rw [h2] at h
  simp only at h
  by_cases hmax : (b2 : Int) + 1 > (SFDP_SECTOR_MAP_MAX_REGIONS : Int)
  · rw [if_pos hmax] at h
    simp only [Option.some.injEq, Prod.mk.injEq] at h
    obtain ⟨hr, hi⟩ := h
    subst hr hi
    refine ⟨rfl, Or.inl rfl, ⟨fun _ => by omega, fun _ => rfl⟩, fun _ => rfl, rfl, rfl, rfl,
      rfl, rfl⟩
  · rw [if_neg hmax] at h
    split at h
    · cases h
    · rename_i bits smptbl2 hloop
      split at h
      · cases h
      · rename_i i1 smptbl3 hcommon
        simp only [Option.some.injEq, Prod.mk.injEq] at h
        obtain ⟨hr, hi⟩ := h
        subst hr hi
        obtain ⟨a1, a2, a3, _, a5, a6, _, _, _⟩ :=
          sector_map_regions_loop_frame _ _ _ _ _ _ _ _ hloop
        obtain ⟨_, m, hm⟩ := common_erase_size_loop_frame _ _ _ _ _ _ _ hcommon
        subst hm
        simp only at a1 a2 a3 a5 a6
        refine ⟨?_, Or.inr rfl, ⟨fun h => by omega, fun h => by omega⟩, fun h => by omega, rfl,
          ?_, ?_, ?_, ?_⟩
        all_goals split <;> simp only [a1, a2, a3, a5, a6]

/-- C23: for every table that passes the descriptor check of
`sfdp_parse_sector_map_table`, `region_cnt` is set to `byte2 + 1`; the call
fails (returns -1) if and only if `byte2 + 1` exceeds
`SFDP_SECTOR_MAP_MAX_REGIONS`, and it does fail then; so after every
successful decode `1 <= region_cnt <= SFDP_SECTOR_MAP_MAX_REGIONS`. -/
theorem parse_sector_map_table_region_count {σ : Type}
    (SFDP_SECTOR_MAP_MAX_REGIONS : Nat) (reader : sfdp_reader_fn σ) (s : σ)
    (sfdp_info : sfdp_hdr_info) (b0 b1 b2 : Nat)
    (hrs : 0 < sfdp_info.smptbl.region_size.length)
    (hhb : 0 < sfdp_info.smptbl.region_high_boundary.length)
    (haddr : sfdp_info.smptbl.addr ≠ 0) (hsize : sfdp_info.smptbl.size ≠ 0)
    (hbuf : sfdp_info.smptbl.size ≤ SFDP_BASIC_PARAMS_TBL_SIZE)
    (hstatus : 0 ≤ (reader s sfdp_info.smptbl.addr sfdp_info.smptbl.size).2.status)
    (h0 : (sector_map_table_read reader s sfdp_info)[0]? = some b0)
    (h1 : (sector_map_table_read reader s sfdp_info)[1]? = some b1)
    (h2 : (sector_map_table_read reader s sfdp_info)[2]? = some b2)
    (hpass : ¬ (b0 &&& 0x3 ≠ 0x03 ∧ b1 = 0)) :
    (b2 + 1 > SFDP_SECTOR_MAP_MAX_REGIONS →
      ∃ r : sector_map_result σ,
        sfdp_parse_sector_map_table SFDP_SECTOR_MAP_MAX_REGIONS reader s sfdp_info = some r ∧
        r.ret = -1 ∧ r.sfdp_info.smptbl.region_cnt = (b2 : Int) + 1) ∧
    (∀ r : sector_map_result σ,
      sfdp_parse_sector_map_table SFDP_SECTOR_MAP_MAX_REGIONS reader s sfdp_info = some r →
      r.sfdp_info.smptbl.region_cnt = (b2 : Int) + 1 ∧
      (r.ret = -1 ∨ r.ret = 0) ∧
      (r.ret = -1 ↔ b2 + 1 > SFDP_SECTOR_MAP_MAX_REGIONS) ∧
      (r.ret = 0 → 1 ≤ r.sfdp_info.smptbl.region_cnt ∧
        r.sfdp_info.smptbl.region_cnt ≤ (SFDP_SECTOR_MAP_MAX_REGIONS : Int))) := by
  have hdec := parse_sector_map_table_proceeds SFDP_SECTOR_MAP_MAX_REGIONS reader s sfdp_info
    b0 b1 hrs hhb haddr hsize hbuf hstatus h0 h1 hpass
  constructor
  · intro hmax
    have hfail : sector_map_decode_regions SFDP_SECTOR_MAP_MAX_REGIONS
        (sector_map_table_read reader s sfdp_info) (single_region_info sfdp_info)
        = some (-1, { single_region_info sfdp_info with
            smptbl := { (single_region_info sfdp_info).smptbl with
              region_cnt := (b2 : Int) + 1 } }) := by
      unfold sector_map_decode_regions
      rw [h2]
      simp only
      rw [if_pos (by omega)]
    rw [hfail] at hdec
    rw [Option.map_eq_some'] at hdec
    obtain ⟨r, hr, hpair⟩ := hdec
    simp only [Prod.mk.injEq] at hpair
    exact ⟨r, hr, hpair.1, by rw [hpair.2]⟩
  · intro r hr
    rw [hr] at hdec
    simp only [Option.map_some'] at hdec
    obtain ⟨hc, hor, hiff, _⟩ := sector_map_decode_regions_result SFDP_SECTOR_MAP_MAX_REGIONS
      _ _ b2 h2 r.ret r.sfdp_info hdec.symm
    refine ⟨hc, hor, hiff, ?_⟩
    intro h0r
    rw [hc]
    have hnot : ¬ b2 + 1 > SFDP_SECTOR_MAP_MAX_REGIONS := by
      intro hgt
      have := hiff.2 hgt
      omega
    omega

/-- Instances of C23: with a maximum of 10 regions, a table with `byte2 = 10`
fails with `region_cnt == 11`; the table with two regions is decoded with
`region_cnt == 2`. -/
theorem parse_sector_map_table_region_count_witness :
    (∃ r : sector_map_result Unit,
      sfdp_parse_sector_map_table 10 (table_reader [0x03, 0x00, 10, 0x00]) ()
        (example_map_info 8192 0x100 4 [4096, 32768, 65536, 1]) = some r ∧
      r.ret = -1 ∧ r.sfdp_info.smptbl.region_cnt = ((10 : Nat) : Int) + 1) ∧
    (sfdp_parse_sector_map_table 10 (table_reader (example_sector_map 0x03 0x00)) ()
        (example_map_info 8192 0x100 12 [4096, 32768, 65536, 1])).map
      (fun r => (r.ret, r.sfdp_info.smptbl.region_cnt)) = some (0, 2) :=
  ⟨(parse_sector_map_table_region_count 10 (table_reader [0x03, 0x00, 10, 0x00]) ()
      (example_map_info 8192 0x100 4 [4096, 32768, 65536, 1]) 0x03 0x00 10 (by decide)
      (by decide) (by decide) (by decide) (by decide) (by decide) (by decide) (by decide)
      (by decide) (by decide)).1 (by decide),
    by decide⟩

theorem region_sizes_sum_succ (sector_map_table : List Nat) (n : Nat) :
    region_sizes_sum sector_map_table (n + 1)
      = region_sizes_sum sector_map_table n + region_descriptor_size sector_map_table n := by
  unfold region_sizes_sum
  rw [List.range_succ, List.map_append, List.sum_append]
  simp

theorem region_sizes_sum_mono (sector_map_table : List Nat) (m n : Nat) (h : m ≤ n) :
    region_sizes_sum sector_map_table m ≤ region_sizes_sum sector_map_table n := by
  induction n with
  | zero =>
    have hm : m = 0 := by omega
    rw [hm]
  | succ n ih =>
    by_cases hmn : m = n + 1
    · rw [hmn]
    · have := ih (by omega)
      rw [region_sizes_sum_succ]
      omega

/-- The load of the descriptor of region `i` reads the four bytes of
`region_descriptor_word`, all inside the table. -/
theorem sector_map_dword_eq (sector_map_table : List Nat) (i d : Nat)
    (h : sector_map_dword sector_map_table ((i + 1) * 4) = some d) :
    (i + 1) * 4 + 3 < sector_map_table.length ∧ d = region_descriptor_word sector_map_table i := by
  unfold sector_map_dword at h
  split at h
  · rename_i b0 b1 b2 b3 h0 h1 h2 h3
    simp only [Option.some.injEq] at h
    obtain ⟨hl3, _⟩ := List.getElem?_eq_some.1 h3
    refine ⟨hl3, ?_⟩
    unfold region_descriptor_word
    have e : 4 * (i + 1) = (i + 1) * 4 := by ring
    rw [e]
    simp only [List.getD_eq_getElem?_getD, h0, h1, h2, h3, Option.getD_some]
    exact h.symm
  · cases h

theorem sector_map_dword_of_length (sector_map_table : List Nat) (i : Nat)
    (h : (i + 1) * 4 + 3 < sector_map_table.length) :
    sector_map_dword sector_map_table ((i + 1) * 4)
      = some (region_descriptor_word sector_map_table i) := by
  unfold sector_map_dword region_descriptor_word
  have e : 4 * (i + 1) = (i + 1) * 4 := by ring
  rw [e, getElem?_eq_some_getD _ _ (by omega), getElem?_eq_some_getD _ _ (by omega),
    getElem?_eq_some_getD _ _ (by omega), getElem?_eq_some_getD _ _ (by omega)]

/-- The size field that the code extracts with a shift and a mask is
`region_descriptor_value`. -/
theorem region_value_eq (sector_map_table : List Nat) (i : Nat) :
    (region_descriptor_word sector_map_table i >>> 8) &&& 0x00FFFFFF
      = region_descriptor_value sector_map_table i := by
  unfold region_descriptor_value
  have h : (0x00FFFFFF : Nat) = 2 ^ 24 - 1 := by norm_num
  rw [h, Nat.and_pow_two_sub_one_eq_mod, Nat.shiftRight_eq_div_pow]

/-- The low four bits of the first descriptor byte are those of the
descriptor word. -/
theorem region_bitfield_eq (sector_map_table : List Nat) (i b : Nat)
    (hb : sector_map_table[(i + 1) * 4]? = some b) :
    b &&& 0x0F = region_descriptor_word sector_map_table i &&& 0x0F := by
  have h : (0x0F : Nat) = 2 ^ 4 - 1 := by norm_num
  have e : 4 * (i + 1) = (i + 1) * 4 := by ring
  have hg : sector_map_table.getD (4 * (i + 1)) 0 = b := by
    rw [e, List.getD_eq_getElem?_getD, hb]
    rfl
  rw [h, Nat.and_pow_two_sub_one_eq_mod, Nat.and_pow_two_sub_one_eq_mod]
  unfold region_descriptor_word
  rw [hg]
  omega

/-- The entries that the loop over the regions leaves in the arrays: those
below `i_ind` are kept; for each region from `i_ind` on, the descriptor was
read inside the table, `region_size` holds `(value + 1) * 256` computed in
32 bits and converted to `int`, and the bitfield holds the low four bits of
the descriptor. -/
theorem sector_map_regions_loop_entries (sector_map_table : List Nat) :
    ∀ (k i_ind : Nat) (prev_boundary : Int) (bits : Nat) (smptbl : sfdp_smptbl_info)
      (bits1 : Nat) (smptbl1 : sfdp_smptbl_info),
      sector_map_regions_loop sector_map_table k i_ind prev_boundary bits smptbl
        = some (bits1, smptbl1) →
      (∀ j, j < i_ind →
        smptbl1.region_size[j]? = smptbl.region_size[j]? ∧
        smptbl1.region_erase_types_bitfld[j]? = smptbl.region_erase_types_bitfld[j]? ∧
        smptbl1.region_high_boundary[j]? = smptbl.region_high_boundary[j]?) ∧
      (∀ j, i_ind ≤ j → j < i_ind + k →
        (j + 1) * 4 + 3 < sector_map_table.length ∧
        smptbl1.region_size[j]?
          = some (to_int32 ((region_descriptor_value sector_map_table j + 1) * 256 % 2 ^ 32)) ∧
        smptbl1.region_erase_types_bitfld[j]?
          = some (region_descriptor_word sector_map_table j &&& 0x0F)) := by
  intro k
  induction k with
  | zero =>
    intro i_ind prev_boundary bits smptbl bits1 smptbl1 h
    simp only [sector_map_regions_loop, Option.some.injEq, Prod.mk.injEq] at h
    obtain ⟨_, h2⟩ := h
    subst h2
    exact ⟨fun j _ => ⟨rfl, rfl, rfl⟩, fun j h1 h2 => by omega⟩
  | succ k ih =>
    intro i_ind prev_boundary bits smptbl bits1 smptbl1 h
    rw [sector_map_regions_loop] at h
    split at h
    · rename_i d b hd hb
      obtain ⟨hlen, hdw⟩ := sector_map_dword_eq _ _ _ hd
      simp only at h
      split at h
      · cases h
      · split at h
        · rename_i rs1 bf1 hb1 hw1 hw2 hw3
          obtain ⟨l1, e1⟩ := array_write_eq_some _ _ _ _ hw1
          obtain ⟨l2, e2⟩ := array_write_eq_some _ _ _ _ hw2
          obtain ⟨l3, e3⟩ := array_write_eq_some _ _ _ _ hw3
          obtain ⟨hkeep, hset⟩ := ih _ _ _ _ _ _ h
          simp only at hkeep hset
          constructor
          · intro j hj
            obtain ⟨a1, a2, a3⟩ := hkeep j (by omega)
            rw [a1, a2, a3, e1, e2, e3, List.getElem?_set_ne (by omega),
              List.getElem?_set_ne (by omega), List.getElem?_set_ne (by omega)]
            exact ⟨rfl, rfl, rfl⟩
          · intro j hj1 hj2
            by_cases hji : j = i_ind
            · subst hji
              obtain ⟨a1, a2, _⟩ := hkeep j (by omega)
              refine ⟨hlen, ?_, ?_⟩
              · rw [a1, e1, List.getElem?_set_self l1, hdw, region_value_eq]
              · rw [a2, e2, List.getElem?_set_self l2, region_bitfield_eq _ _ _ hb]
            · exact hset j (by omega) (by omega)
        · cases h
    · cases h

theorem array_write_of_lt {α : Type} (xs : List α) (i : Nat) (v : α) (h : i < xs.length) :
    array_write xs i v = some (xs.set i v) := by
  unfold array_write
  rw [if_pos h]

/-- One iteration of the loop over the regions, when the descriptor of
region `i_ind` lies inside the table, the arrays have an entry `i_ind` and
the new boundary `prev_boundary + size` stays in the range of `int`. -/
theorem sector_map_regions_loop_step (sector_map_table : List Nat) (k i_ind : Nat)
    (prev_boundary : Int) (bits : Nat) (smptbl : sfdp_smptbl_info)
    (hlen : (i_ind + 1) * 4 + 3 < sector_map_table.length)
    (h1 : i_ind < smptbl.region_size.length)
    (h2 : i_ind < smptbl.region_erase_types_bitfld.length)
    (h3 : i_ind < smptbl.region_high_boundary.length)
    (hprev : 0 ≤ prev_boundary)
    (hsum : prev_boundary + (region_descriptor_size sector_map_table i_ind : Int) < 2 ^ 31) :
    sector_map_regions_loop sector_map_table (k + 1) i_ind prev_boundary bits smptbl
      = sector_map_regions_loop sector_map_table k (i_ind + 1)
          (prev_boundary + (region_descriptor_size sector_map_table i_ind : Int))
          (bits &&& (region_descriptor_word sector_map_table i_ind &&& 0x0F))
          { smptbl with
            region_size :=
              smptbl.region_size.set i_ind (region_descriptor_size sector_map_table i_ind : Int),
            region_erase_types_bitfld :=
              smptbl.region_erase_types_bitfld.set i_ind
                (region_descriptor_word sector_map_table i_ind &&& 0x0F),
            region_high_boundary :=
              smptbl.region_high_boundary.set i_ind
                (prev_boundary + (region_descriptor_size sector_map_table i_ind : Int)
                  - 1).toNat } := by
  have hpos : 0 < region_descriptor_size sector_map_table i_ind := by
    unfold region_descriptor_size
    omega
  have hsz : (region_descriptor_value sector_map_table i_ind + 1) * 256
      = region_descriptor_size sector_map_table i_ind := rfl
  have hlt : region_descriptor_size sector_map_table i_ind < 2 ^ 31 := by omega
  have hri : to_int32 ((region_descriptor_value sector_map_table i_ind + 1) * 256 % 2 ^ 32)
      = (region_descriptor_size sector_map_table i_ind : Int) := by
    rw [hsz, Nat.mod_eq_of_lt (by omega), to_int32_of_lt _ hlt]
  have hb : sector_map_table[(i_ind + 1) * 4]?
      = some (sector_map_table.getD ((i_ind + 1) * 4) 0) :=
    getElem?_eq_some_getD _ _ (by omega)
  have hbf : sector_map_table.getD ((i_ind + 1) * 4) 0 &&& 0x0F
      = region_descriptor_word sector_map_table i_ind &&& 0x0F :=
    region_bitfield_eq _ _ _ hb
  have hrange : ¬ (¬ int_in_range ((region_descriptor_size sector_map_table i_ind : Int) - 1)
      ∨ ¬ int_in_range ((region_descriptor_size sector_map_table i_ind : Int) - 1
          + prev_boundary)) := by
    unfold int_in_range
    omega
  have hhb : (to_uint64 ((region_descriptor_size sector_map_table i_ind : Int) - 1
      + prev_boundary)).toNat
      = (prev_boundary + (region_descriptor_size sector_map_table i_ind : Int) - 1).toNat := by
    rw [to_uint64_of_range _ (by omega) (by omega)]
    congr 1
    ring
  have hnext : to_int32
      (((prev_boundary + (region_descriptor_size sector_map_table i_ind : Int) - 1).toNat + 1)
        % 2 ^ 64)
      = prev_boundary + (region_descriptor_size sector_map_table i_ind : Int) := by
    have e : (prev_boundary + (region_descriptor_size sector_map_table i_ind : Int) - 1).toNat + 1
        = (prev_boundary + (region_descriptor_size sector_map_table i_ind : Int)).toNat := by
      omega
    rw [e, Nat.mod_eq_of_lt (by omega), to_int32_of_lt _ (by omega)]
    omega
  rw [sector_map_regions_loop, sector_map_dword_of_length _ _ hlen, hb]
  simp only [region_value_eq, hri, hbf, if_neg hrange, hhb, hnext,
    array_write_of_lt _ _ _ h1, array_write_of_lt _ _ _ h2, array_write_of_lt _ _ _ h3]

/-- The loop over the regions on a table that holds the descriptors of the
regions `i_ind .. i_ind + k - 1`, with arrays that have these entries, when
the sizes of the regions `0 .. i_ind + k - 1` sum to less than 2^31 and
`prev_boundary` is the sum of the sizes below `i_ind`: the loop ends, and for
each region `j` from `i_ind` on `region_size[j]` is the size of its
descriptor and `region_high_boundary[j]` is the sum of the sizes of the
regions `0 .. j`, minus one. -/
theorem sector_map_regions_loop_boundaries (sector_map_table : List Nat) :
    ∀ (k i_ind : Nat) (prev_boundary : Int) (bits : Nat) (smptbl : sfdp_smptbl_info),
      (i_ind + k + 1) * 4 ≤ sector_map_table.length →
      i_ind + k ≤ smptbl.region_size.length →
      i_ind + k ≤ smptbl.region_erase_types_bitfld.length →
      i_ind + k ≤ smptbl.region_high_boundary.length →
      region_sizes_sum sector_map_table (i_ind + k) < 2 ^ 31 →
      prev_boundary = (region_sizes_sum sector_map_table i_ind : Int) →
      ∃ (bits1 : Nat) (smptbl1 : sfdp_smptbl_info),
        sector_map_regions_loop sector_map_table k i_ind prev_boundary bits smptbl
          = some (bits1, smptbl1) ∧
        ∀ j, i_ind ≤ j → j < i_ind + k →
          smptbl1.region_size[j]? = some (region_descriptor_size sector_map_table j : Int) ∧
          smptbl1.region_high_boundary[j]?
            = some (region_sizes_sum sector_map_table (j + 1) - 1) := by
  intro k
  induction k with
  | zero =>
    intro i_ind prev_boundary bits smptbl _ _ _ _ _ _
    exact ⟨_, _, rfl, fun j h1 h2 => by omega⟩
  | succ k ih =>
    intro i_ind prev_boundary bits smptbl hlen h1 h2 h3 hsum hprev
    have hs1 := region_sizes_sum_succ sector_map_table i_ind
    have hmono := region_sizes_sum_mono sector_map_table (i_ind + 1) (i_ind + (k + 1)) (by omega)
    have hstep := sector_map_regions_loop_step sector_map_table k i_ind prev_boundary bits smptbl
      (by omega) (by omega) (by omega) (by omega) (by omega) (by omega)
    obtain ⟨bits1, smptbl1, hloop, hent⟩ :=
      ih (i_ind + 1) (prev_boundary + (region_descriptor_size sector_map_table i_ind : Int))
        (bits &&& (region_descriptor_word sector_map_table i_ind &&& 0x0F))
        { smptbl with
          region_size :=
            smptbl.region_size.set i_ind (region_descriptor_size sector_map_table i_ind : Int),
          region_erase_types_bitfld :=
            smptbl.region_erase_types_bitfld.set i_ind
              (region_descriptor_word sector_map_table i_ind &&& 0x0F),
          region_high_boundary :=
            smptbl.region_high_boundary.set i_ind
              (prev_boundary + (region_descriptor_size sector_map_table i_ind : Int)
                - 1).toNat }
        (by omega) (by simp only [List.length_set]; omega)
        (by simp only [List.length_set]; omega) (by simp only [List.length_set]; omega)
        (by rw [show i_ind + 1 + k = i_ind + (k + 1) by omega]; exact hsum)
        (by rw [hs1, hprev]; push_cast; rfl)
    refine ⟨bits1, smptbl1, by rw [hstep]; exact hloop, ?_⟩
    intro j hj1 hj2
    by_cases hji : j = i_ind
    · subst hji
      obtain ⟨hkeep, _⟩ := sector_map_regions_loop_entries _ _ _ _ _ _ _ _ hloop
      obtain ⟨a1, _, a3⟩ := hkeep j (by omega)
      simp only at a1 a3
      rw [a1, a3, List.getElem?_set_self (by omega), List.getElem?_set_self (by omega)]
      refine ⟨rfl, ?_⟩
      congr 1
      omega
    · exact hent j (by omega) (by omega)

/-- The loop that picks the common erase size ends when the record holds
the four erase type sizes. -/
theorem common_erase_size_loop_total (bits : Nat) :
    ∀ (k i_ind type_mask : Nat) (smptbl : sfdp_smptbl_info),
      i_ind + k ≤ smptbl.erase_type_size_arr.length →
      ∃ res, common_erase_size_loop bits k i_ind type_mask smptbl = some res := by
  intro k
  induction k with
  | zero =>
    intro i_ind type_mask smptbl _
    exact ⟨_, rfl⟩
  | succ k ih =>
    intro i_ind type_mask smptbl h
    rw [common_erase_size_loop]
    split
    · rw [List.getElem?_eq_getElem (by omega)]
      exact ⟨_, rfl⟩
    · exact ih _ _ _ (by omega)

theorem sector_map_table_read_length {σ : Type} (reader : sfdp_reader_fn σ) (s : σ)
    (sfdp_info : sfdp_hdr_info) :
    (sector_map_table_read reader s sfdp_info).length = sfdp_info.smptbl.size := by
  unfold sector_map_table_read
  rw [List.length_map, List.length_range]

/-- In the situation `sector_map_accepted`, the status and the record left by
`sfdp_parse_sector_map_table` are those of `sector_map_decode_regions`. -/
theorem parse_sector_map_table_accepted {σ : Type} (SFDP_SECTOR_MAP_MAX_REGIONS : Nat)
    (reader : sfdp_reader_fn σ) (s : σ) (sfdp_info : sfdp_hdr_info) (b2 : Nat)
    (hacc : sector_map_accepted reader s sfdp_info b2) :
    (sfdp_parse_sector_map_table SFDP_SECTOR_MAP_MAX_REGIONS reader s sfdp_info).map
        (fun r => (r.ret, r.sfdp_info))
      = sector_map_decode_regions SFDP_SECTOR_MAP_MAX_REGIONS
          (sector_map_table_read reader s sfdp_info) (single_region_info sfdp_info) := by
  obtain ⟨hrs, hhb, haddr, hsize, hbuf, hstatus, h2, hpass⟩ := hacc
  obtain ⟨hl, _⟩ := List.getElem?_eq_some.1 h2
  exact parse_sector_map_table_proceeds SFDP_SECTOR_MAP_MAX_REGIONS reader s sfdp_info _ _
    hrs hhb haddr hsize hbuf hstatus (getElem?_eq_some_getD _ 0 (by omega))
    (getElem?_eq_some_getD _ 1 (by omega)) hpass

/-- A successful `sector_map_decode_regions` ran the loop over the regions
`0 .. byte2` to its end; its record is the one left by that loop but for
`regions_min_common_erase_size`. -/
theorem sector_map_decode_regions_success (SFDP_SECTOR_MAP_MAX_REGIONS : Nat)
    (sector_map_table : List Nat) (sfdp_info : sfdp_hdr_info) (b2 : Nat)
    (h2 : sector_map_table[2]? = some b2) (sfdp_info1 : sfdp_hdr_info)
    (h : sector_map_decode_regions SFDP_SECTOR_MAP_MAX_REGIONS sector_map_table sfdp_info
      = some (0, sfdp_info1)) :
    b2 + 1 ≤ SFDP_SECTOR_MAP_MAX_REGIONS ∧
    ∃ (bits : Nat) (smptbl2 : sfdp_smptbl_info) (m : Nat),
      sector_map_regions_loop sector_map_table (b2 + 1) 0 0 SFDP_ERASE_BITMASK_ALL
        { sfdp_info.smptbl with region_cnt := (b2 : Int) + 1 } = some (bits, smptbl2) ∧
      sfdp_info1 = { sfdp_info with
        smptbl := { smptbl2 with regions_min_common_erase_size := m } } := by
  unfold sector_map_decode_regions at h
  rw [h2] at h
  simp only at h
  by_cases hmax : (b2 : Int) + 1 > (SFDP_SECTOR_MAP_MAX_REGIONS : Int)
  · rw [if_pos hmax] at h
    simp only [Option.some.injEq, Prod.mk.injEq] at h
    omega
  · rw [if_neg hmax] at h
    have hcnt : ((b2 : Int) + 1).toNat = b2 + 1 := by omega
    rw [hcnt] at h
    refine ⟨by omega, ?_⟩
    split at h
    · cases h
    · rename_i bits smptbl2 hloop
      split at h
      · cases h
      · rename_i i1 smptbl3 hcommon
        simp only [Option.some.injEq, Prod.mk.injEq, true_and] at h
        obtain ⟨_, m, hm⟩ := common_erase_size_loop_frame _ _ _ _ _ _ _ hcommon
        subst hm
        by_cases hi4 : i1 = 4
        · rw [if_pos hi4] at h
          exact ⟨bits, smptbl2, 0, hloop, h.symm⟩
        · rw [if_neg hi4] at h
          exact ⟨bits, smptbl2, m, hloop, h.symm⟩

/-- On a table that holds the descriptors of its `byte2 + 1` regions, with
record arrays that have the entries needed and region sizes that sum to less
than 2^31, `sector_map_decode_regions` succeeds: `region_cnt` is `byte2 +
1`, and for each region `region_size` is the size of its descriptor and
`region_high_boundary` the sum of the sizes up to it, minus one. -/
theorem sector_map_decode_regions_decodes (SFDP_SECTOR_MAP_MAX_REGIONS : Nat)
    (sector_map_table : List Nat) (sfdp_info : sfdp_hdr_info) (b2 : Nat)
    (h2 : sector_map_table[2]? = some b2)
    (hmax : b2 + 1 ≤ SFDP_SECTOR_MAP_MAX_REGIONS)
    (hlen : (b2 + 2) * 4 ≤ sector_map_table.length)
    (hrs : b2 + 1 ≤ sfdp_info.smptbl.region_size.length)
    (hbf : b2 + 1 ≤ sfdp_info.smptbl.region_erase_types_bitfld.length)
    (hhb : b2 + 1 ≤ sfdp_info.smptbl.region_high_boundary.length)
    (hsz : 4 ≤ sfdp_info.smptbl.erase_type_size_arr.length)
    (hsum : region_sizes_sum sector_map_table (b2 + 1) < 2 ^ 31) :
    ∃ sfdp_info1 : sfdp_hdr_info,
      sector_map_decode_regions SFDP_SECTOR_MAP_MAX_REGIONS sector_map_table sfdp_info
        = some (0, sfdp_info1) ∧
      sfdp_info1.smptbl.region_cnt = (b2 : Int) + 1 ∧
      ∀ j, j < b2 + 1 →
        sfdp_info1.smptbl.region_size[j]?
          = some (region_descriptor_size sector_map_table j : Int) ∧
        sfdp_info1.smptbl.region_high_boundary[j]?
          = some (region_sizes_sum sector_map_table (j + 1) - 1) := by
  obtain ⟨bits, smptbl2, hloop, hent⟩ :=
    sector_map_regions_loop_boundaries sector_map_table (b2 + 1) 0 0 SFDP_ERASE_BITMASK_ALL
      { sfdp_info.smptbl with region_cnt := (b2 : Int) + 1 }
      (by omega) (by simpa using hrs) (by simpa using hbf) (by simpa using hhb)
      (by simpa using hsum) (by simp [region_sizes_sum])
  obtain ⟨_, _, hc, _, _, hsize_arr, _, _, _⟩ :=
    sector_map_regions_loop_frame _ _ _ _ _ _ _ _ hloop
  obtain ⟨⟨i1, smptbl3⟩, hcommon⟩ :=
    common_erase_size_loop_total bits 4 0 SFDP_ERASE_BITMASK_TYPE1 smptbl2
      (by rw [hsize_arr]; simpa using hsz)
  obtain ⟨_, m, hm⟩ := common_erase_size_loop_frame _ _ _ _ _ _ _ hcommon
  subst hm
  have hcnt : ((b2 : Int) + 1).toNat = b2 + 1 := by omega
  unfold sector_map_decode_regions
  rw [h2]
  simp only
  rw [if_neg (by omega), hcnt, hloop]
  simp only
  rw [hcommon]
  refine ⟨_, rfl, ?_, ?_⟩
  · simp only
    split <;> exact hc
  · intro j hj
    obtain ⟨a1, a2⟩ := hent j (by omega) (by omega)
    simp only
    split <;> exact ⟨a1, a2⟩

/-- In the situation `sector_map_accepted`, on a declared size that covers
the descriptors of the `byte2 + 1` regions, with record arrays that hold
these regions and region sizes that sum to less than 2^31,
`sfdp_parse_sector_map_table` succeeds and leaves, for each region, the
size of its descriptor and the sum of the sizes up to it, minus one. -/
theorem parse_sector_map_table_decodes {σ : Type} (SFDP_SECTOR_MAP_MAX_REGIONS : Nat)
    (reader : sfdp_reader_fn σ) (s : σ) (sfdp_info : sfdp_hdr_info) (b2 : Nat)
    (hacc : sector_map_accepted reader s sfdp_info b2)
    (hmax : b2 + 1 ≤ SFDP_SECTOR_MAP_MAX_REGIONS)
    (hlen : (b2 + 2) * 4 ≤ sfdp_info.smptbl.size)
    (hrs : b2 + 1 ≤ sfdp_info.smptbl.region_size.length)
    (hbf : b2 + 1 ≤ sfdp_info.smptbl.region_erase_types_bitfld.length)
    (hhb : b2 + 1 ≤ sfdp_info.smptbl.region_high_boundary.length)
    (hsz : 4 ≤ sfdp_info.smptbl.erase_type_size_arr.length)
    (hsum : region_sizes_sum (sector_map_table_read reader s sfdp_info) (b2 + 1) < 2 ^ 31) :
    ∃ r : sector_map_result σ,
      sfdp_parse_sector_map_table SFDP_SECTOR_MAP_MAX_REGIONS reader s sfdp_info = some r ∧
      r.ret = 0 ∧ r.sfdp_info.smptbl.region_cnt = (b2 : Int) + 1 ∧
      r.sfdp_info.bptbl = sfdp_info.bptbl ∧
      ∀ j, j < b2 + 1 →
        r.sfdp_info.smptbl.region_size[j]?
          = some (region_descriptor_size (sector_map_table_read reader s sfdp_info) j : Int) ∧
        r.sfdp_info.smptbl.region_high_boundary[j]?
          = some (region_sizes_sum (sector_map_table_read reader s sfdp_info) (j + 1) - 1) := by
  have hmap := parse_sector_map_table_accepted SFDP_SECTOR_MAP_MAX_REGIONS reader s sfdp_info b2
    hacc
  obtain ⟨info1, hdec, hc, hent⟩ :=
    sector_map_decode_regions_decodes SFDP_SECTOR_MAP_MAX_REGIONS
      (sector_map_table_read reader s sfdp_info) (single_region_info sfdp_info) b2 hacc.2.2.2.2.2.2.1
      hmax (by rw [sector_map_table_read_length]; exact hlen)
      (by simpa [single_region_info] using hrs) (by simpa [single_region_info] using hbf)
      (by simpa [single_region_info] using hhb) (by simpa [single_region_info] using hsz) hsum
  rw [hdec, Option.map_eq_some'] at hmap
  obtain ⟨r, hr, hpair⟩ := hmap
  simp only [Prod.mk.injEq] at hpair
  obtain ⟨h1, h2⟩ := hpair
  have hb := (sector_map_decode_regions_result SFDP_SECTOR_MAP_MAX_REGIONS _ _ b2
    hacc.2.2.2.2.2.2.1 _ _ hdec).2.2.2.2.1
  exact ⟨r, hr, h1, by rw [h2]; exact hc, by rw [h2, hb]; rfl, by rw [h2]; exact hent⟩

/-- C24, as stated, fails: for a region whose size field is 0xFFFFFF the
32-bit product `(tmp_region_size + 1) * 256` wraps to 0, so the decode
succeeds with `region_size[0] == 0`, not `(0xFFFFFF + 1) * 256`. -/
theorem parse_sector_map_table_region_size_wraps :
    ¬ ∀ (SFDP_SECTOR_MAP_MAX_REGIONS : Nat) (reader : sfdp_reader_fn Unit)
      (sfdp_info : sfdp_hdr_info) (r : sector_map_result Unit) (i : Nat),
      sfdp_info.smptbl.addr ≠ 0 → sfdp_info.smptbl.size ≠ 0 →
      sfdp_parse_sector_map_table SFDP_SECTOR_MAP_MAX_REGIONS reader () sfdp_info = some r →
      r.ret = 0 → (i : Int) < r.sfdp_info.smptbl.region_cnt →
      r.sfdp_info.smptbl.region_size[i]?
        = some (region_descriptor_size (sector_map_table_read reader () sfdp_info) i : Int) := by
  intro h
  have hev : (sfdp_parse_sector_map_table 10 (table_reader example_sector_map_max_value) ()
      (example_map_info 8192 0x100 8 [4096, 32768, 65536, 1])).map
      (fun r => (r.ret, r.sfdp_info.smptbl.region_cnt, r.sfdp_info.smptbl.region_size[0]?))
      = some (0, 1, some 0) := by decide
  rw [Option.map_eq_some'] at hev
  obtain ⟨r, hr, hpair⟩ := hev
  simp only [Prod.mk.injEq] at hpair
  obtain ⟨h1, h2, h3⟩ := hpair
  have h4 := h 10 (table_reader example_sector_map_max_value)
    (example_map_info 8192 0x100 8 [4096, 32768, 65536, 1]) r 0 (by decide) (by decide) hr h1
    (by rw [h2]; decide)
  rw [h3] at h4
  revert h4
  decide

/-- C24, amended: after a successful decode, for every region index `i <
region_cnt = byte2 + 1`, with `d` the little-endian word at the table bytes
`4(i+1) .. 4(i+1)+3` and `value` its bits 8..31, `region_size[i]` is
`(value + 1) * 256` computed in 32 bits unsigned and converted to `int`: it
equals `(value + 1) * 256`, a positive multiple of 256, for every `value`
below 0x7FFFFF, and it is 0 for `value = 0xFFFFFF`;
`region_erase_types_bitfld[i] == d & 0x0F`. -/
theorem parse_sector_map_table_region_entries {σ : Type} (SFDP_SECTOR_MAP_MAX_REGIONS : Nat)
    (reader : sfdp_reader_fn σ) (s : σ) (sfdp_info : sfdp_hdr_info) (b2 : Nat)
    (r : sector_map_result σ)
    (hacc : sector_map_accepted reader s sfdp_info b2)
    (hres : sfdp_parse_sector_map_table SFDP_SECTOR_MAP_MAX_REGIONS reader s sfdp_info = some r)
    (hret : r.ret = 0) :
    r.sfdp_info.smptbl.region_cnt = (b2 : Int) + 1 ∧
    ∀ i, i < b2 + 1 →
      r.sfdp_info.smptbl.region_size[i]?
        = some (to_int32 ((region_descriptor_value (sector_map_table_read reader s sfdp_info) i
            + 1) * 256 % 2 ^ 32)) ∧
      (region_descriptor_value (sector_map_table_read reader s sfdp_info) i < 0x7FFFFF →
        r.sfdp_info.smptbl.region_size[i]?
          = some (((region_descriptor_value (sector_map_table_read reader s sfdp_info) i + 1)
              * 256 : Nat) : Int) ∧
        0 < (region_descriptor_value (sector_map_table_read reader s sfdp_info) i + 1) * 256 ∧
        256 ∣ (region_descriptor_value (sector_map_table_read reader s sfdp_info) i + 1) * 256) ∧
      (region_descriptor_value (sector_map_table_read reader s sfdp_info) i = 0xFFFFFF →
        r.sfdp_info.smptbl.region_size[i]? = some 0) ∧
      r.sfdp_info.smptbl.region_erase_types_bitfld[i]?
        = some (region_descriptor_word (sector_map_table_read reader s sfdp_info) i &&& 0x0F) := by
  have hmap := parse_sector_map_table_accepted SFDP_SECTOR_MAP_MAX_REGIONS reader s sfdp_info b2
    hacc
  rw [hres] at hmap
  simp only [Option.map_some', hret] at hmap
  obtain ⟨_, bits, smptbl2, m, hloop, hinfo⟩ :=
    sector_map_decode_regions_success SFDP_SECTOR_MAP_MAX_REGIONS _ _ b2 hacc.2.2.2.2.2.2.1 _
      hmap.symm
  obtain ⟨_, _, hc, _⟩ := sector_map_regions_loop_frame _ _ _ _ _ _ _ _ hloop
  obtain ⟨_, hent⟩ := sector_map_regions_loop_entries _ _ _ _ _ _ _ _ hloop
  rw [hinfo]
  refine ⟨hc, ?_⟩
  intro i hi
  obtain ⟨_, e1, e2⟩ := hent i (by omega) (by omega)
  refine ⟨e1, ?_, ?_, e2⟩
  · intro hv
    refine ⟨?_, by omega, Dvd.intro_left _ rfl⟩
    simp only
    rw [e1, Nat.mod_eq_of_lt (by omega), to_int32_of_lt _ (by omega)]
  · intro hv
    simp only
    rw [e1, hv]
    rfl

/-- Instances of the amended C24: the table with two regions of 4096 bytes
is decoded to the sizes 4096 and 4096 and the bitfields 3 and 7; the table
whose region has the size field 0xFFFFFF is decoded to the size 0. -/
theorem parse_sector_map_table_region_entries_witness :
    (∃ r : sector_map_result Unit,
      sfdp_parse_sector_map_table 10 (table_reader (example_sector_map 0x03 0x00)) ()
        (example_map_info 8192 0x100 12 [4096, 32768, 65536, 1]) = some r ∧
      r.sfdp_info.smptbl.region_cnt = ((1 : Nat) : Int) + 1 ∧
      r.sfdp_info.smptbl.region_size[1]? = some (((0x00000F + 1) * 256 : Nat) : Int) ∧
      r.sfdp_info.smptbl.region_erase_types_bitfld[1]? = some 0x07) ∧
    (sfdp_parse_sector_map_table 10 (table_reader example_sector_map_max_value) ()
        (example_map_info 8192 0x100 8 [4096, 32768, 65536, 1])).map
      (fun r => (r.ret, r.sfdp_info.smptbl.region_size[0]?)) = some (0, some 0) := by
  have hev : (sfdp_parse_sector_map_table 10 (table_reader (example_sector_map 0x03 0x00)) ()
      (example_map_info 8192 0x100 12 [4096, 32768, 65536, 1])).map (fun r => r.ret)
      = some 0 := by decide
  rw [Option.map_eq_some'] at hev
  obtain ⟨r, hr, hret⟩ := hev
  have h := parse_sector_map_table_region_entries 10
    (table_reader (example_sector_map 0x03 0x00)) ()
    (example_map_info 8192 0x100 12 [4096, 32768, 65536, 1]) 1 r (by decide) hr hret
  obtain ⟨hc, hent⟩ := h
  obtain ⟨_, e2, _, e4⟩ := hent 1 (by decide)
  refine ⟨⟨r, hr, hc, ?_, ?_⟩, by decide⟩
  · rw [(e2 (by decide)).1]
    decide
  · rw [e4]
    decide

theorem region_sizes_sum_pos (sector_map_table : List Nat) (n : Nat) :
    256 ≤ region_sizes_sum sector_map_table (n + 1) := by
  rw [region_sizes_sum_succ]
  unfold region_descriptor_size
  omega

/-- The sum of the first `n` region sizes of a record whose entries are the
sizes of the descriptors is the sum of these sizes. -/
theorem region_size_sum_eq (smptbl : sfdp_smptbl_info) (sector_map_table : List Nat) :
    ∀ n : Nat,
      (∀ j, j < n →
        smptbl.region_size[j]? = some (region_descriptor_size sector_map_table j : Int)) →
      region_size_sum smptbl n = (region_sizes_sum sector_map_table n : Int) := by
  intro n
  induction n with
  | zero =>
    intro _
    simp [region_size_sum, region_sizes_sum]
  | succ n ih =>
    intro h
    have h1 := ih (fun j hj => h j (by omega))
    have h2 := h n (by omega)
    rw [region_sizes_sum_succ]
    unfold region_size_sum at h1 ⊢
    rw [List.range_succ, List.map_append, List.sum_append, h1]
    simp only [List.map_cons, List.map_nil, List.sum_cons, List.sum_nil, add_zero]
    rw [List.getD_eq_getElem?_getD, h2]
    simp

/-- The loop over the regions writes `region_high_boundary[i]` for every
region it decodes, so these entries exist. -/
theorem sector_map_regions_loop_boundary_length (sector_map_table : List Nat) :
    ∀ (k i_ind : Nat) (prev_boundary : Int) (bits : Nat) (smptbl : sfdp_smptbl_info)
      (bits1 : Nat) (smptbl1 : sfdp_smptbl_info),
      sector_map_regions_loop sector_map_table k i_ind prev_boundary bits smptbl
        = some (bits1, smptbl1) →
      k = 0 ∨ i_ind + k ≤ smptbl.region_high_boundary.length := by
  intro k
  induction k with
  | zero =>
    intro i_ind prev_boundary bits smptbl bits1 smptbl1 _
    exact Or.inl rfl
  | succ k ih =>
    intro i_ind prev_boundary bits smptbl bits1 smptbl1 h
    rw [sector_map_regions_loop] at h
    split at h
    · simp only at h
      split at h
      · cases h
      · split at h
        · rename_i rs1 bf1 hb1 hw1 hw2 hw3
          obtain ⟨l3, e3⟩ := array_write_eq_some _ _ _ _ hw3
          have h1 := ih _ _ _ _ _ _ h
          simp only [e3, List.length_set] at h1
          right
          omega
        · cases h
    · cases h

/-- A stored region size that is positive did not wrap: it is the size
`(value + 1) * 256` of the descriptor, below 2^31. -/
theorem stored_region_size_pos (v : Nat) (hv : v < 2 ^ 24)
    (h : 0 < to_int32 ((v + 1) * 256 % 2 ^ 32)) :
    (v + 1) * 256 < 2 ^ 31 ∧ to_int32 ((v + 1) * 256 % 2 ^ 32) = (((v + 1) * 256 : Nat) : Int) := by
  unfold to_int32 at h ⊢
  split_ifs at h ⊢ <;> omega

/-- Region sizes that are those of the descriptors and boundaries that are
their prefix sums minus one: the boundaries are the prefix sums of the stored
sizes minus one, contiguous and strictly increasing. -/
theorem region_boundaries_of_entries (smptbl : sfdp_smptbl_info) (sector_map_table : List Nat)
    (b2 : Nat)
    (hent : ∀ j, j < b2 + 1 →
      smptbl.region_size[j]? = some (region_descriptor_size sector_map_table j : Int) ∧
      smptbl.region_high_boundary[j]?
        = some (region_sizes_sum sector_map_table (j + 1) - 1)) :
    (∀ i, i < b2 + 1 →
      smptbl.region_size[i]? = some (region_descriptor_size sector_map_table i : Int) ∧
      ∃ hb : Nat, smptbl.region_high_boundary[i]? = some hb ∧
        (hb : Int) = region_size_sum smptbl (i + 1) - 1) ∧
    (∃ (hb0 : Nat) (sz0 : Int), smptbl.region_high_boundary[0]? = some hb0 ∧
      smptbl.region_size[0]? = some sz0 ∧ (hb0 : Int) = sz0 - 1) ∧
    (∀ i, i + 1 < b2 + 1 →
      ∃ (a b : Nat) (sz : Int), smptbl.region_high_boundary[i]? = some a ∧
        smptbl.region_high_boundary[i + 1]? = some b ∧
        smptbl.region_size[i + 1]? = some sz ∧
        (b : Int) = (a : Int) + sz ∧ a < b) := by
  refine ⟨?_, ?_, ?_⟩
  · intro i hi
    refine ⟨(hent i hi).1, _, (hent i hi).2, ?_⟩
    rw [region_size_sum_eq _ sector_map_table (i + 1) (fun j hj => (hent j (by omega)).1)]
    have := region_sizes_sum_pos sector_map_table i
    omega
  · refine ⟨_, _, (hent 0 (by omega)).2, (hent 0 (by omega)).1, ?_⟩
    have h1 := region_sizes_sum_succ sector_map_table 0
    have h0 : region_sizes_sum sector_map_table 0 = 0 := by
      simp [region_sizes_sum]
    have := region_sizes_sum_pos sector_map_table 0
    omega
  · intro i hi
    refine ⟨_, _, _, (hent i (by omega)).2, (hent (i + 1) (by omega)).2,
      (hent (i + 1) (by omega)).1, ?_, ?_⟩
    · have h1 := region_sizes_sum_succ sector_map_table (i + 1)
      have := region_sizes_sum_pos sector_map_table i
      omega
    · have h1 := region_sizes_sum_succ sector_map_table (i + 1)
      have h2 : 0 < region_descriptor_size sector_map_table (i + 1) := by
        unfold region_descriptor_size
        omega
      have := region_sizes_sum_pos sector_map_table i
      omega

/-- C25, as stated, fails: a stored region size can be 0, because the 32-bit
product `(tmp_region_size + 1) * 256` wraps for the size field 0xFFFFFF, and
then `(region_size[i] - 1) + prev_boundary` is -1, stored as 2^64 - 1.  On the
table of two regions with the size fields 0xFFFFFF and 0x00000F the decode
succeeds with `region_size == {0, 4096}`, whose sum is below 2^31, and
`region_high_boundary == {2^64 - 1, 4095}`: the boundaries do not increase and
`region_high_boundary[0]` is not `region_size[0] - 1`. -/
theorem parse_sector_map_table_boundaries_not_increasing :
    ¬ ∀ (SFDP_SECTOR_MAP_MAX_REGIONS : Nat) (reader : sfdp_reader_fn Unit)
      (sfdp_info : sfdp_hdr_info) (r : sector_map_result Unit),
      sfdp_info.smptbl.addr ≠ 0 → sfdp_info.smptbl.size ≠ 0 →
      sfdp_parse_sector_map_table SFDP_SECTOR_MAP_MAX_REGIONS reader () sfdp_info = some r →
      r.ret = 0 →
      region_size_sum r.sfdp_info.smptbl r.sfdp_info.smptbl.region_cnt.toNat < 2 ^ 31 →
      (∀ i : Nat, (i : Int) < r.sfdp_info.smptbl.region_cnt →
        ∃ hb : Nat, r.sfdp_info.smptbl.region_high_boundary[i]? = some hb ∧
          (hb : Int) = region_size_sum r.sfdp_info.smptbl (i + 1) - 1) ∧
      (∀ i : Nat, ((i + 1 : Nat) : Int) < r.sfdp_info.smptbl.region_cnt →
        ∃ a b : Nat, r.sfdp_info.smptbl.region_high_boundary[i]? = some a ∧
          r.sfdp_info.smptbl.region_high_boundary[i + 1]? = some b ∧ a < b) := by
  intro h
  have hev : (sfdp_parse_sector_map_table 10 (table_reader example_sector_map_wrapped) ()
      (example_map_info 8192 0x100 12 [4096, 32768, 65536, 1])).map
      (fun r => (r.ret, r.sfdp_info.smptbl.region_cnt,
        r.sfdp_info.smptbl.region_high_boundary[0]?,
        r.sfdp_info.smptbl.region_high_boundary[1]?,
        region_size_sum r.sfdp_info.smptbl 2))
      = some (0, 2, some 18446744073709551615, some 4095, 4096) := by decide
  rw [Option.map_eq_some'] at hev
  obtain ⟨r, hr, hpair⟩ := hev
  simp only [Prod.mk.injEq] at hpair
  obtain ⟨h1, h2, h4, h5, h6⟩ := hpair
  have hcnt : r.sfdp_info.smptbl.region_cnt.toNat = 2 := by
    rw [h2]
    rfl
  obtain ⟨_, hinc⟩ := h 10 (table_reader example_sector_map_wrapped)
    (example_map_info 8192 0x100 12 [4096, 32768, 65536, 1]) r (by decide) (by decide) hr h1
    (by rw [hcnt, h6]; decide)
  obtain ⟨a, b, ha, hb, hab⟩ := hinc 0 (by rw [h2]; decide)
  rw [h4] at ha
  rw [h5] at hb
  cases ha
  cases hb
  omega

/-- C25, amended: on an accepted table, after every successful decode in
which the stored region sizes `region_size[i]`, `i < region_cnt`, are all
positive and sum to less than 2^31, each stored size is the size `(value +
1) * 256` of its descriptor, and for every `i < region_cnt`
`region_high_boundary[i] == (region_size[0] + ... + region_size[i]) - 1`;
`region_high_boundary[0] == region_size[0] - 1`, and for `i + 1 < region_cnt`
`region_high_boundary[i+1] == region_high_boundary[i] + region_size[i+1]`,
strictly above `region_high_boundary[i]`.  Such decodes exist: when the
declared size and the record arrays hold the `byte2 + 1` regions and the
sizes `(value + 1) * 256` of the descriptors sum to less than 2^31, the
decode succeeds with these sizes stored and the same boundaries. -/
theorem parse_sector_map_table_boundaries {σ : Type} (SFDP_SECTOR_MAP_MAX_REGIONS : Nat)
    (reader : sfdp_reader_fn σ) (s : σ) (sfdp_info : sfdp_hdr_info) (b2 : Nat)
    (hacc : sector_map_accepted reader s sfdp_info b2) :
    (∀ r : sector_map_result σ,
      sfdp_parse_sector_map_table SFDP_SECTOR_MAP_MAX_REGIONS reader s sfdp_info = some r →
      r.ret = 0 →
      (∀ i, i < b2 + 1 →
        ∃ sz : Int, r.sfdp_info.smptbl.region_size[i]? = some sz ∧ 0 < sz) →
      region_size_sum r.sfdp_info.smptbl (b2 + 1) < 2 ^ 31 →
      r.sfdp_info.smptbl.region_cnt = (b2 : Int) + 1 ∧
      (∀ i, i < b2 + 1 →
        r.sfdp_info.smptbl.region_size[i]?
          = some (region_descriptor_size (sector_map_table_read reader s sfdp_info) i : Int) ∧
        ∃ hb : Nat, r.sfdp_info.smptbl.region_high_boundary[i]? = some hb ∧
          (hb : Int) = region_size_sum r.sfdp_info.smptbl (i + 1) - 1) ∧
      (∃ (hb0 : Nat) (sz0 : Int), r.sfdp_info.smptbl.region_high_boundary[0]? = some hb0 ∧
        r.sfdp_info.smptbl.region_size[0]? = some sz0 ∧ (hb0 : Int) = sz0 - 1) ∧
      (∀ i, i + 1 < b2 + 1 →
        ∃ (a b : Nat) (sz : Int), r.sfdp_info.smptbl.region_high_boundary[i]? = some a ∧
          r.sfdp_info.smptbl.region_high_boundary[i + 1]? = some b ∧
          r.sfdp_info.smptbl.region_size[i + 1]? = some sz ∧
          (b : Int) = (a : Int) + sz ∧ a < b)) ∧
    (b2 + 1 ≤ SFDP_SECTOR_MAP_MAX_REGIONS → (b2 + 2) * 4 ≤ sfdp_info.smptbl.size →
      b2 + 1 ≤ sfdp_info.smptbl.region_size.length →
      b2 + 1 ≤ sfdp_info.smptbl.region_erase_types_bitfld.length →
      b2 + 1 ≤ sfdp_info.smptbl.region_high_boundary.length →
      4 ≤ sfdp_info.smptbl.erase_type_size_arr.length →
      region_sizes_sum (sector_map_table_read reader s sfdp_info) (b2 + 1) < 2 ^ 31 →
      ∃ r : sector_map_result σ,
        sfdp_parse_sector_map_table SFDP_SECTOR_MAP_MAX_REGIONS reader s sfdp_info = some r ∧
        r.ret = 0 ∧ r.sfdp_info.smptbl.region_cnt = (b2 : Int) + 1 ∧
        (∀ i, i < b2 + 1 →
          ∃ sz : Int, r.sfdp_info.smptbl.region_size[i]? = some sz ∧ 0 < sz) ∧
        region_size_sum r.sfdp_info.smptbl (b2 + 1) < 2 ^ 31 ∧
        (∀ i, i < b2 + 1 →
          r.sfdp_info.smptbl.region_size[i]?
            = some (region_descriptor_size (sector_map_table_read reader s sfdp_info) i : Int) ∧
          ∃ hb : Nat, r.sfdp_info.smptbl.region_high_boundary[i]? = some hb ∧
            (hb : Int) = region_size_sum r.sfdp_info.smptbl (i + 1) - 1) ∧
        (∃ (hb0 : Nat) (sz0 : Int), r.sfdp_info.smptbl.region_high_boundary[0]? = some hb0 ∧
          r.sfdp_info.smptbl.region_size[0]? = some sz0 ∧ (hb0 : Int) = sz0 - 1) ∧
        (∀ i, i + 1 < b2 + 1 →
          ∃ (a b : Nat) (sz : Int), r.sfdp_info.smptbl.region_high_boundary[i]? = some a ∧
            r.sfdp_info.smptbl.region_high_boundary[i + 1]? = some b ∧
            r.sfdp_info.smptbl.region_size[i + 1]? = some sz ∧
            (b : Int) = (a : Int) + sz ∧ a < b)) := by
  have hl := sector_map_table_read_length reader s sfdp_info
  constructor
  · intro r hres hret hpos hsumr
    have hmap := parse_sector_map_table_accepted SFDP_SECTOR_MAP_MAX_REGIONS reader s sfdp_info
      b2 hacc
    rw [hres] at hmap
    simp only [Option.map_some', hret] at hmap
    obtain ⟨_, bits, smptbl2, m, hloop, hinfo⟩ :=
      sector_map_decode_regions_success SFDP_SECTOR_MAP_MAX_REGIONS _ _ b2 hacc.2.2.2.2.2.2.1 _
        hmap.symm
    obtain ⟨_, _, hc, _, _, _, hlrs, hlbf, hlhb⟩ :=
      sector_map_regions_loop_frame _ _ _ _ _ _ _ _ hloop
    simp only at hc hlrs hlbf hlhb
    obtain ⟨_, hent1⟩ := sector_map_regions_loop_entries _ _ _ _ _ _ _ _ hloop
    have hblen := sector_map_regions_loop_boundary_length _ _ _ _ _ _ _ _ hloop
    simp only at hblen
    have hrrs : r.sfdp_info.smptbl.region_size = smptbl2.region_size := by rw [hinfo]
    have hrhb : r.sfdp_info.smptbl.region_high_boundary = smptbl2.region_high_boundary := by
      rw [hinfo]
    have hrc : r.sfdp_info.smptbl.region_cnt = (b2 : Int) + 1 := by
      rw [hinfo]
      exact hc
    -- every stored size is the size of its descriptor
    have hstored : ∀ j, j < b2 + 1 →
        r.sfdp_info.smptbl.region_size[j]?
          = some (region_descriptor_size (sector_map_table_read reader s sfdp_info) j : Int) := by
      intro j hj
      obtain ⟨sz, hsz, hszpos⟩ := hpos j hj
      obtain ⟨_, e1, _⟩ := hent1 j (by omega) (by omega)
      rw [hrrs, e1] at hsz
      have hv : region_descriptor_value (sector_map_table_read reader s sfdp_info) j < 2 ^ 24 := by
        unfold region_descriptor_value
        exact Nat.mod_lt _ (by norm_num)
      rw [← Option.some.inj hsz] at hszpos
      rw [hrrs, e1, (stored_region_size_pos _ hv hszpos).2]
      rfl
    have hsumd : region_sizes_sum (sector_map_table_read reader s sfdp_info) (b2 + 1) < 2 ^ 31 := by
      rw [region_size_sum_eq _ (sector_map_table_read reader s sfdp_info) (b2 + 1) hstored]
        at hsumr
      exact_mod_cast hsumr
    obtain ⟨hlast, elast, blast⟩ := hent1 b2 (by omega) (by omega)
    have hrs_len : b2 + 1 ≤ (single_region_info sfdp_info).smptbl.region_size.length := by
      rw [← hlrs]
      exact (List.getElem?_eq_some.1 elast).1
    have hbf_len : b2 + 1 ≤ (single_region_info sfdp_info).smptbl.region_erase_types_bitfld.length := by
      rw [← hlbf]
      exact (List.getElem?_eq_some.1 blast).1
    have hhb_len : b2 + 1 ≤ (single_region_info sfdp_info).smptbl.region_high_boundary.length := by
      rcases hblen with h | h
      · omega
      · omega
    obtain ⟨bits1, smptbl1, hloop1, hent⟩ :=
      sector_map_regions_loop_boundaries (sector_map_table_read reader s sfdp_info) (b2 + 1) 0 0
        SFDP_ERASE_BITMASK_ALL
        { (single_region_info sfdp_info).smptbl with region_cnt := (b2 : Int) + 1 }
        (by omega) (by simpa using hrs_len) (by simpa using hbf_len) (by simpa using hhb_len)
        (by simpa using hsumd) (by simp [region_sizes_sum])
    rw [hloop] at hloop1
    simp only [Option.some.injEq, Prod.mk.injEq] at hloop1
    obtain ⟨_, hs12⟩ := hloop1
    have hentr : ∀ j, j < b2 + 1 →
        r.sfdp_info.smptbl.region_size[j]?
          = some (region_descriptor_size (sector_map_table_read reader s sfdp_info) j : Int) ∧
        r.sfdp_info.smptbl.region_high_boundary[j]?
          = some (region_sizes_sum (sector_map_table_read reader s sfdp_info) (j + 1) - 1) := by
      intro j hj
      refine ⟨hstored j hj, ?_⟩
      rw [hrhb, hs12]
      exact (hent j (by omega) (by omega)).2
    exact ⟨hrc, region_boundaries_of_entries _ _ b2 hentr⟩
  · intro hmax hlen hrs hbf hhb hsz hsum
    obtain ⟨r, hr, hret, hc, _, hent⟩ :=
      parse_sector_map_table_decodes SFDP_SECTOR_MAP_MAX_REGIONS reader s sfdp_info b2 hacc hmax
        hlen hrs hbf hhb hsz hsum
    obtain ⟨g1, g2, g3⟩ := region_boundaries_of_entries _ _ b2 hent
    refine ⟨r, hr, hret, hc, ?_, ?_, g1, g2, g3⟩
    · intro i hi
      refine ⟨_, (hent i hi).1, ?_⟩
      have : 0 < region_descriptor_size (sector_map_table_read reader s sfdp_info) i := by
        unfold region_descriptor_size
        omega
      exact_mod_cast this
    · rw [region_size_sum_eq _ (sector_map_table_read reader s sfdp_info) (b2 + 1)
        (fun j hj => (hent j hj).1)]
      exact_mod_cast hsum

/-- Instance of the amended C25: the table with two regions of 4096 bytes is
decoded to the stored sizes 4096 and 4096, positive with the sum 8192, and to
the boundaries 4095 and 8191. -/
theorem parse_sector_map_table_boundaries_witness :
    sector_map_accepted (table_reader (example_sector_map 0x03 0x00)) ()
        (example_map_info 8192 0x100 12 [4096, 32768, 65536, 1]) 1 ∧
    ∃ r : sector_map_result Unit,
      sfdp_parse_sector_map_table 10 (table_reader (example_sector_map 0x03 0x00)) ()
        (example_map_info 8192 0x100 12 [4096, 32768, 65536, 1]) = some r ∧
      r.ret = 0 ∧ r.sfdp_info.smptbl.region_cnt = 2 ∧
      (∀ i, i < 1 + 1 → ∃ sz : Int, r.sfdp_info.smptbl.region_size[i]? = some sz ∧ 0 < sz) ∧
      region_size_sum r.sfdp_info.smptbl (1 + 1) < 2 ^ 31 ∧
      r.sfdp_info.smptbl.region_size.take 2 = [4096, 4096] ∧
      r.sfdp_info.smptbl.region_high_boundary[0]? = some 4095 ∧
      r.sfdp_info.smptbl.region_high_boundary[1]? = some 8191 := by
  obtain ⟨r, hr, hret, hc, hpos, hsum, _⟩ := (parse_sector_map_table_boundaries 10
    (table_reader (example_sector_map 0x03 0x00)) ()
    (example_map_info 8192 0x100 12 [4096, 32768, 65536, 1]) 1 (by decide)).2 (by decide)
    (by decide) (by decide) (by decide) (by decide) (by decide) (by decide)
  have hev : (sfdp_parse_sector_map_table 10 (table_reader (example_sector_map 0x03 0x00)) ()
      (example_map_info 8192 0x100 12 [4096, 32768, 65536, 1])).map
      (fun r => (r.sfdp_info.smptbl.region_size.take 2,
        r.sfdp_info.smptbl.region_high_boundary[0]?,
        r.sfdp_info.smptbl.region_high_boundary[1]?))
      = some ([4096, 4096], some 4095, some 8191) := by decide
  rw [hr] at hev
  simp only [Option.map_some', Option.some.injEq, Prod.mk.injEq] at hev
  exact ⟨by decide, r, hr, hret, hc, hpos, hsum, hev.1, hev.2.1, hev.2.2⟩

/-- C26, as stated, fails: the decode never compares the regions with the
device size.  On a device of 16384 bytes whose Sector Map table describes two
regions of 4096 bytes the decode succeeds and the last boundary is 8191, not
16383. -/
theorem parse_sector_map_table_last_boundary_not_device_size :
    ¬ ∀ (SFDP_SECTOR_MAP_MAX_REGIONS : Nat) (reader : sfdp_reader_fn Unit)
      (sfdp_info : sfdp_hdr_info) (r : sector_map_result Unit),
      sfdp_info.smptbl.addr ≠ 0 → sfdp_info.smptbl.size ≠ 0 →
      sfdp_parse_sector_map_table SFDP_SECTOR_MAP_MAX_REGIONS reader () sfdp_info = some r →
      r.ret = 0 →
      r.sfdp_info.smptbl.region_high_boundary[(r.sfdp_info.smptbl.region_cnt - 1).toNat]?
        = some (r.sfdp_info.bptbl.device_size_bytes - 1) := by
  intro h
  have hev : (sfdp_parse_sector_map_table 10 (table_reader (example_sector_map 0x03 0x00)) ()
      (example_map_info 16384 0x100 12 [4096, 32768, 65536, 1])).map
      (fun r => (r.ret, r.sfdp_info.smptbl.region_cnt, r.sfdp_info.bptbl.device_size_bytes,
        r.sfdp_info.smptbl.region_high_boundary[1]?))
      = some (0, 2, 16384, some 8191) := by decide
  rw [Option.map_eq_some'] at hev
  obtain ⟨r, hr, hpair⟩ := hev
  simp only [Prod.mk.injEq] at hpair
  obtain ⟨h1, h2, h3, h4⟩ := hpair
  have h5 := h 10 (table_reader (example_sector_map 0x03 0x00))
    (example_map_info 16384 0x100 12 [4096, 32768, 65536, 1]) r (by decide) (by decide) hr h1
  rw [h2, h3] at h5
  have h6 : ((2 : Int) - 1).toNat = 1 := by decide
  rw [h6, h4] at h5
  revert h5
  decide

/-- C26, amended: when the table is accepted, the declared size and the
record arrays hold the `byte2 + 1` regions and the region sizes sum to less
than 2^31, the decode succeeds with the device size unchanged and the last
region's high boundary is the sum of the decoded region sizes minus one:
`region_high_boundary[region_cnt - 1] == region_size[0] + ... +
region_size[region_cnt - 1] - 1`.  It equals `device_size_bytes - 1` exactly
when the region sizes of the table sum to the device size. -/
theorem parse_sector_map_table_last_boundary {σ : Type} (SFDP_SECTOR_MAP_MAX_REGIONS : Nat)
    (reader : sfdp_reader_fn σ) (s : σ) (sfdp_info : sfdp_hdr_info) (b2 : Nat)
    (hacc : sector_map_accepted reader s sfdp_info b2)
    (hmax : b2 + 1 ≤ SFDP_SECTOR_MAP_MAX_REGIONS)
    (hlen : (b2 + 2) * 4 ≤ sfdp_info.smptbl.size)
    (hrs : b2 + 1 ≤ sfdp_info.smptbl.region_size.length)
    (hbf : b2 + 1 ≤ sfdp_info.smptbl.region_erase_types_bitfld.length)
    (hhb : b2 + 1 ≤ sfdp_info.smptbl.region_high_boundary.length)
    (hsz : 4 ≤ sfdp_info.smptbl.erase_type_size_arr.length)
    (hsum : region_sizes_sum (sector_map_table_read reader s sfdp_info) (b2 + 1) < 2 ^ 31) :
    ∃ (r : sector_map_result σ) (hb : Nat),
      sfdp_parse_sector_map_table SFDP_SECTOR_MAP_MAX_REGIONS reader s sfdp_info = some r ∧
      r.ret = 0 ∧
      r.sfdp_info.bptbl.device_size_bytes = sfdp_info.bptbl.device_size_bytes ∧
      r.sfdp_info.smptbl.region_high_boundary[(r.sfdp_info.smptbl.region_cnt - 1).toNat]?
        = some hb ∧
      (hb : Int)
        = region_size_sum r.sfdp_info.smptbl r.sfdp_info.smptbl.region_cnt.toNat - 1 ∧
      ((hb : Int) = (r.sfdp_info.bptbl.device_size_bytes : Int) - 1 ↔
        region_size_sum r.sfdp_info.smptbl r.sfdp_info.smptbl.region_cnt.toNat
          = (r.sfdp_info.bptbl.device_size_bytes : Int)) := by
  obtain ⟨r, hr, hret, hc, hb, hent⟩ :=
    parse_sector_map_table_decodes SFDP_SECTOR_MAP_MAX_REGIONS reader s sfdp_info b2 hacc hmax
      hlen hrs hbf hhb hsz hsum
  have hsumeq := region_size_sum_eq r.sfdp_info.smptbl (sector_map_table_read reader s sfdp_info)
    (b2 + 1) (fun j hj => (hent j hj).1)
  have hpos := region_sizes_sum_pos (sector_map_table_read reader s sfdp_info) b2
  have h1 : (r.sfdp_info.smptbl.region_cnt - 1).toNat = b2 := by omega
  have h2 : r.sfdp_info.smptbl.region_cnt.toNat = b2 + 1 := by omega
  refine ⟨r, _, hr, hret, by rw [hb], by rw [h1]; exact (hent b2 (by omega)).2, ?_, ?_⟩
  · rw [h2, hsumeq]
    omega
  · rw [h2, hsumeq]
    omega

/-- Instance of the amended C26: on a device of 16384 bytes the table with
two regions of 4096 bytes is decoded to the last boundary 8191, the sum 8192
of the region sizes minus one. -/
theorem parse_sector_map_table_last_boundary_witness :
    sector_map_accepted (table_reader (example_sector_map 0x03 0x00)) ()
        (example_map_info 16384 0x100 12 [4096, 32768, 65536, 1]) 1 ∧
    ∃ (r : sector_map_result Unit) (hb : Nat),
      sfdp_parse_sector_map_table 10 (table_reader (example_sector_map 0x03 0x00)) ()
        (example_map_info 16384 0x100 12 [4096, 32768, 65536, 1]) = some r ∧
      r.ret = 0 ∧
      r.sfdp_info.smptbl.region_high_boundary[(r.sfdp_info.smptbl.region_cnt - 1).toNat]?
        = some hb ∧
      (hb : Int)
        = region_size_sum r.sfdp_info.smptbl r.sfdp_info.smptbl.region_cnt.toNat - 1 := by
  obtain ⟨r, hb, hr, hret, _, h1, h2, _⟩ := parse_sector_map_table_last_boundary 10
    (table_reader (example_sector_map 0x03 0x00)) ()
    (example_map_info 16384 0x100 12 [4096, 32768, 65536, 1]) 1 (by decide) (by decide)
    (by decide) (by decide) (by decide) (by decide) (by decide) (by decide)
  exact ⟨by decide, r, hb, hr, hret, h1, h2⟩

/-- C27 fails on the code: with the erase sizes 65536, 4096, 32768 and 1 for
the types 1 to 4 and two regions whose bitfields 0b0011 and 0b0111 have the
types 1 and 2 in common, the decode succeeds and leaves
`regions_min_common_erase_size == 65536`, the size of the lowest common
type, where the smallest size among the common types is 4096. -/
theorem parse_sector_map_table_common_size_not_minimum :
    (sfdp_parse_sector_map_table 10 (table_reader (example_sector_map 0x03 0x00)) ()
      (example_map_info 8192 0x100 12 [65536, 4096, 32768, 1])).map
      (fun r => (r.ret, common_erase_type_bits r.sfdp_info.smptbl,
        r.sfdp_info.smptbl.erase_type_size_arr,
        r.sfdp_info.smptbl.regions_min_common_erase_size,
        min_common_erase_size_reference (common_erase_type_bits r.sfdp_info.smptbl)
          r.sfdp_info.smptbl.erase_type_size_arr))
      = some (0, 0x03, [65536, 4096, 32768, 1], 65536, 4096) := by
  decide

/-- C28, as stated, fails: `sfdp_detect_device_density` reads the bytes 4..7
without looking at the table length, so on a Basic table of one DWORD (L =
4) it reads past the declared length. -/
theorem basic_table_decoders_read_past_short_table :
    ¬ ∀ (L : Nat) (bptbl_ptr : List Nat) (sfdp_info : sfdp_hdr_info),
      L % 4 = 0 → L ≤ 80 → bptbl_ptr.length = L → sfdp_info.bptbl.size = L →
      (sfdp_detect_device_density bptbl_ptr sfdp_info.bptbl).isSome = true ∧
      (sfdp_detect_page_size bptbl_ptr L).isSome = true ∧
      (sfdp_detect_erase_types_inst_and_size bptbl_ptr sfdp_info).isSome = true := by
  intro h
  have h1 := (h 4 example_short_basic_table (example_fresh_info 4) (by decide) (by decide)
    (by decide) (by decide)).1
  revert h1
  decide

/-- C28, amended: for every declared Basic table length `L` with `8 <= L <=
28` or `36 <= L`, on a table of exactly `L` bytes whose erase size exponents
are below 32 (when it has them) and a record with erase type arrays of 4
entries and a region 0, no read of `sfdp_detect_device_density`,
`sfdp_detect_page_size` and `sfdp_detect_erase_types_inst_and_size` is
outside the table: each of them returns a result. -/
theorem basic_table_decoders_read_in_bounds (L : Nat) (bptbl_ptr : List Nat)
    (sfdp_info : sfdp_hdr_info)
    (hL : (8 ≤ L ∧ L ≤ 28) ∨ 36 ≤ L)
    (hlen : bptbl_ptr.length = L) (hsize : sfdp_info.bptbl.size = L)
    (hexp : 36 ≤ L → ∀ j, j < 4 → bptbl_ptr.getD (28 + 2 * j) 0 < 32)
    (hinst_arr : sfdp_info.smptbl.erase_type_inst_arr.length = 4)
    (hsize_arr : sfdp_info.smptbl.erase_type_size_arr.length = 4)
    (hbitfld : 0 < sfdp_info.smptbl.region_erase_types_bitfld.length) :
    (sfdp_detect_device_density bptbl_ptr sfdp_info.bptbl).isSome = true ∧
    (sfdp_detect_page_size bptbl_ptr L).isSome = true ∧
    (sfdp_detect_erase_types_inst_and_size bptbl_ptr sfdp_info).isSome = true := by
  refine ⟨?_, ?_, ?_⟩
  · unfold sfdp_detect_device_density
    rw [getElem?_eq_some_getD bptbl_ptr 7 (by omega), getElem?_eq_some_getD bptbl_ptr 6 (by omega),
      getElem?_eq_some_getD bptbl_ptr 5 (by omega), getElem?_eq_some_getD bptbl_ptr 4 (by omega)]
    rfl
  · unfold sfdp_detect_page_size
    simp only
    by_cases h40 : L > 40
    · rw [if_pos h40, getElem?_eq_some_getD bptbl_ptr 40 (by omega)]
      rfl
    · rw [if_neg h40]
      rfl
  · by_cases h28 : L ≤ 28
    · rw [detect_erase_types_legacy_eq bptbl_ptr sfdp_info (bptbl_ptr.getD 1 0)
        (by omega) (getElem?_eq_some_getD bptbl_ptr 1 (by omega))]
      rfl
    · obtain ⟨info1, hloop, _⟩ :=
        erase_types_loop_arrays bptbl_ptr (by omega) (hexp (by omega)) 4 0 0x01 sfdp_info rfl
          hinst_arr hsize_arr hbitfld
      unfold sfdp_detect_erase_types_inst_and_size
      rw [if_pos (show sfdp_info.bptbl.size > SFDP_BASIC_PARAM_TABLE_ERASE_TYPE_1_SIZE_BYTE
        by rw [hsize]; unfold SFDP_BASIC_PARAM_TABLE_ERASE_TYPE_1_SIZE_BYTE; omega), hloop]
      rfl

/-- Instance of the amended C28: the three decoders on the example table of
64 bytes. -/
theorem basic_table_decoders_read_in_bounds_witness :
    (sfdp_detect_device_density
      (example_basic_table 0x20 0xF1 0x03FFFFFF example_erase_types 0x80)
      (example_fresh_info 64).bptbl).isSome = true ∧
    (sfdp_detect_page_size
      (example_basic_table 0x20 0xF1 0x03FFFFFF example_erase_types 0x80) 64).isSome = true ∧
    (sfdp_detect_erase_types_inst_and_size
      (example_basic_table 0x20 0xF1 0x03FFFFFF example_erase_types 0x80)
      (example_fresh_info 64)).isSome = true :=
  basic_table_decoders_read_in_bounds 64
    (example_basic_table 0x20 0xF1 0x03FFFFFF example_erase_types 0x80) (example_fresh_info 64)
    (by decide) (by decide) (by decide) (by decide) (by decide) (by decide) (by decide)

/-- The erase type loop of `sfdp_detect_erase_types_inst_and_size` on a table
of 32 bytes: the guard `bptbl.size > 28` lets it in, and it reads the bytes
32..35 of the erase types 3 and 4 outside the table. -/
theorem detect_erase_types_table_of_32_bytes :
    sfdp_detect_erase_types_inst_and_size
      ((example_basic_table 0x20 0xF1 0x03FFFFFF example_erase_types 0x80).take 32)
      (example_fresh_info 32) = none := by
  decide

/-- The load of a descriptor whose last byte lies outside the table has no
value. -/
theorem sector_map_dword_none_of_length (sector_map_table : List Nat) (off : Nat)
    (h : sector_map_table.length ≤ off + 3) :
    sector_map_dword sector_map_table off = none := by
  unfold sector_map_dword
  rw [List.getElem?_eq_none h]
  split
  · rename_i h3
    cases h3
  · rfl

/-- C29, as stated, fails: the code never compares the descriptors it reads
with the declared size.  On a table of one DWORD (S = 4) whose byte 2 is 5
the table is accepted, six regions are within the maximum of 10, the record
arrays hold them, and the decode loads the descriptor of region 0 from the
offsets 4..7, past the declared size: it reads bytes that the read did not
deliver, so the call has no result in the embedding. -/
theorem parse_sector_map_table_reads_past_declared_size :
    ¬ ∀ (SFDP_SECTOR_MAP_MAX_REGIONS : Nat) (reader : sfdp_reader_fn Unit)
      (sfdp_info : sfdp_hdr_info) (b2 : Nat),
      sector_map_accepted reader () sfdp_info b2 → b2 + 1 ≤ SFDP_SECTOR_MAP_MAX_REGIONS →
      b2 + 1 ≤ sfdp_info.smptbl.region_size.length →
      b2 + 1 ≤ sfdp_info.smptbl.region_erase_types_bitfld.length →
      b2 + 1 ≤ sfdp_info.smptbl.region_high_boundary.length →
      4 ≤ sfdp_info.smptbl.erase_type_size_arr.length →
      region_sizes_sum (sector_map_table_read reader () sfdp_info) (b2 + 1) < 2 ^ 31 →
      (sfdp_parse_sector_map_table SFDP_SECTOR_MAP_MAX_REGIONS reader () sfdp_info).isSome = true ∧
      ∀ i, i < b2 + 1 → (i + 1) * 4 + 3 < sfdp_info.smptbl.size := by
  intro h
  have h1 := (h 10 (table_reader example_short_sector_map)
    (example_map_info 8192 0x100 4 [4096, 32768, 65536, 1]) 5 (by decide) (by decide)
    (by decide) (by decide) (by decide) (by decide) (by decide)).1
  revert h1
  decide

/-- C29, amended: on an accepted table with `region_cnt = byte2 + 1` within
the maximum, the decode stays inside the declared size `S` exactly when `S >=
4 * (byte2 + 2)`.  If `S >= 4 * (byte2 + 2)` (record arrays that hold the
regions, region sizes that sum to less than 2^31), the call returns 0 and the
bytes `4(i+1) .. 4(i+1)+3` of every region `i < region_cnt` are below `S` and
are the ones the descriptor load reads.  If `S < 4 * (byte2 + 2)`, the
descriptor of the last region reaches the offset `S` or beyond, its load has
no value, and the call has no result: it reads bytes that the read did not
deliver. -/
theorem parse_sector_map_table_reads_in_bounds {σ : Type} (SFDP_SECTOR_MAP_MAX_REGIONS : Nat)
    (reader : sfdp_reader_fn σ) (s : σ) (sfdp_info : sfdp_hdr_info) (b2 : Nat)
    (hacc : sector_map_accepted reader s sfdp_info b2)
    (hmax : b2 + 1 ≤ SFDP_SECTOR_MAP_MAX_REGIONS) :
    ((b2 + 2) * 4 ≤ sfdp_info.smptbl.size →
      b2 + 1 ≤ sfdp_info.smptbl.region_size.length →
      b2 + 1 ≤ sfdp_info.smptbl.region_erase_types_bitfld.length →
      b2 + 1 ≤ sfdp_info.smptbl.region_high_boundary.length →
      4 ≤ sfdp_info.smptbl.erase_type_size_arr.length →
      region_sizes_sum (sector_map_table_read reader s sfdp_info) (b2 + 1) < 2 ^ 31 →
      (∃ r : sector_map_result σ,
        sfdp_parse_sector_map_table SFDP_SECTOR_MAP_MAX_REGIONS reader s sfdp_info = some r ∧
        r.ret = 0 ∧ r.sfdp_info.smptbl.region_cnt = (b2 : Int) + 1) ∧
      ∀ i, i < b2 + 1 →
        (i + 1) * 4 + 3 < sfdp_info.smptbl.size ∧
        sector_map_dword (sector_map_table_read reader s sfdp_info) ((i + 1) * 4)
          = some (region_descriptor_word (sector_map_table_read reader s sfdp_info) i)) ∧
    (sfdp_info.smptbl.size < (b2 + 2) * 4 →
      (sfdp_parse_sector_map_table SFDP_SECTOR_MAP_MAX_REGIONS reader s sfdp_info).isSome
        = false ∧
      sfdp_info.smptbl.size ≤ (b2 + 1) * 4 + 3 ∧
      sector_map_dword (sector_map_table_read reader s sfdp_info) ((b2 + 1) * 4) = none) := by
  have hl := sector_map_table_read_length reader s sfdp_info
  have hmap := parse_sector_map_table_accepted SFDP_SECTOR_MAP_MAX_REGIONS reader s sfdp_info
    b2 hacc
  constructor
  · intro hlen hrs hbf hhb hsz hsum
    obtain ⟨r, hr, hret, hc, _⟩ :=
      parse_sector_map_table_decodes SFDP_SECTOR_MAP_MAX_REGIONS reader s sfdp_info b2 hacc hmax
        hlen hrs hbf hhb hsz hsum
    refine ⟨⟨r, hr, hret, hc⟩, ?_⟩
    intro i hi
    have hb : (i + 1) * 4 + 3 < sfdp_info.smptbl.size := by
      have : (i + 1) * 4 ≤ (b2 + 1) * 4 := Nat.mul_le_mul_right 4 (by omega)
      omega
    exact ⟨hb, sector_map_dword_of_length _ i (by rw [hl]; exact hb)⟩
  · intro hshort
    refine ⟨?_, by omega, sector_map_dword_none_of_length _ _ (by rw [hl]; omega)⟩
    cases hres : sfdp_parse_sector_map_table SFDP_SECTOR_MAP_MAX_REGIONS reader s sfdp_info with
    | none => rfl
    | some r =>
      exfalso
      rw [hres] at hmap
      simp only [Option.map_some'] at hmap
      obtain ⟨_, hor, hiff, _⟩ := sector_map_decode_regions_result SFDP_SECTOR_MAP_MAX_REGIONS
        _ _ b2 hacc.2.2.2.2.2.2.1 r.ret r.sfdp_info hmap.symm
      rcases hor with hneg | hzero
      · have := hiff.1 hneg
        omega
      · rw [hzero] at hmap
        obtain ⟨_, bits, smptbl2, m, hloop, _⟩ :=
          sector_map_decode_regions_success SFDP_SECTOR_MAP_MAX_REGIONS _ _ b2
            hacc.2.2.2.2.2.2.1 _ hmap.symm
        obtain ⟨_, hent⟩ := sector_map_regions_loop_entries _ _ _ _ _ _ _ _ hloop
        obtain ⟨h1, _⟩ := hent b2 (by omega) (by omega)
        rw [hl] at h1
        omega

/-- Instances of the amended C29: the table of 12 bytes with two regions is
decoded and both descriptors are read inside the declared size; on the table
of one DWORD whose byte 2 announces six regions the call has no result. -/
theorem parse_sector_map_table_reads_in_bounds_witness :
    (sector_map_accepted (table_reader (example_sector_map 0x03 0x00)) ()
        (example_map_info 8192 0x100 12 [4096, 32768, 65536, 1]) 1 ∧
      ∃ r : sector_map_result Unit,
        sfdp_parse_sector_map_table 10 (table_reader (example_sector_map 0x03 0x00)) ()
          (example_map_info 8192 0x100 12 [4096, 32768, 65536, 1]) = some r ∧
        r.ret = 0 ∧ r.sfdp_info.smptbl.region_cnt = ((1 : Nat) : Int) + 1) ∧
    (sector_map_accepted (table_reader example_short_sector_map) ()
        (example_map_info 8192 0x100 4 [4096, 32768, 65536, 1]) 5 ∧
      (sfdp_parse_sector_map_table 10 (table_reader example_short_sector_map) ()
        (example_map_info 8192 0x100 4 [4096, 32768, 65536, 1])).isSome = false) :=
  ⟨⟨by decide,
      ((parse_sector_map_table_reads_in_bounds 10 (table_reader (example_sector_map 0x03 0x00))
        () (example_map_info 8192 0x100 12 [4096, 32768, 65536, 1]) 1 (by decide)
        (by decide)).1 (by decide) (by decide) (by decide) (by decide) (by decide)
        (by decide)).1⟩,
    ⟨by decide,
      ((parse_sector_map_table_reads_in_bounds 10 (table_reader example_short_sector_map) ()
        (example_map_info 8192 0x100 4 [4096, 32768, 65536, 1]) 5 (by decide)
        (by decide)).2 (by decide)).1⟩⟩

/-- When the first two assignments of `sfdp_parse_sector_map_table` are
inside the arrays, the record after them is `single_region_info`. -/
theorem sector_map_single_region_some (sfdp_info sfdp_info0 : sfdp_hdr_info)
    (h : sector_map_single_region sfdp_info = some sfdp_info0) :
    0 < sfdp_info.smptbl.region_size.length ∧
    0 < sfdp_info.smptbl.region_high_boundary.length ∧
    sfdp_info0 = single_region_info sfdp_info := by
  by_cases hrs : 0 < sfdp_info.smptbl.region_size.length
  · by_cases hhb : 0 < sfdp_info.smptbl.region_high_boundary.length
    · rw [sector_map_single_region_eq sfdp_info hrs hhb] at h
      exact ⟨hrs, hhb, (Option.some.inj h).symm⟩
    · unfold sector_map_single_region array_write at h
      simp only [if_pos hrs, if_neg hhb] at h
      cases h
  · unfold sector_map_single_region array_write at h
    simp only [if_neg hrs] at h
    cases h

/-- C30, as stated, fails: `region_size[0]` and `region_high_boundary[0]` are
assigned before anything can fail.  With a reader that fails, on a record
whose `region_size[0]` is 0 and whose device size is 8192, the call returns
-1 and leaves `region_size[0] == 8192`. -/
theorem parse_sector_map_table_failure_modifies_record :
    ¬ ∀ (SFDP_SECTOR_MAP_MAX_REGIONS : Nat) (reader : sfdp_reader_fn Unit)
      (sfdp_info : sfdp_hdr_info) (r : sector_map_result Unit),
      sfdp_parse_sector_map_table SFDP_SECTOR_MAP_MAX_REGIONS reader () sfdp_info = some r →
      r.ret = -1 → r.sfdp_info = sfdp_info := by
  intro h
  have hev : (sfdp_parse_sector_map_table 10 broken_reader ()
      (example_map_info 8192 0x100 12 [4096, 32768, 65536, 1])).map
      (fun r => (r.ret, r.sfdp_info.smptbl.region_size[0]?)) = some (-1, some 8192) := by decide
  rw [Option.map_eq_some'] at hev
  obtain ⟨r, hr, hpair⟩ := hev
  simp only [Prod.mk.injEq] at hpair
  obtain ⟨h1, h2⟩ := hpair
  have h3 := h 10 broken_reader (example_map_info 8192 0x100 12 [4096, 32768, 65536, 1]) r hr h1
  rw [h3] at h2
  revert h2
  decide

/-- C30, amended: whenever `sfdp_parse_sector_map_table` fails (returns -1),
the record left behind is the record passed in but for `region_size[0]` and
`region_high_boundary[0]`, which hold the single region sized the entire
device, and, when the failure is that of too many regions, for `region_cnt`,
which holds `byte2 + 1`; no other field has been modified. -/
theorem parse_sector_map_table_failure_record {σ : Type} (SFDP_SECTOR_MAP_MAX_REGIONS : Nat)
    (reader : sfdp_reader_fn σ) (s : σ) (sfdp_info : sfdp_hdr_info) (r : sector_map_result σ)
    (hres : sfdp_parse_sector_map_table SFDP_SECTOR_MAP_MAX_REGIONS reader s sfdp_info = some r)
    (hret : r.ret = -1) :
    r.sfdp_info = single_region_info sfdp_info ∨
    ∃ b2 : Nat, (sector_map_table_read reader s sfdp_info)[2]? = some b2 ∧
      b2 + 1 > SFDP_SECTOR_MAP_MAX_REGIONS ∧
      r.sfdp_info = { single_region_info sfdp_info with
        smptbl := { (single_region_info sfdp_info).smptbl with
          region_cnt := (b2 : Int) + 1 } } := by
  cases h0 : sector_map_single_region sfdp_info with
  | none =>
    unfold sfdp_parse_sector_map_table at hres
    rw [h0] at hres
    cases hres
  | some sfdp_info0 =>
    obtain ⟨hrs, hhb, hinfo0⟩ := sector_map_single_region_some sfdp_info sfdp_info0 h0
    by_cases hnone : sfdp_info.smptbl.addr = 0 ∨ sfdp_info.smptbl.size = 0
    · unfold sfdp_parse_sector_map_table at hres
      rw [h0] at hres
      subst hinfo0
      simp only at hres
      rw [if_pos (show (single_region_info sfdp_info).smptbl.addr = 0 ∨
        (single_region_info sfdp_info).smptbl.size = 0 from hnone)] at hres
      have h1 := congrArg sector_map_result.ret (Option.some.inj hres)
      rw [hret] at h1
      cases h1
    · have haddr : sfdp_info.smptbl.addr ≠ 0 := fun h => hnone (Or.inl h)
      have hsize : sfdp_info.smptbl.size ≠ 0 := fun h => hnone (Or.inr h)
      by_cases hbuf : sfdp_info.smptbl.size > SFDP_BASIC_PARAMS_TBL_SIZE
      · unfold sfdp_parse_sector_map_table at hres
        rw [h0] at hres
        subst hinfo0
        simp only at hres
        rw [if_neg (show ¬ ((single_region_info sfdp_info).smptbl.addr = 0 ∨
          (single_region_info sfdp_info).smptbl.size = 0) from hnone),
          if_pos (show (single_region_info sfdp_info).smptbl.size > SFDP_BASIC_PARAMS_TBL_SIZE
            from hbuf)] at hres
        cases hres
      · by_cases hstatus : (reader s sfdp_info.smptbl.addr sfdp_info.smptbl.size).2.status < 0
        · unfold sfdp_parse_sector_map_table at hres
          rw [h0] at hres
          subst hinfo0
          simp only at hres
          rw [if_neg (show ¬ ((single_region_info sfdp_info).smptbl.addr = 0 ∨
            (single_region_info sfdp_info).smptbl.size = 0) from hnone),
            if_neg (show ¬ (single_region_info sfdp_info).smptbl.size
              > SFDP_BASIC_PARAMS_TBL_SIZE from hbuf),
            if_pos (show (reader s (single_region_info sfdp_info).smptbl.addr
              (single_region_info sfdp_info).smptbl.size).2.status < 0 from hstatus)] at hres
          exact Or.inl (congrArg sector_map_result.sfdp_info (Option.some.inj hres)).symm
        · rw [parse_sector_map_table_eq_decode SFDP_SECTOR_MAP_MAX_REGIONS reader s sfdp_info
            hrs hhb haddr hsize (not_lt.1 hbuf) (not_lt.1 hstatus), Option.map_eq_some'] at hres
          obtain ⟨p, hp, hr⟩ := hres
          have hp1 : p.1 = -1 := by rw [← hret, ← hr]
          have hp2 : r.sfdp_info = p.2 := by rw [← hr]
          rw [hp2]
          unfold sector_map_decode at hp
          split at hp
          · cases hp
          · left
            rw [← Option.some.inj hp]
          · cases h2 : (sector_map_table_read reader s sfdp_info)[2]? with
            | none =>
              unfold sector_map_decode_regions at hp
              rw [h2] at hp
              cases hp
            | some b2 =>
              right
              obtain ⟨_, _, hiff, hrec, _⟩ :=
                sector_map_decode_regions_result SFDP_SECTOR_MAP_MAX_REGIONS _ _ b2 h2 p.1 p.2 hp
              exact ⟨b2, rfl, hiff.1 hp1, hrec hp1⟩

/-- Instance of the amended C30: with a reader that fails, the record left
behind is the record passed in with the single region sized the entire
device. -/
theorem parse_sector_map_table_failure_record_witness :
    ∃ r : sector_map_result Unit,
      sfdp_parse_sector_map_table 10 broken_reader ()
        (example_map_info 8192 0x100 12 [4096, 32768, 65536, 1]) = some r ∧
      r.ret = -1 ∧
      (r.sfdp_info = single_region_info (example_map_info 8192 0x100 12 [4096, 32768, 65536, 1]) ∨
        ∃ b2 : Nat, (sector_map_table_read broken_reader ()
            (example_map_info 8192 0x100 12 [4096, 32768, 65536, 1]))[2]? = some b2 ∧
          b2 + 1 > 10 ∧
          r.sfdp_info = { single_region_info
              (example_map_info 8192 0x100 12 [4096, 32768, 65536, 1]) with
            smptbl := { (single_region_info
                (example_map_info 8192 0x100 12 [4096, 32768, 65536, 1])).smptbl with
              region_cnt := (b2 : Int) + 1 } }) := by
  have hev : (sfdp_parse_sector_map_table 10 broken_reader ()
      (example_map_info 8192 0x100 12 [4096, 32768, 65536, 1])).map (fun r => r.ret)
      = some (-1) := by decide
  rw [Option.map_eq_some'] at hev
  obtain ⟨r, hr, hret⟩ := hev
  exact ⟨r, hr, hret, parse_sector_map_table_failure_record 10 broken_reader ()
    (example_map_info 8192 0x100 12 [4096, 32768, 65536, 1]) r hr hret⟩

/-! ## The working bitfield of the erase type selector -/

theorem foldl_and_testBit (l : List Nat) :
    ∀ (init j : Nat), (l.foldl (fun a b => a &&& b) init).testBit j = true →
      init.testBit j = true := by
  induction l with
  | nil =>
    intro init j h
    exact h
  | cons x xs ih =>
    intro init j h
    have h1 := ih (init &&& x) j h
    rw [Nat.testBit_and, Bool.and_eq_true] at h1
    exact h1.1

/-- The loop over the regions leaves in `min_common_erase_type_bits` the AND
of its initial value with the bitfields stored for the regions it decoded. -/
theorem sector_map_regions_loop_bits (sector_map_table : List Nat) :
    ∀ (k i_ind : Nat) (prev_boundary : Int) (bits : Nat) (smptbl : sfdp_smptbl_info)
      (bits1 : Nat) (smptbl1 : sfdp_smptbl_info),
      sector_map_regions_loop sector_map_table k i_ind prev_boundary bits smptbl
        = some (bits1, smptbl1) →
      bits1 = ((List.range' i_ind k).map
        (fun i => smptbl1.region_erase_types_bitfld.getD i 0)).foldl (fun a b => a &&& b) bits := by
  intro k
  induction k with
  | zero =>
    intro i_ind prev_boundary bits smptbl bits1 smptbl1 h
    simp only [sector_map_regions_loop, Option.some.injEq, Prod.mk.injEq] at h
    rw [← h.1]
    rfl
  | succ k ih =>
    intro i_ind prev_boundary bits smptbl bits1 smptbl1 h
    rw [sector_map_regions_loop] at h
    split at h
    · rename_i d b hd hb
      simp only at h
      split at h
      · cases h
      · split at h
        · rename_i rs1 bf1 hb1 hw1 hw2 hw3
          obtain ⟨l2, e2⟩ := array_write_eq_some _ _ _ _ hw2
          have hbits := ih _ _ _ _ _ _ h
          obtain ⟨hkeep, _⟩ := sector_map_regions_loop_entries _ _ _ _ _ _ _ _ h
          obtain ⟨_, a2, _⟩ := hkeep i_ind (by omega)
          simp only at a2
          rw [e2, List.getElem?_set_self l2] at a2
          have hget : smptbl1.region_erase_types_bitfld.getD i_ind 0 = b &&& 0x0F := by
            rw [List.getD_eq_getElem?_getD, a2]
            rfl
          rw [List.range'_succ, List.map_cons, List.foldl_cons, hget]
          exact hbits
        · cases h
    · cases h

/-- The loop that picks the common erase size stops at the lowest set bit of
`min_common_erase_type_bits` and stores the size of that type; with no bit
set among the types 1 to 4 it runs to `i_ind == 4` and stores nothing. -/
theorem common_erase_size_loop_lowest (bits : Nat) :
    ∀ (k i_ind type_mask : Nat) (smptbl : sfdp_smptbl_info) (i1 : Nat)
      (smptbl1 : sfdp_smptbl_info),
      i_ind + k = 4 → type_mask = 2 ^ i_ind → (∀ j, j < i_ind → bits.testBit j = false) →
      common_erase_size_loop bits k i_ind type_mask smptbl = some (i1, smptbl1) →
      (i1 = 4 ∧ smptbl1 = smptbl ∧ ∀ j, j < 4 → bits.testBit j = false) ∨
      (i1 < 4 ∧ bits.testBit i1 = true ∧ (∀ j, j < i1 → bits.testBit j = false) ∧
        ∃ sz, smptbl.erase_type_size_arr[i1]? = some sz ∧
          smptbl1 = { smptbl with regions_min_common_erase_size := sz }) := by
  intro k
  induction k with
  | zero =>
    intro i_ind type_mask smptbl i1 smptbl1 hik _ hlow h
    simp only [common_erase_size_loop, Option.some.injEq, Prod.mk.injEq] at h
    obtain ⟨h1, h2⟩ := h
    subst h1 h2
    exact Or.inl ⟨by omega, rfl, fun j hj => hlow j (by omega)⟩
  | succ k ih =>
    intro i_ind type_mask smptbl i1 smptbl1 hik hmask hlow h
    subst hmask
    rw [common_erase_size_loop] at h
    split at h
    · rename_i hbit
      split at h
      · cases h
      · rename_i sz hsz
        simp only [Option.some.injEq, Prod.mk.injEq] at h
        obtain ⟨h1, h2⟩ := h
        subst h1 h2
        exact Or.inr ⟨by omega, (and_two_pow_ne_zero_iff bits i_ind).1 hbit, hlow, sz, hsz, rfl⟩
    · rename_i hbit
      have hunset : bits.testBit i_ind = false := by
        by_contra hne
        exact hbit ((and_two_pow_ne_zero_iff bits i_ind).2 (by simpa using hne))
      have hshift : (2 ^ i_ind <<< 1) % 2 ^ 8 = 2 ^ (i_ind + 1) := by
        rw [Nat.shiftLeft_eq, pow_succ]
        have hi : i_ind ≤ 3 := by omega
        interval_cases i_ind <;> rfl
      refine ih (i_ind + 1) _ smptbl i1 smptbl1 (by omega) hshift ?_ h
      intro j hj
      by_cases hji : j = i_ind
      · rw [hji]
        exact hunset
      · exact hlow j (by omega)

/-- A successful `sector_map_decode_regions` ran both loops: the record is
the one left by the loop over the regions, with the common erase size picked
by the second loop, or 0 when that loop ended with `i_ind == 4`. -/
theorem sector_map_decode_regions_common (SFDP_SECTOR_MAP_MAX_REGIONS : Nat)
    (sector_map_table : List Nat) (sfdp_info : sfdp_hdr_info) (b2 : Nat)
    (h2 : sector_map_table[2]? = some b2) (sfdp_info1 : sfdp_hdr_info)
    (h : sector_map_decode_regions SFDP_SECTOR_MAP_MAX_REGIONS sector_map_table sfdp_info
      = some (0, sfdp_info1)) :
    ∃ (bits : Nat) (smptbl2 : sfdp_smptbl_info) (i1 : Nat) (smptbl3 : sfdp_smptbl_info),
      sector_map_regions_loop sector_map_table (b2 + 1) 0 0 SFDP_ERASE_BITMASK_ALL
        { sfdp_info.smptbl with region_cnt := (b2 : Int) + 1 } = some (bits, smptbl2) ∧
      common_erase_size_loop bits 4 0 SFDP_ERASE_BITMASK_TYPE1 smptbl2 = some (i1, smptbl3) ∧
      sfdp_info1.smptbl
        = (if i1 = 4 then { smptbl3 with regions_min_common_erase_size := 0 } else smptbl3) := by
  unfold sector_map_decode_regions at h
  rw [h2] at h
  simp only at h
  by_cases hmax : (b2 : Int) + 1 > (SFDP_SECTOR_MAP_MAX_REGIONS : Int)
  · rw [if_pos hmax] at h
    simp only [Option.some.injEq, Prod.mk.injEq] at h
    omega
  · rw [if_neg hmax] at h
    have hcnt : ((b2 : Int) + 1).toNat = b2 + 1 := by omega
    rw [hcnt] at h
    split at h
    · cases h
    · rename_i bits smptbl2 hloop
      split at h
      · cases h
      · rename_i i1 smptbl3 hcommon
        simp only [Option.some.injEq, Prod.mk.injEq, true_and] at h
        exact ⟨bits, smptbl2, i1, smptbl3, hloop, hcommon, by rw [← h]⟩

/-- C31: on an accepted sector-map table, after every successful decode,
with `m` the AND of 0x0F with `region_erase_types_bitfld[i]` for all `i <
region_cnt`: if `m != 0`, `regions_min_common_erase_size` is
`erase_type_size_arr[k]` for the lowest set bit `k` of `m`, and if `m == 0`
it is 0.  The status does not depend on `m`: every result with a region count
within the maximum has status 0, and the call does return when the declared
size and the record arrays hold the regions and the region sizes sum to less
than 2^31. -/
theorem parse_sector_map_table_common_erase_type {σ : Type}
    (SFDP_SECTOR_MAP_MAX_REGIONS : Nat) (reader : sfdp_reader_fn σ) (s : σ)
    (sfdp_info : sfdp_hdr_info) (b2 : Nat)
    (hacc : sector_map_accepted reader s sfdp_info b2) :
    (∀ r : sector_map_result σ,
      sfdp_parse_sector_map_table SFDP_SECTOR_MAP_MAX_REGIONS reader s sfdp_info = some r →
      r.ret = 0 →
      (common_erase_type_bits r.sfdp_info.smptbl ≠ 0 →
        ∃ k sz : Nat, k < 4 ∧ (common_erase_type_bits r.sfdp_info.smptbl).testBit k = true ∧
          (∀ j, j < k → (common_erase_type_bits r.sfdp_info.smptbl).testBit j = false) ∧
          r.sfdp_info.smptbl.erase_type_size_arr[k]? = some sz ∧
          r.sfdp_info.smptbl.regions_min_common_erase_size = sz) ∧
      (common_erase_type_bits r.sfdp_info.smptbl = 0 →
        r.sfdp_info.smptbl.regions_min_common_erase_size = 0)) ∧
    (∀ r : sector_map_result σ,
      sfdp_parse_sector_map_table SFDP_SECTOR_MAP_MAX_REGIONS reader s sfdp_info = some r →
      b2 + 1 ≤ SFDP_SECTOR_MAP_MAX_REGIONS → r.ret = 0) ∧
    (b2 + 1 ≤ SFDP_SECTOR_MAP_MAX_REGIONS → (b2 + 2) * 4 ≤ sfdp_info.smptbl.size →
      b2 + 1 ≤ sfdp_info.smptbl.region_size.length →
      b2 + 1 ≤ sfdp_info.smptbl.region_erase_types_bitfld.length →
      b2 + 1 ≤ sfdp_info.smptbl.region_high_boundary.length →
      4 ≤ sfdp_info.smptbl.erase_type_size_arr.length →
      region_sizes_sum (sector_map_table_read reader s sfdp_info) (b2 + 1) < 2 ^ 31 →
      ∃ r : sector_map_result σ,
        sfdp_parse_sector_map_table SFDP_SECTOR_MAP_MAX_REGIONS reader s sfdp_info = some r ∧
        r.ret = 0) := by
  have hmap := parse_sector_map_table_accepted SFDP_SECTOR_MAP_MAX_REGIONS reader s sfdp_info b2
    hacc
  refine ⟨?_, ?_, ?_⟩
  · intro r hres hret
    rw [hres] at hmap
    simp only [Option.map_some', hret] at hmap
    obtain ⟨bits, smptbl2, i1, smptbl3, hloop, hcommon, hrec⟩ :=
      sector_map_decode_regions_common SFDP_SECTOR_MAP_MAX_REGIONS _ _ b2 hacc.2.2.2.2.2.2.1 _
        hmap.symm
    obtain ⟨_, _, hc, _, _, _, _, _, _⟩ := sector_map_regions_loop_frame _ _ _ _ _ _ _ _ hloop
    simp only at hc
    have hbits := sector_map_regions_loop_bits _ _ _ _ _ _ _ _ hloop
    obtain ⟨_, m, hm3⟩ := common_erase_size_loop_frame _ _ _ _ _ _ _ hcommon
    have hrc : r.sfdp_info.smptbl.region_cnt = (b2 : Int) + 1 ∧
        r.sfdp_info.smptbl.region_erase_types_bitfld = smptbl2.region_erase_types_bitfld := by
      rw [hrec, hm3]
      split <;> exact ⟨hc, rfl⟩
    have hcbits : common_erase_type_bits r.sfdp_info.smptbl = bits := by
      unfold common_erase_type_bits
      have hn : ((b2 : Int) + 1).toNat = b2 + 1 := by omega
      rw [hrc.1, hrc.2, hn, List.range_eq_range']
      exact hbits.symm
    have hlt4 : ∀ j, bits.testBit j = true → j < 4 := by
      intro j hj
      rw [hbits] at hj
      have h1 := foldl_and_testBit _ _ _ hj
      have h15 : SFDP_ERASE_BITMASK_ALL = 2 ^ 4 - 1 := by decide
      rw [h15, Nat.testBit_two_pow_sub_one] at h1
      simpa using h1
    rw [hcbits]
    rcases common_erase_size_loop_lowest bits 4 0 SFDP_ERASE_BITMASK_TYPE1 smptbl2 i1 smptbl3
      rfl rfl (fun j hj => by omega) hcommon with ⟨hi4, h3, hnone⟩ | ⟨hi4, hbit, hlow, sz, hsz, h3⟩
    · have hzero : bits = 0 := by
        apply Nat.eq_of_testBit_eq
        intro j
        rw [Nat.zero_testBit]
        by_contra hne
        have hj : bits.testBit j = true := by simpa using hne
        rw [hnone j (hlt4 j hj)] at hj
        cases hj
      refine ⟨fun hne => absurd hzero hne, fun _ => ?_⟩
      rw [hrec, if_pos hi4]
    · have hne4 : ¬ i1 = 4 := by omega
      have hfinal : r.sfdp_info.smptbl = { smptbl2 with regions_min_common_erase_size := sz } := by
        rw [hrec, if_neg hne4, h3]
      refine ⟨fun _ => ⟨i1, sz, hi4, hbit, hlow, by rw [hfinal]; exact hsz, by rw [hfinal]⟩, ?_⟩
      intro hz
      rw [hz, Nat.zero_testBit] at hbit
      cases hbit
  · intro r hres hmax
    rw [hres] at hmap
    simp only [Option.map_some'] at hmap
    obtain ⟨_, hor, hiff, _⟩ := sector_map_decode_regions_result SFDP_SECTOR_MAP_MAX_REGIONS
      _ _ b2 hacc.2.2.2.2.2.2.1 r.ret r.sfdp_info hmap.symm
    rcases hor with h | h
    · have := hiff.1 h
      omega
    · exact h
  · intro hmax hlen hrs hbf hhb hsz hsum
    obtain ⟨r, hr, hret, _⟩ :=
      parse_sector_map_table_decodes SFDP_SECTOR_MAP_MAX_REGIONS reader s sfdp_info b2 hacc hmax
        hlen hrs hbf hhb hsz hsum
    exact ⟨r, hr, hret⟩

/-- Instances of C31.  Two regions with the bitfields 0b0001 and 0b0010 have
no type in common: the decode returns 0 with `regions_min_common_erase_size
== 0`.  Two regions with the bitfields 0b0011 and 0b0111 have the types 1 and
2 in common: the size of type 1 is stored. -/
theorem parse_sector_map_table_common_erase_type_witness :
    sector_map_accepted (table_reader example_sector_map_disjoint) ()
      (example_map_info 8192 0x100 12 [4096, 32768, 65536, 1]) 1 ∧
    (∃ r : sector_map_result Unit,
      sfdp_parse_sector_map_table 10 (table_reader example_sector_map_disjoint) ()
        (example_map_info 8192 0x100 12 [4096, 32768, 65536, 1]) = some r ∧
      r.ret = 0 ∧ common_erase_type_bits r.sfdp_info.smptbl = 0 ∧
      r.sfdp_info.smptbl.regions_min_common_erase_size = 0) ∧
    (sfdp_parse_sector_map_table 10 (table_reader (example_sector_map 0x03 0x00)) ()
        (example_map_info 8192 0x100 12 [4096, 32768, 65536, 1])).map
      (fun r => (r.ret, common_erase_type_bits r.sfdp_info.smptbl,
        r.sfdp_info.smptbl.regions_min_common_erase_size)) = some (0, 0x03, 4096) := by
  have hev : (sfdp_parse_sector_map_table 10 (table_reader example_sector_map_disjoint) ()
      (example_map_info 8192 0x100 12 [4096, 32768, 65536, 1])).map
      (fun r => (r.ret, common_erase_type_bits r.sfdp_info.smptbl)) = some (0, 0) := by decide
  rw [Option.map_eq_some'] at hev
  obtain ⟨r, hr, hpair⟩ := hev
  simp only [Prod.mk.injEq] at hpair
  exact ⟨by decide, ⟨r, hr, hpair.1, hpair.2,
    ((parse_sector_map_table_common_erase_type 10 (table_reader example_sector_map_disjoint) ()
      (example_map_info 8192 0x100 12 [4096, 32768, 65536, 1]) 1 (by decide)).1 r hr
      hpair.1).2 hpair.2⟩, by decide⟩

/-! ## The defaults left by the erase type decoder -/

theorem set_zero_of_getElem? {α : Type} (l : List α) (b : α) (h : l[0]? = some b) :
    l.set 0 b = l := by
  cases l with
  | nil => rfl
  | cons x xs =>
    simp only [List.getElem?_cons_zero, Option.some.injEq] at h
    rw [h]
    rfl

theorem shiftLeft_one_mask (i : Nat) (hi : i < 4) : (2 ^ i <<< 1) % 2 ^ 8 = 2 ^ (i + 1) := by
  rw [Nat.shiftLeft_eq, pow_succ]
  interval_cases i <;> rfl

/-- Folding `min_erase_size_step` over a list of sizes: the result is the
initial value or an implemented size of the list, it is at most every
implemented size of the list and not 0 when there is one, and it is at most
an initial value that is not 0. -/
theorem foldl_min_erase_size_step (l : List Nat) :
    ∀ m0 : Nat,
      (l.foldl min_erase_size_step m0 = m0 ∨
        (l.foldl min_erase_size_step m0 ∈ l ∧ l.foldl min_erase_size_step m0 > 1)) ∧
      (∀ sz ∈ l, sz > 1 →
        l.foldl min_erase_size_step m0 ≤ sz ∧ l.foldl min_erase_size_step m0 ≠ 0) ∧
      (m0 ≠ 0 → l.foldl min_erase_size_step m0 ≤ m0 ∧ l.foldl min_erase_size_step m0 ≠ 0) := by
  induction l with
  | nil =>
    intro m0
    exact ⟨Or.inl rfl, fun sz hsz _ => absurd hsz (List.not_mem_nil sz),
      fun h => ⟨le_refl _, h⟩⟩
  | cons x xs ih =>
    intro m0
    obtain ⟨h1, h2, h3⟩ := ih (min_erase_size_step m0 x)
    rw [List.foldl_cons]
    have hstep : (min_erase_size_step m0 x = m0 ∨ (min_erase_size_step m0 x = x ∧ x > 1)) ∧
        (x > 1 → min_erase_size_step m0 x ≤ x ∧ min_erase_size_step m0 x ≠ 0) ∧
        (m0 ≠ 0 → min_erase_size_step m0 x ≤ m0 ∧ min_erase_size_step m0 x ≠ 0) := by
      unfold min_erase_size_step
      split_ifs <;> omega
    obtain ⟨s1, s2, s3⟩ := hstep
    refine ⟨?_, ?_, ?_⟩
    · rcases h1 with h | ⟨h, hgt⟩
      · rcases s1 with s | ⟨s, sgt⟩
        · exact Or.inl (h.trans s)
        · exact Or.inr ⟨by rw [h, s]; exact List.mem_cons_self _ _, by rw [h, s]; exact sgt⟩
      · exact Or.inr ⟨List.mem_cons_of_mem _ h, hgt⟩
    · intro sz hsz hgt
      rcases List.mem_cons.1 hsz with h | h
      · subst h
        obtain ⟨a, b⟩ := s2 hgt
        obtain ⟨c, d⟩ := h3 b
        exact ⟨le_trans c a, d⟩
      · exact h2 sz h hgt
    · intro hm0
      obtain ⟨a, b⟩ := s3 hm0
      obtain ⟨c, d⟩ := h3 b
      exact ⟨le_trans c a, d⟩

/-- One iteration of the loop over the erase types, on a table that holds
the size exponent (below 32) and the instruction of type `i_ind`: the arrays
keep their lengths, `regions_min_common_erase_size` is updated by
`min_erase_size_step`, and the mask is added to `region_erase_types_bitfld[0]`
when the type is implemented. -/
theorem erase_type_iteration_defaults (bptbl_ptr : List Nat) (i_ind bitfield : Nat)
    (sfdp_info : sfdp_hdr_info) (b0 : Nat) (hlen : 36 ≤ bptbl_ptr.length) (hi : i_ind < 4)
    (hn32 : bptbl_ptr.getD (28 + 2 * i_ind) 0 < 32)
    (hinst : sfdp_info.smptbl.erase_type_inst_arr.length = 4)
    (hsize : sfdp_info.smptbl.erase_type_size_arr.length = 4)
    (hb0 : sfdp_info.smptbl.region_erase_types_bitfld[0]? = some b0) :
    ∃ sfdp_info1 : sfdp_hdr_info,
      erase_type_iteration bptbl_ptr i_ind bitfield sfdp_info = some sfdp_info1 ∧
      sfdp_info1.smptbl.erase_type_inst_arr.length = 4 ∧
      sfdp_info1.smptbl.erase_type_size_arr.length = 4 ∧
      sfdp_info1.smptbl.regions_min_common_erase_size
        = min_erase_size_step sfdp_info.smptbl.regions_min_common_erase_size
            (2 ^ bptbl_ptr.getD (28 + 2 * i_ind) 0) ∧
      sfdp_info1.smptbl.region_erase_types_bitfld
        = sfdp_info.smptbl.region_erase_types_bitfld.set 0
            (if 2 ^ bptbl_ptr.getD (28 + 2 * i_ind) 0 > 1 then (b0 ||| bitfield) % 2 ^ 8
              else b0) := by
  have hstep := erase_type_iteration_eq bptbl_ptr i_ind bitfield sfdp_info
    (bptbl_ptr.getD (28 + 2 * i_ind) 0) (bptbl_ptr.getD (29 + 2 * i_ind) 0) b0
    (by omega) (by omega)
    (getElem?_eq_some_getD bptbl_ptr _ (by omega)) hn32
    (getElem?_eq_some_getD bptbl_ptr _ (by omega)) hb0
  refine ⟨_, hstep, ?_⟩
  by_cases hgt : 2 ^ bptbl_ptr.getD (28 + 2 * i_ind) 0 > 1
  · simp only [if_pos hgt, List.length_set, min_erase_size_step]
    exact ⟨hinst, hsize, trivial, trivial⟩
  · simp only [if_neg hgt, List.length_set, min_erase_size_step]
    exact ⟨hinst, hsize, trivial, (set_zero_of_getElem? _ _ hb0).symm⟩

/-- The loop over the erase types, on a table of at least 36 bytes whose
size exponents are below 32: `regions_min_common_erase_size` is folded with
`min_erase_size_step` over the decoded sizes, and only entry 0 of
`region_erase_types_bitfld` changes: the bit of every implemented type is
set in it. -/
theorem erase_types_loop_defaults (bptbl_ptr : List Nat) (hlen : 36 ≤ bptbl_ptr.length)
    (hexp : ∀ j, j < 4 → bptbl_ptr.getD (28 + 2 * j) 0 < 32) :
    ∀ (k i_ind bitfield : Nat) (sfdp_info : sfdp_hdr_info) (b0 : Nat), i_ind + k = 4 →
      bitfield = 2 ^ i_ind →
      sfdp_info.smptbl.erase_type_inst_arr.length = 4 →
      sfdp_info.smptbl.erase_type_size_arr.length = 4 →
      sfdp_info.smptbl.region_erase_types_bitfld[0]? = some b0 →
      ∃ (sfdp_info1 : sfdp_hdr_info) (b1 : Nat),
        erase_types_loop bptbl_ptr k i_ind bitfield sfdp_info = some sfdp_info1 ∧
        sfdp_info1.smptbl.regions_min_common_erase_size
          = ((List.range' i_ind k).map (fun j => 2 ^ bptbl_ptr.getD (28 + 2 * j) 0)).foldl
              min_erase_size_step sfdp_info.smptbl.regions_min_common_erase_size ∧
        sfdp_info1.smptbl.region_erase_types_bitfld
          = sfdp_info.smptbl.region_erase_types_bitfld.set 0 b1 ∧
        (b0 < 256 → b1 < 256 ∧
          ∀ j, b1.testBit j
            = (b0.testBit j ||
                decide (i_ind ≤ j ∧ j < 4 ∧ 2 ^ bptbl_ptr.getD (28 + 2 * j) 0 > 1))) := by
  intro k
  induction k with
  | zero =>
    intro i_ind bitfield sfdp_info b0 hi _ _ _ hb0
    refine ⟨sfdp_info, b0, rfl, rfl, (set_zero_of_getElem? _ _ hb0).symm, fun h => ⟨h, ?_⟩⟩
    intro j
    have hfalse : ¬ (i_ind ≤ j ∧ j < 4 ∧ 2 ^ bptbl_ptr.getD (28 + 2 * j) 0 > 1) := by omega
    rw [decide_eq_false hfalse, Bool.or_false]
  | succ k ih =>
    intro i_ind bitfield sfdp_info b0 hi hmask hinst hsize hb0
    subst hmask
    have hi4 : i_ind < 4 := by omega
    have hl0 : 0 < sfdp_info.smptbl.region_erase_types_bitfld.length :=
      (List.getElem?_eq_some.1 hb0).1
    obtain ⟨info0, hstep, hinst0, hsize0, hmin0, hbf0⟩ :=
      erase_type_iteration_defaults bptbl_ptr i_ind (2 ^ i_ind) sfdp_info b0 hlen hi4
        (hexp i_ind hi4) hinst hsize hb0
    obtain ⟨info1, b1, hloop, hmin, hbf, hbits⟩ :=
      ih (i_ind + 1) (2 ^ (i_ind + 1)) info0
        (if 2 ^ bptbl_ptr.getD (28 + 2 * i_ind) 0 > 1 then (b0 ||| 2 ^ i_ind) % 2 ^ 8 else b0)
        (by omega) rfl hinst0 hsize0 (by rw [hbf0]; exact List.getElem?_set_self hl0)
    refine ⟨info1, b1, ?_, ?_, ?_, ?_⟩
    · rw [erase_types_loop, hstep]
      simp only
      rw [shiftLeft_one_mask i_ind hi4]
      exact hloop
    · rw [hmin, hmin0, List.range'_succ, List.map_cons, List.foldl_cons]
    · rw [hbf, hbf0, List.set_set]
    · intro hb256
      have hpow : 2 ^ i_ind < 2 ^ 8 := Nat.pow_lt_pow_right (by omega) (by omega)
      have hor : b0 ||| 2 ^ i_ind < 2 ^ 8 := Nat.or_lt_two_pow hb256 hpow
      have hmod : (b0 ||| 2 ^ i_ind) % 2 ^ 8 = b0 ||| 2 ^ i_ind := Nat.mod_eq_of_lt hor
      by_cases hgt : 2 ^ bptbl_ptr.getD (28 + 2 * i_ind) 0 > 1
      · rw [if_pos hgt, hmod] at hbits
        obtain ⟨hb1, htest⟩ := hbits hor
        refine ⟨hb1, fun j => ?_⟩
        rw [htest j, Nat.testBit_or, Nat.testBit_two_pow]
        by_cases hji : i_ind = j
        · subst hji
          have h1 : i_ind ≤ i_ind ∧ i_ind < 4 ∧ 2 ^ bptbl_ptr.getD (28 + 2 * i_ind) 0 > 1 :=
            ⟨le_refl _, hi4, hgt⟩
          rw [decide_eq_true h1, decide_eq_true rfl]
          simp
        · have h1 : (i_ind + 1 ≤ j ∧ j < 4 ∧ 2 ^ bptbl_ptr.getD (28 + 2 * j) 0 > 1) ↔
              (i_ind ≤ j ∧ j < 4 ∧ 2 ^ bptbl_ptr.getD (28 + 2 * j) 0 > 1) := by
            constructor
            · rintro ⟨a, b, c⟩
              exact ⟨by omega, b, c⟩
            · rintro ⟨a, b, c⟩
              exact ⟨by omega, b, c⟩
          rw [decide_eq_false hji, Bool.or_false, decide_eq_decide.2 h1]
      · rw [if_neg hgt] at hbits
        obtain ⟨hb1, htest⟩ := hbits hb256
        refine ⟨hb1, fun j => ?_⟩
        rw [htest j]
        have h1 : (i_ind + 1 ≤ j ∧ j < 4 ∧ 2 ^ bptbl_ptr.getD (28 + 2 * j) 0 > 1) ↔
            (i_ind ≤ j ∧ j < 4 ∧ 2 ^ bptbl_ptr.getD (28 + 2 * j) 0 > 1) := by
          constructor
          · rintro ⟨a, b, c⟩
            exact ⟨by omega, b, c⟩
          · rintro ⟨a, b, c⟩
            refine ⟨?_, b, c⟩
            by_contra hlt
            have hji : j = i_ind := by omega
            subst hji
            exact hgt c
        rw [decide_eq_decide.2 h1]

/-- C33: for every Basic table with `bptbl.size > 28` and size exponents
below 32 (table of at least 36 bytes, erase type arrays of 4 entries), when
the call starts with `regions_min_common_erase_size == 0`,
`sfdp_detect_erase_types_inst_and_size` returns 0 with `erase_type_size_arr[i]
== 2^byte[28+2i]` and `regions_min_common_erase_size` equal to the minimum
of these sizes over the implemented types (those with size > 1), and equal
to 0 when no type is implemented. -/
theorem detect_erase_types_default_common_size (bptbl_ptr : List Nat)
    (sfdp_info : sfdp_hdr_info)
    (hsize : sfdp_info.bptbl.size > 28) (hlen : 36 ≤ bptbl_ptr.length)
    (hexp : ∀ j, j < 4 → bptbl_ptr.getD (28 + 2 * j) 0 < 32)
    (hinst_arr : sfdp_info.smptbl.erase_type_inst_arr.length = 4)
    (hsize_arr : sfdp_info.smptbl.erase_type_size_arr.length = 4)
    (hbitfld : 0 < sfdp_info.smptbl.region_erase_types_bitfld.length)
    (hmin0 : sfdp_info.smptbl.regions_min_common_erase_size = 0) :
    ∃ sfdp_info1 : sfdp_hdr_info,
      sfdp_detect_erase_types_inst_and_size bptbl_ptr sfdp_info = some (0, sfdp_info1) ∧
      (∀ i, i < 4 →
        sfdp_info1.smptbl.erase_type_size_arr[i]? = some (2 ^ bptbl_ptr.getD (28 + 2 * i) 0)) ∧
      ((∀ i, i < 4 → ¬ 2 ^ bptbl_ptr.getD (28 + 2 * i) 0 > 1) →
        sfdp_info1.smptbl.regions_min_common_erase_size = 0) ∧
      ((∃ i, i < 4 ∧ 2 ^ bptbl_ptr.getD (28 + 2 * i) 0 > 1) →
        (∃ i, i < 4 ∧ 2 ^ bptbl_ptr.getD (28 + 2 * i) 0 > 1 ∧
          sfdp_info1.smptbl.regions_min_common_erase_size
            = 2 ^ bptbl_ptr.getD (28 + 2 * i) 0) ∧
        ∀ j, j < 4 → 2 ^ bptbl_ptr.getD (28 + 2 * j) 0 > 1 →
          sfdp_info1.smptbl.regions_min_common_erase_size
            ≤ 2 ^ bptbl_ptr.getD (28 + 2 * j) 0) := by
  obtain ⟨b0, hb0⟩ : ∃ b0, sfdp_info.smptbl.region_erase_types_bitfld[0]? = some b0 :=
    ⟨_, List.getElem?_eq_getElem hbitfld⟩
  obtain ⟨info1, b1, hloop, hmin, _, _⟩ :=
    erase_types_loop_defaults bptbl_ptr hlen hexp 4 0 0x01 sfdp_info b0 rfl rfl hinst_arr
      hsize_arr hb0
  obtain ⟨info2, hloop2, _, _, hdec⟩ :=
    erase_types_loop_arrays bptbl_ptr hlen hexp 4 0 0x01 sfdp_info rfl hinst_arr hsize_arr
      hbitfld
  have heq : info2 = info1 := Option.some.inj (hloop2.symm.trans hloop)
  subst heq
  rw [hmin0] at hmin
  have hmem : ∀ sz, sz ∈ (List.range' 0 4).map (fun j => 2 ^ bptbl_ptr.getD (28 + 2 * j) 0) ↔
      ∃ j, j < 4 ∧ 2 ^ bptbl_ptr.getD (28 + 2 * j) 0 = sz := by
    intro sz
    rw [List.mem_map]
    constructor
    · rintro ⟨j, hj, hsz⟩
      rw [List.mem_range'_1] at hj
      exact ⟨j, by omega, hsz⟩
    · rintro ⟨j, hj, hsz⟩
      exact ⟨j, by rw [List.mem_range'_1]; omega, hsz⟩
  obtain ⟨f1, f2, _⟩ := foldl_min_erase_size_step
    ((List.range' 0 4).map (fun j => 2 ^ bptbl_ptr.getD (28 + 2 * j) 0)) 0
  rw [← hmin] at f1 f2
  refine ⟨info2, ?_, fun i hi => (hdec i (by omega) hi).1, ?_, ?_⟩
  · unfold sfdp_detect_erase_types_inst_and_size
    rw [if_pos (show sfdp_info.bptbl.size > SFDP_BASIC_PARAM_TABLE_ERASE_TYPE_1_SIZE_BYTE
      from hsize), hloop]
    rfl
  · intro hnone
    rcases f1 with h | ⟨h, hgt⟩
    · exact h
    · obtain ⟨j, hj, hsz⟩ := (hmem _).1 h
      rw [← hsz] at hgt
      exact absurd hgt (hnone j hj)
  · rintro ⟨i, hi, hgt⟩
    obtain ⟨_, hne⟩ := f2 _ ((hmem _).2 ⟨i, hi, rfl⟩) hgt
    constructor
    · rcases f1 with h | ⟨h, hgt1⟩
      · exact absurd h hne
      · obtain ⟨j, hj, hsz⟩ := (hmem _).1 h
        exact ⟨j, hj, by rw [hsz]; exact hgt1, hsz.symm⟩
    · intro j hj hgtj
      exact (f2 _ ((hmem _).2 ⟨j, hj, rfl⟩) hgtj).1

/-- An instance of C33: erase types of 4 KiB, 32 KiB and 64 KiB and a fourth
type that is not implemented give the default common erase size 4096. -/
theorem detect_erase_types_default_common_size_witness :
    (∃ sfdp_info1 : sfdp_hdr_info,
      sfdp_detect_erase_types_inst_and_size
        (example_basic_table 0x20 0xF1 0x03FFFFFF example_erase_types 0x80)
        (example_fresh_info 64) = some (0, sfdp_info1) ∧
      ∀ i, i < 4 →
        sfdp_info1.smptbl.erase_type_size_arr[i]?
          = some (2 ^ (example_basic_table 0x20 0xF1 0x03FFFFFF example_erase_types 0x80).getD
              (28 + 2 * i) 0)) ∧
    (sfdp_detect_erase_types_inst_and_size
        (example_basic_table 0x20 0xF1 0x03FFFFFF example_erase_types 0x80)
        (example_fresh_info 64)).map
      (fun p => (p.1, p.2.smptbl.erase_type_size_arr, p.2.smptbl.regions_min_common_erase_size))
      = some (0, [4096, 32768, 65536, 1], 4096) := by
  obtain ⟨info1, h1, h2, _⟩ := detect_erase_types_default_common_size
    (example_basic_table 0x20 0xF1 0x03FFFFFF example_erase_types 0x80) (example_fresh_info 64)
    (by decide) (by decide) (by decide) (by decide) (by decide) (by decide) (by decide)
  exact ⟨⟨info1, h1, h2⟩, by decide⟩

/-- C34: for every Basic table with `bptbl.size > 28` and size exponents
below 32 (table of at least 36 bytes, erase type arrays of 4 entries), when
the call starts with `region_erase_types_bitfld[0] == 0`,
`sfdp_detect_erase_types_inst_and_size` returns 0 and bit `i` of
`region_erase_types_bitfld[0]` is set if and only if erase type `i` is
implemented (decoded size `2^byte[28+2i] > 1`), for `i` in 0..3, and the bits
from 4 on are clear; the bitfields of the other regions are unchanged. -/
theorem detect_erase_types_default_bitfield (bptbl_ptr : List Nat)
    (sfdp_info : sfdp_hdr_info)
    (hsize : sfdp_info.bptbl.size > 28) (hlen : 36 ≤ bptbl_ptr.length)
    (hexp : ∀ j, j < 4 → bptbl_ptr.getD (28 + 2 * j) 0 < 32)
    (hinst_arr : sfdp_info.smptbl.erase_type_inst_arr.length = 4)
    (hsize_arr : sfdp_info.smptbl.erase_type_size_arr.length = 4)
    (hb0 : sfdp_info.smptbl.region_erase_types_bitfld[0]? = some 0) :
    ∃ (sfdp_info1 : sfdp_hdr_info) (b1 : Nat),
      sfdp_detect_erase_types_inst_and_size bptbl_ptr sfdp_info = some (0, sfdp_info1) ∧
      sfdp_info1.smptbl.region_erase_types_bitfld[0]? = some b1 ∧
      (∀ i, i < 4 → (b1.testBit i = true ↔ 2 ^ bptbl_ptr.getD (28 + 2 * i) 0 > 1)) ∧
      (∀ j, 4 ≤ j → b1.testBit j = false) ∧
      (∀ i, i < 4 →
        sfdp_info1.smptbl.erase_type_size_arr[i]? = some (2 ^ bptbl_ptr.getD (28 + 2 * i) 0)) ∧
      sfdp_info1.smptbl.region_erase_types_bitfld.tail
        = sfdp_info.smptbl.region_erase_types_bitfld.tail ∧
      sfdp_info1.smptbl.region_erase_types_bitfld.length
        = sfdp_info.smptbl.region_erase_types_bitfld.length := by
  have hbitfld : 0 < sfdp_info.smptbl.region_erase_types_bitfld.length :=
    (List.getElem?_eq_some.1 hb0).1
  obtain ⟨info1, b1, hloop, _, hbf, hbits⟩ :=
    erase_types_loop_defaults bptbl_ptr hlen hexp 4 0 0x01 sfdp_info 0 rfl rfl hinst_arr
      hsize_arr hb0
  obtain ⟨info2, hloop2, _, _, hdec⟩ :=
    erase_types_loop_arrays bptbl_ptr hlen hexp 4 0 0x01 sfdp_info rfl hinst_arr hsize_arr
      hbitfld
  have heq : info2 = info1 := Option.some.inj (hloop2.symm.trans hloop)
  subst heq
  obtain ⟨_, htest⟩ := hbits (by omega)
  refine ⟨info2, b1, ?_, ?_, ?_, ?_, fun i hi => (hdec i (by omega) hi).1, ?_, ?_⟩
  · unfold sfdp_detect_erase_types_inst_and_size
    rw [if_pos (show sfdp_info.bptbl.size > SFDP_BASIC_PARAM_TABLE_ERASE_TYPE_1_SIZE_BYTE
      from hsize), hloop]
    rfl
  · rw [hbf]
    exact List.getElem?_set_self hbitfld
  · intro i hi
    rw [htest i, Nat.zero_testBit, Bool.false_or, decide_eq_true_iff]
    constructor
    · rintro ⟨_, _, h⟩
      exact h
    · intro h
      exact ⟨Nat.zero_le i, hi, h⟩
  · intro j hj
    rw [htest j, Nat.zero_testBit, Bool.false_or, decide_eq_false_iff_not]
    rintro ⟨_, h, _⟩
    omega
  · rw [hbf]
    cases sfdp_info.smptbl.region_erase_types_bitfld <;> rfl
  · rw [hbf, List.length_set]

/-- An instance of C34: erase types of 4 KiB, 32 KiB and 64 KiB and a fourth
type that is not implemented give the default bitfield 0b0111 for region 0
and leave the other bitfields alone. -/
theorem detect_erase_types_default_bitfield_witness :
    (∃ (sfdp_info1 : sfdp_hdr_info) (b1 : Nat),
      sfdp_detect_erase_types_inst_and_size
        (example_basic_table 0x20 0xF1 0x03FFFFFF example_erase_types 0x80)
        (example_fresh_info 64) = some (0, sfdp_info1) ∧
      sfdp_info1.smptbl.region_erase_types_bitfld[0]? = some b1 ∧
      ∀ j, 4 ≤ j → b1.testBit j = false) ∧
    (sfdp_detect_erase_types_inst_and_size
        (example_basic_table 0x20 0xF1 0x03FFFFFF example_erase_types 0x80)
        (example_fresh_info 64)).map
      (fun p => (p.1, p.2.smptbl.region_erase_types_bitfld))
      = some (0, [0b0111, 0, 0, 0, 0, 0, 0, 0, 0, 0]) := by
  obtain ⟨info1, b1, h1, h2, _, h4, _⟩ := detect_erase_types_default_bitfield
    (example_basic_table 0x20 0xF1 0x03FFFFFF example_erase_types 0x80) (example_fresh_info 64)
    (by decide) (by decide) (by decide) (by decide) (by decide) (by decide)
  exact ⟨⟨info1, b1, h1, h2, h4⟩, by decide⟩

end SFDP
